import Mathlib

/-!
# cxx-enumext: the never-valueless tagged union `rust::enm::variant_base`

A shallow embedding of `include/rust/cxx_enumext.h` (the union, its accessors, `optional` and
`expected`), of the declaration macros of `include/rust/cxx_enumext_macros.h`, and of the
functions of `tests/suite/tests.cpp` and the static checks of `src/cxx_enumext.cpp` that use
them.

* An alternative list `Ts...` is a `List τ`; `std::is_same` is equality on `τ`.
* What the engine needs to know about an alternative type (its size, whether its copy
  constructor exists / is `noexcept`, whether it is nothrow move constructible, ...) is
  supplied by the class `AltTraits τ`.
* `m_Index` is a C `int` (an `Int`); wherever the source compares it with, or passes it as, a
  `std::size_t` the conversion `size_t_of_int` (reduction modulo `2^64`) is applied.
* `m_Buff` is a list of bytes.  Next to the bytes the model keeps one piece of ghost state,
  `Storage.object`: the type of the object whose lifetime is currently running in the buffer
  (`none` after a destructor ran or a constructor threw half way).
* Every operation returns the new state of `*this`, its outcome (returned value, propagated
  exception, or rejection at compile time) and the trace of constructor / destructor calls
  it performed.
* Where a member can run into undefined behaviour (a destructor that runs twice, an operand
  read after its destructor ran) it returns a `Behaviour`: the calls it makes and, when the
  language defines it, the state afterwards.
* An overload for a `const` object is a definition of its own where its body differs from the
  overload for an object that is not `const` (`get_if_const`, `expected.value_const`).
* The special member functions of the alternative types are parameters.  A copy or move
  construction that completes yields an object equal to its source, and whether it throws is
  a function of the source.
-/

namespace rust.enm

/-- Raw object representation: the bytes an object occupies. -/
abbrev Bytes := List Nat

/-- Exceptions that can leave the engine. -/
inductive Exn where
  /-- Thrown by `throw_if_invalid`: `variant_base::bad_rust_variant_access(index)`. -/
  | bad_rust_variant_access (index : Nat)
  /-- Standard `std::out_of_range(what)`. -/
  | out_of_range (what : String)
  /-- Thrown by `optional::value`: `bad_rust_optional_access()`. -/
  | bad_rust_optional_access
  /-- Thrown by `expected::value`: `bad_rust_expected_access<E>(error)`. -/
  | bad_rust_expected_access (error : Bytes)
  /-- Any exception thrown by a special member function of an alternative type. -/
  | alternative (code : Nat)
  deriving DecidableEq, Repr

/-- Outcome of a call: it returns, it propagates an exception, or it is rejected when the
program is compiled (SFINAE, `static_assert`, deleted function). -/
inductive Outcome (α : Type) where
  | returned (a : α)
  | thrown (e : Exn)
  | ill_formed
  deriving DecidableEq, Repr

/-- Value of an expression of a well-formed program: a value, or nothing the language defines
(undefined behaviour). -/
inductive Evaluation (α : Type) where
  | value (a : α)
  | undefined
  deriving DecidableEq, Repr

/-- What running a constructor does: it completes an object with the given representation, or
throws after having written `scribbled` over the start of the memory it was building in. -/
inductive Attempt where
  | built (object : Bytes)
  | failed (e : Exn) (scribbled : Bytes)
  deriving DecidableEq, Repr

/-- One constructor call `T(std::forward<Args>(args)...)`: `noexcept` when
`std::is_nothrow_constructible_v<T, Args...>` holds (then it completes the object), otherwise
`may_throw` together with what this particular call does. -/
inductive Construction where
  | noexcept (object : Bytes)
  | may_throw (run : Attempt)
  deriving DecidableEq, Repr

/-- Running a constructor call. -/
def Construction.run : Construction → Attempt
  | .noexcept object => .built object
  | .may_throw a => a

/-- The constructor of an alternative type `T` that is selected for a source of type `T`
(copy constructor for a `const` or lvalue source, move constructor for an rvalue source): it
is missing or deleted, `noexcept`, or potentially throwing.  A construction that completes
yields an object equal to its source; `fails` says for which sources a potentially throwing
constructor throws (and what it scribbled before). -/
inductive SpecialCtor where
  | deleted
  | noexcept
  | may_throw (fails : Bytes → Option (Exn × Bytes))

/-- The constructor call `T(source)`; `none` when the constructor is not usable. -/
def SpecialCtor.call : SpecialCtor → Bytes → Option Construction
  | .deleted, _ => none
  | .noexcept, source => some (.noexcept source)
  | .may_throw fails, source =>
    match fails source with
    | none => some (.may_throw (.built source))
    | some (e, scribbled) => some (.may_throw (.failed e scribbled))

/-- Whether the constructor can be called: `std::is_constructible_v`. -/
def SpecialCtor.is_constructible : SpecialCtor → Bool
  | .deleted => false
  | _ => true

/-- Whether the constructor can be called and is `noexcept`: `std::is_nothrow_constructible_v`. -/
def SpecialCtor.is_nothrow_constructible : SpecialCtor → Bool
  | .noexcept => true
  | _ => false

/-- Value category and constness of an operand `T &&other` of alternative type. -/
inductive ValueCategory where
  | const_lvalue
  | lvalue
  | rvalue
  deriving DecidableEq, Repr

/-- Type traits of the alternative types, as queried by the engine. -/
class AltTraits (τ : Type) where
  /-- Size `sizeof(T)`. -/
  sizeof : τ → Nat
  /-- Alignment `alignof(T)`. -/
  alignof : τ → Nat
  /-- The constructor selected by `T(const T&)`. -/
  copy : τ → SpecialCtor
  /-- The constructor selected by `T(T&&)`. -/
  move : τ → SpecialCtor
  /-- Trait `std::is_nothrow_assignable_v<U, U &&>` for `U` the type deduced for an operand of
  type `T` and the given value category (`const T&`, `T&` or `T`). -/
  nothrow_assignable : τ → ValueCategory → Bool
  /-- The unit marker type `rust::enm::monostate`. -/
  monostate : τ

/-- What the engine's callers need to know about the destructors of the alternative types. -/
class DestructorTraits (τ : Type) where
  /-- Trait `std::is_trivially_destructible_v<T>`: the destructor call `value.~T()` runs no code
  and leaves the object as it is.  The destructor of any other type releases what the object
  owns and ends its lifetime; running it again on the same object is undefined behaviour. -/
  is_trivially_destructible : τ → Bool

/-- Where an object lives: in the union's `m_Buff`, or in a local of the running function. -/
inductive Place where
  | storage
  | temporary
  deriving DecidableEq, Repr

/-- Calls of special member functions of alternative types, in program order. -/
inductive Event (τ : Type) where
  /-- A constructor call `T(args...)` completed. -/
  | construct (T : τ) (place : Place)
  /-- A constructor call `T(args...)` threw. -/
  | construct_failed (T : τ) (place : Place)
  /-- The copy constructor `T(const T&)` completed. -/
  | copy_construct (T : τ) (place : Place)
  /-- The copy constructor `T(const T&)` threw. -/
  | copy_construct_failed (T : τ) (place : Place)
  /-- An assignment operator of `T` ran on the stored object. -/
  | assign (T : τ)
  /-- The destructor `~T()` ran on `object`. -/
  | destroy (T : τ) (place : Place) (object : Bytes)
  deriving DecidableEq, Repr

/-! ## Alternative index resolver -/

/-- Member `variant_alternative<I, Ts...>::type`; `none` for the specialisation without a `type`
member (invalid index). -/
def variant_alternative {τ : Type} : Nat → List τ → Option τ
  | _, [] => none
  | 0, First :: _ => some First
  | I + 1, _ :: Remainder => variant_alternative I Remainder

/-- Function `compile_time_count<Values...>()`: `0 + (size_t(Values) + ...)`. -/
def compile_time_count : List Bool → Nat
  | [] => 0
  | v :: Values => (if v then 1 else 0) + compile_time_count Values

/-- Constant `exactly_once<Values...>::value`. -/
def exactly_once (Values : List Bool) : Bool :=
  compile_time_count Values == 1

/-- Constant `index_from_booleans<I, Values...>::value`; `none` when the pack holds no `true`
(the empty specialisation has no `value`). -/
def index_from_booleans : Nat → List Bool → Option Nat
  | _, [] => none
  | I, true :: _ => some I
  | I, false :: Remainder => index_from_booleans (I + 1) Remainder

/-- The pack `std::is_same_v<std::decay_t<Type>, Ts>...`. -/
def is_same_pack {τ : Type} [DecidableEq τ] (T : τ) (Ts : List τ) : List Bool :=
  Ts.map (fun U => decide (T = U))

/-- Constant `variant_base::is_unique_v<T>`. -/
def is_unique_v {τ : Type} [DecidableEq τ] (T : τ) (Ts : List τ) : Bool :=
  exactly_once (is_same_pack T Ts)

/-- Constant `index_from_type<Type, Ts...>::value`; `none` when the `static_assert` "Index must be
unique" fires. -/
def index_from_type {τ : Type} [DecidableEq τ] (T : τ) (Ts : List τ) : Option Nat :=
  if exactly_once (is_same_pack T Ts) then index_from_booleans 0 (is_same_pack T Ts)
  else none

/-! ## Storage and the union value -/

/-- A byte buffer together with the ghost record of the object living in it. -/
structure Storage (τ : Type) where
  /-- The bytes of the buffer. -/
  bytes : Bytes
  /-- Ghost: type of the object whose lifetime is running in the buffer. -/
  object : Option τ
  deriving DecidableEq, Repr

/-- The data members of `variant_base<Ts...>`. -/
structure variant_base (τ : Type) where
  /-- Member `int m_Index`. -/
  m_Index : Int
  /-- Member `std::byte m_Buff[std::max(sizeof(Ts)...)]`. -/
  m_Buff : Storage τ
  deriving DecidableEq, Repr

/-- Conversion of an `int` to `std::size_t` (64 bit): a non-negative value is kept, a negative
one wraps around modulo `2^64`. -/
def size_t_of_int (i : Int) : Nat :=
  if 0 ≤ i then i.toNat else (i + (2 : Int) ^ 64).toNat

/-- Extent of `m_Buff`: `std::max(sizeof(Ts)...)`. -/
def buff_size {τ : Type} [AltTraits τ] : List τ → Nat
  | [] => 0
  | T :: Ts => max (AltTraits.sizeof T) (buff_size Ts)

/-- The object `*reinterpret_cast<T *>(data)`: the first `sizeof(T)` bytes. -/
def view {τ : Type} [AltTraits τ] (T : τ) (data : Bytes) : Bytes :=
  data.take (AltTraits.sizeof T)

/-- The bytes of a buffer of fixed extent after `object` was written at its start. -/
def overwrite (buff : Bytes) (object : Bytes) : Bytes :=
  (object ++ buff.drop object.length).take buff.length

/-- What `new (static_cast<void *>(m_Buff)) T(...)` leaves in the buffer: the new object when
the constructor completes, otherwise no object and whatever the constructor scribbled. -/
def placement_new {τ : Type} (buff : Storage τ) (T : τ) : Attempt → Storage τ
  | .built object => { bytes := overwrite buff.bytes object, object := some T }
  | .failed _ scribbled => { bytes := overwrite buff.bytes scribbled, object := none }

/-- Standard `std::memcpy(dst, src, n)`; the bytes carry the object they represent with them. -/
def memcpy {τ : Type} (dst src : Storage τ) (n : Nat) : Storage τ :=
  { bytes := src.bytes.take n ++ dst.bytes.drop n, object := src.object }

/-- Standard `std::swap_ranges(a, a + n, b)`: the new contents of `a` and of `b`. -/
def swap_ranges {τ : Type} (a b : Storage τ) (n : Nat) : Storage τ × Storage τ :=
  (memcpy a b n, memcpy b a n)

/-- State of `*this`, outcome and trace of a member function call. -/
structure Effect (τ : Type) (α : Type) where
  /-- The union after the call. -/
  self : variant_base τ
  /-- What the caller observes. -/
  result : Outcome α
  /-- Constructor and destructor calls made, in order. -/
  trace : List (Event τ)
  deriving DecidableEq, Repr

/-- Outcome and trace of a constructor call of the union (there is no object when it does
not return). -/
structure Created (τ : Type) where
  /-- The constructed union, or why there is none. -/
  result : Outcome (variant_base τ)
  /-- Constructor and destructor calls made, in order. -/
  trace : List (Event τ)
  deriving DecidableEq, Repr

/-- Outcome of a member call whose behaviour the language may leave undefined: the special
member calls its body makes, and what the call leaves behind when its behaviour is defined. -/
structure Behaviour (τ : Type) (σ : Type) where
  /-- Constructor and destructor calls the body makes, in program order. -/
  trace : List (Event τ)
  /-- The objects the call works on as they are after the call, and what the caller observes;
  `undefined` when one of the calls of `trace` has undefined behaviour. -/
  effect : Evaluation (σ × Outcome Unit)
  deriving DecidableEq, Repr

/-! ## Dispatch -/

/-- Function `visitor_type<First, Remainder...>::visit(visitor, index, data)`; the visitor
receives the static type `First` and the object `*reinterpret_cast<First *>(data)`. -/
def visitor_type.visit {τ ρ : Type} [AltTraits τ] (visitor : τ → Bytes → ρ) :
    List τ → Nat → Bytes → Outcome ρ
  | [], _, _ => .ill_formed
  | First :: Remainder, index, data =>
    if index = 0 then .returned (visitor First (view First data))
    else if Remainder.length ≠ 0 then visitor_type.visit visitor Remainder (index - 1) data
    else .thrown (.out_of_range "invalid")

/-- Function `visit(visitor, variant)`: dispatch on `variant.m_Index` (converted to
`std::size_t`) over `variant.m_Buff`. -/
def visit {τ ρ : Type} [AltTraits τ] (visitor : τ → Bytes → ρ) (Ts : List τ)
    (variant : variant_base τ) : Outcome ρ :=
  visitor_type.visit visitor Ts (size_t_of_int variant.m_Index) variant.m_Buff.bytes

/-! ## Accessors -/

/-- Member `variant_base::index()`. -/
def variant_base.index {τ : Type} (self : variant_base τ) : Nat :=
  size_t_of_int self.m_Index

/-- Member `variant_base::throw_if_invalid<I>()`: the exception it throws, if any (the caller
has checked `I < sizeof...(Ts)`). -/
def variant_base.throw_if_invalid {τ : Type} (I : Nat) (self : variant_base τ) : Option Exn :=
  if size_t_of_int self.m_Index ≠ I then
    some (.bad_rust_variant_access (size_t_of_int self.m_Index))
  else none

/-- Accessor `get<I>(variant)`: the object the returned reference designates. -/
def get {τ : Type} [AltTraits τ] (Ts : List τ) (I : Nat) (variant : variant_base τ) :
    Outcome Bytes :=
  match variant_alternative I Ts with
  | none => .ill_formed
  | some T =>
    match variant.throw_if_invalid I with
    | some e => .thrown e
    | none => .returned (view T variant.m_Buff.bytes)

/-- Accessor `get<T>(variant)`. -/
def get_type {τ : Type} [DecidableEq τ] [AltTraits τ] (Ts : List τ) (T : τ)
    (variant : variant_base τ) : Outcome Bytes :=
  if is_unique_v T Ts then
    match index_from_type T Ts with
    | none => .ill_formed
    | some index => get Ts index variant
  else .ill_formed

/-- Member `variant_base::destroy()`: visit `*this` with the visitor that runs `value.~type()`.
The call is recorded whether or not an object is alive in `m_Buff`; running a destructor that
is not trivial on storage without a live object is undefined behaviour, which the callers that
reach this state report (`optional.reset`). -/
def variant_base.destroy {τ : Type} [AltTraits τ] (Ts : List τ) (self : variant_base τ) :
    Effect τ Unit :=
  match visit (fun type value => Event.destroy type Place.storage value) Ts self with
  | .returned destructor_call =>
    { self := { self with m_Buff := { self.m_Buff with object := none } },
      result := .returned (), trace := [destructor_call] }
  | .thrown e => { self := self, result := .thrown e, trace := [] }
  | .ill_formed => { self := self, result := .ill_formed, trace := [] }

/-- The tail of `emplace<I>`: `m_Index = I; return get<I>(*this);`. -/
def variant_base.emplace_finish {τ : Type} [AltTraits τ] (Ts : List τ) (I : Nat)
    (self : variant_base τ) (trace : List (Event τ)) : Effect τ Bytes :=
  { self := { self with m_Index := (I : Int) },
    result := get Ts I { self with m_Index := (I : Int) },
    trace := trace }

/-- Member `variant_base::emplace<I>(args...)`, with `T = type_from_index_t<I>`.

* `args = .noexcept _` is the branch `std::is_nothrow_constructible_v<T, Args...>`;
* otherwise `std::is_nothrow_move_constructible_v<T>` selects the branch that builds
  `const T tmp` first: `T(std::move(tmp))` with a `const` operand is a call of the copy
  constructor `T(const T&)`;
* otherwise the backup branch with `old_buff`. -/
def variant_base.emplace {τ : Type} [AltTraits τ] (Ts : List τ) (I : Nat)
    (args : Construction) (self : variant_base τ) : Effect τ Bytes :=
  match variant_alternative I Ts with
  | none => { self := self, result := .ill_formed, trace := [] }
  | some T =>
    match args with
    | .noexcept object =>
      -- destroy(); new (m_Buff) T(args...);
      let destroyed := self.destroy Ts
      match destroyed.result with
      | .returned _ =>
        variant_base.emplace_finish Ts I
          { destroyed.self with
            m_Buff := placement_new destroyed.self.m_Buff T (.built object) }
          (destroyed.trace ++ [.construct T .storage])
      | .thrown e => { self := destroyed.self, result := .thrown e, trace := destroyed.trace }
      | .ill_formed => { self := destroyed.self, result := .ill_formed, trace := destroyed.trace }
    | .may_throw run =>
      if (AltTraits.move T).is_nothrow_constructible then
        match (AltTraits.copy T) with
        | .deleted => { self := self, result := .ill_formed, trace := [] }
        | copy_ctor =>
          -- const T tmp{args...};
          match run with
          | .failed e _ =>
            { self := self, result := .thrown e, trace := [.construct_failed T .temporary] }
          | .built tmp =>
            -- destroy();
            let destroyed := self.destroy Ts
            match destroyed.result with
            | .returned _ =>
              -- new (m_Buff) T(std::move(tmp));  then tmp goes out of scope
              match copy_ctor.call tmp with
              | none => { self := self, result := .ill_formed, trace := [] }
              | some from_tmp =>
                match from_tmp.run with
                | .built object =>
                  variant_base.emplace_finish Ts I
                    { destroyed.self with
                      m_Buff := placement_new destroyed.self.m_Buff T (.built object) }
                    (.construct T .temporary :: destroyed.trace ++
                      [.copy_construct T .storage, .destroy T .temporary tmp])
                | .failed e scribbled =>
                  { self := { destroyed.self with
                      m_Buff := placement_new destroyed.self.m_Buff T (.failed e scribbled) },
                    result := .thrown e,
                    trace := .construct T .temporary :: destroyed.trace ++
                      [.copy_construct_failed T .storage, .destroy T .temporary tmp] }
            | .thrown e =>
              { self := destroyed.self, result := .thrown e,
                trace := .construct T .temporary :: destroyed.trace ++
                  [.destroy T .temporary tmp] }
            | .ill_formed =>
              { self := destroyed.self, result := .ill_formed, trace := destroyed.trace }
      else
        -- std::byte old_buff[...]; std::memcpy(old_buff, m_Buff, sizeof(m_Buff));
        let n := self.m_Buff.bytes.length
        let old_buff := memcpy { bytes := List.replicate n 0, object := none } self.m_Buff n
        match run with
        | .failed e scribbled =>
          -- catch (...): std::memcpy(m_Buff, old_buff, sizeof(m_Buff)); throw;
          { self := { self with
              m_Buff := memcpy (placement_new self.m_Buff T (.failed e scribbled)) old_buff n },
            result := .thrown e, trace := [.construct_failed T .storage] }
        | .built object =>
          -- std::swap_ranges(m_Buff, m_Buff + sizeof(m_Buff), old_buff);
          let swapped := swap_ranges (placement_new self.m_Buff T (.built object)) old_buff n
          -- destroy();
          let destroyed := ({ self with m_Buff := swapped.1 }).destroy Ts
          match destroyed.result with
          | .returned _ =>
            -- std::memcpy(m_Buff, old_buff, sizeof(m_Buff));
            variant_base.emplace_finish Ts I
              { destroyed.self with m_Buff := memcpy destroyed.self.m_Buff swapped.2 n }
              (.construct T .storage :: destroyed.trace)
          | .thrown e =>
            { self := destroyed.self, result := .thrown e,
              trace := .construct T .storage :: destroyed.trace }
          | .ill_formed =>
            { self := destroyed.self, result := .ill_formed, trace := destroyed.trace }

/-- Member `variant_base::emplace<T>(args...)`: `emplace<index_from_type_v<T>>(args...)`,
enabled when `is_unique_v<T>`. -/
def variant_base.emplace_type {τ : Type} [DecidableEq τ] [AltTraits τ] (Ts : List τ) (T : τ)
    (args : Construction) (self : variant_base τ) : Effect τ Bytes :=
  if is_unique_v T Ts then
    match index_from_type T Ts with
    | none => { self := self, result := .ill_formed, trace := [] }
    | some index => self.emplace Ts index args
  else { self := self, result := .ill_formed, trace := [] }

/-! ## Constructors -/

/-- An operand `T &&other` of a converting constructor or assignment; overload resolution
requires its decayed type to be an alternative type. -/
structure Operand (τ : Type) where
  /-- The decayed type `std::decay_t<T>`. -/
  type : τ
  /-- The value of `other`. -/
  value : Bytes
  /-- Whether `other` is a `const` lvalue, an lvalue or an rvalue. -/
  category : ValueCategory
  deriving DecidableEq, Repr

/-- The constructor of `std::decay_t<T>` selected by `std::forward<T>(other)`. -/
def Operand.constructor {τ : Type} [AltTraits τ] (other : Operand τ) : SpecialCtor :=
  match other.category with
  | .rvalue => AltTraits.move other.type
  | _ => AltTraits.copy other.type

/-- The constructor call `std::decay_t<T>(std::forward<T>(other))`, when it is well formed. -/
def Operand.construction {τ : Type} [AltTraits τ] (other : Operand τ) : Option Construction :=
  other.constructor.call other.value

/-- Trait `std::is_nothrow_assignable_v<T, T &&>` for the operand. -/
def Operand.nothrow_assignable {τ : Type} [AltTraits τ] (other : Operand τ) : Bool :=
  AltTraits.nothrow_assignable other.type other.category

/-- The operand `const auto &value` of the visitors that copy: a `const` lvalue of `type`. -/
def const_lvalue {τ : Type} [AltTraits τ] (type : τ) (value : Bytes) : Operand τ :=
  { type := type, value := value, category := .const_lvalue }

/-- Constant `variant_base::all_copy_constructible_v`. -/
def all_copy_constructible_v {τ : Type} [AltTraits τ] (Ts : List τ) : Bool :=
  Ts.all (fun T => (AltTraits.copy T).is_constructible)

/-- Constructor `variant_base(std::in_place_index_t<I>, Args &&...args)`, building the union
in the uninitialised bytes `raw`. -/
def variant_base.in_place_index {τ : Type} (Ts : List τ) (I : Nat) (args : Construction)
    (raw : Bytes) : Created τ :=
  match variant_alternative I Ts with
  | none => { result := .ill_formed, trace := [] }
  | some T =>
    -- m_Index = I; new (m_Buff) T(args...);
    match args.run with
    | .built object =>
      { result := .returned
          { m_Index := (I : Int),
            m_Buff := placement_new { bytes := raw, object := none } T (.built object) },
        trace := [.construct T .storage] }
    | .failed e _ => { result := .thrown e, trace := [.construct_failed T .storage] }

/-- Constructor `variant_base(std::in_place_type_t<T>, Args &&...args)`: enabled when
`is_unique_v<T>`, delegates to `std::in_place_index<index_from_type_v<T>>`. -/
def variant_base.in_place_type {τ : Type} [DecidableEq τ] (Ts : List τ) (T : τ)
    (args : Construction) (raw : Bytes) : Created τ :=
  if is_unique_v T Ts then
    match index_from_type T Ts with
    | none => { result := .ill_formed, trace := [] }
    | some index => variant_base.in_place_index Ts index args raw
  else { result := .ill_formed, trace := [] }

/-- Converting constructor `variant_base(T &&other)`: enabled when `is_unique_v<T>` and
`std::is_constructible_v<D, T>`. -/
def variant_base.from_value {τ : Type} [DecidableEq τ] [AltTraits τ] (Ts : List τ)
    (other : Operand τ)
    (raw : Bytes) : Created τ :=
  if is_unique_v other.type Ts then
    match other.construction, index_from_type other.type Ts with
    | some args, some index =>
      -- m_Index = index_from_type_v<D>; new (m_Buff) D(std::forward<T>(other));
      match args.run with
      | .built object =>
        { result := .returned
            { m_Index := (index : Int),
              m_Buff := placement_new { bytes := raw, object := none } other.type
                (.built object) },
          trace := [.construct other.type .storage] }
      | .failed e _ =>
        { result := .thrown e, trace := [.construct_failed other.type .storage] }
    | _, _ => { result := .ill_formed, trace := [] }
  else { result := .ill_formed, trace := [] }

/-- Copy constructor `variant_base(const variant_base &other)`. -/
def variant_base.copy_construct {τ : Type} [AltTraits τ] (Ts : List τ)
    (other : variant_base τ) (raw : Bytes) : Created τ :=
  if all_copy_constructible_v Ts then
    -- m_Index = other.m_Index; visit([this](const auto &value) { new (m_Buff) type(value); })
    match visit (fun type value => (type, (AltTraits.copy type).call value)) Ts other with
    | .returned (type, some copy_call) =>
      match copy_call.run with
      | .built object =>
        { result := .returned
            { m_Index := other.m_Index,
              m_Buff := placement_new { bytes := raw, object := none } type (.built object) },
          trace := [.copy_construct type .storage] }
      | .failed e _ => { result := .thrown e, trace := [.copy_construct_failed type .storage] }
    | .returned (_, none) => { result := .ill_formed, trace := [] }
    | .thrown e => { result := .thrown e, trace := [] }
    | .ill_formed => { result := .ill_formed, trace := [] }
  else { result := .ill_formed, trace := [] }

/-! ## Assignment and swap -/

/-- Converting assignment `variant_base &operator=(T &&other)`: enabled when `is_unique_v<T>`;
its body also instantiates `emplace<std::decay_t<T>>(std::forward<T>(other))`. -/
def variant_base.assign {τ : Type} [DecidableEq τ] [AltTraits τ] (Ts : List τ)
    (other : Operand τ) (self : variant_base τ) : Effect τ Unit :=
  if is_unique_v other.type Ts then
    match index_from_type other.type Ts, other.construction with
    | some index, some args =>
      if size_t_of_int self.m_Index = index ∧ other.nothrow_assignable = true then
        -- get<index>(*this) = std::forward<T>(other); return *this;
        { self := { self with
            m_Buff := { self.m_Buff with bytes := overwrite self.m_Buff.bytes other.value } },
          result := .returned (), trace := [.assign other.type] }
      else
        -- this->emplace<std::decay_t<T>>(std::forward<T>(other)); return *this;
        let emplaced := self.emplace_type Ts other.type args
        { self := emplaced.self,
          result :=
            match emplaced.result with
            | .returned _ => .returned ()
            | .thrown e => .thrown e
            | .ill_formed => .ill_formed,
          trace := emplaced.trace }
    | _, _ => { self := self, result := .ill_formed, trace := [] }
  else { self := self, result := .ill_formed, trace := [] }

/-- Copy assignment `variant_base &operator=(const variant_base &other)`:
`visit([this](const auto &value) { *this = value; }, other)`.  The generic lambda is
instantiated for every alternative, so every alternative must be accepted by the converting
assignment.

Here `other` is given as the value it has when the call is made.  The calls made are those of
the source for every `other`; the state is the one the source reaches when the object that
`value` designates keeps that value while `*this` is rebuilt, which is the case when `other` is
another object than `*this`.  The assignment through the two references, `this == &other`
included, is `variant_base.copy_assign_in`. -/
def variant_base.copy_assign {τ : Type} [DecidableEq τ] [AltTraits τ] (Ts : List τ)
    (self : variant_base τ) (other : variant_base τ) : Effect τ Unit :=
  if all_copy_constructible_v Ts ∧ Ts.all (fun T => is_unique_v T Ts) = true then
    match visit (fun type value => self.assign Ts (const_lvalue type value)) Ts other with
    | .returned assigned => assigned
    | .thrown e => { self := self, result := .thrown e, trace := [] }
    | .ill_formed => { self := self, result := .ill_formed, trace := [] }
  else { self := self, result := .ill_formed, trace := [] }

/-- Member `variant_base::swap(other)` for two distinct unions: the new `*this` and the new
`other`. -/
def variant_base.swap {τ : Type} (self other : variant_base τ) :
    variant_base τ × variant_base τ :=
  -- std::swap_ranges(m_Buff, m_Buff + sizeof(m_Buff), other.m_Buff);
  let swapped := swap_ranges self.m_Buff other.m_Buff self.m_Buff.bytes.length
  -- std::swap(m_Index, other.m_Index);
  ({ m_Index := other.m_Index, m_Buff := swapped.1 },
   { m_Index := self.m_Index, m_Buff := swapped.2 })

/-- Invariant I1 of the data model: the discriminant lies in `[0, N)` and the storage holds a
live object of the alternative type the discriminant names. -/
def never_valueless {τ : Type} [DecidableEq τ] (Ts : List τ) (self : variant_base τ) : Bool :=
  decide (0 ≤ self.m_Index) && decide (self.m_Index < (Ts.length : Int)) &&
    (match variant_alternative self.m_Index.toNat Ts with
     | some T => decide (self.m_Buff.object = some T)
     | none => false)

/-! ## Derived container: optional -/

/-- The alternative list of `optional<T>`, which derives from `variant<monostate, T>`. -/
def optional.types {τ : Type} [AltTraits τ] (T : τ) : List τ :=
  [AltTraits.monostate, T]

/-- The operand `monostate{}`: an empty prvalue, nothrow constructible. -/
def monostate_value {τ : Type} [AltTraits τ] : Operand τ :=
  { type := AltTraits.monostate,
    value := List.replicate (AltTraits.sizeof (AltTraits.monostate : τ)) 0,
    category := .rvalue }

/-- Default constructor `optional() : base(monostate{})`. -/
def optional.default_construct {τ : Type} [DecidableEq τ] [AltTraits τ] (T : τ) (raw : Bytes) :
    Created τ :=
  variant_base.from_value (optional.types T) monostate_value raw

/-- Member `optional::has_value()`. -/
def optional.has_value {τ : Type} (self : variant_base τ) : Bool :=
  self.m_Index == 1

/-- Member `optional::value()`. -/
def optional.value {τ : Type} [AltTraits τ] (T : τ) (self : variant_base τ) : Outcome Bytes :=
  if optional.has_value self then .returned (view T self.m_Buff.bytes)
  else .thrown .bad_rust_optional_access

/-! ## The types of the test suite and of the static checks -/

/-- The C++ types that occur as alternatives in `tests/suite/tests.h` and in the static checks
of `src/cxx_enumext.cpp`, and `ThrowingCopy`, a class with a potentially throwing constructor
from `int`, a `noexcept` move constructor and a copy constructor that throws. -/
inductive CxxType where
  | monostate
  | int
  | int64_t
  | bool
  | rust_String
  | SharedData
  | SharedDataRef
  | Box_RustValue
  | RustValueRef
  | Empty_t
  | Tuple_t
  | Struct_t
  | Unit1_t
  | Unit2_t
  | MoveType
  | CopyType
  | CopyAndMoveType
  | NoCopyAndNoMoveType
  | ThrowingCopy
  deriving DecidableEq, Repr

/-- Sizes on an LP64 target. -/
def CxxType.sizeof : CxxType → Nat
  | .int => 4
  | .int64_t | .SharedDataRef | .Box_RustValue | .RustValueRef | .Tuple_t | .ThrowingCopy => 8
  | .rust_String => 24
  | .SharedData | .Struct_t => 32
  | _ => 1

/-- Copy constructors. -/
def CxxType.copy : CxxType → SpecialCtor
  | .MoveType | .NoCopyAndNoMoveType | .Box_RustValue => .deleted
  | .ThrowingCopy => .may_throw (fun _ => some (.alternative 1, []))
  | _ => .noexcept

/-- Constructors selected for an rvalue source. -/
def CxxType.move : CxxType → SpecialCtor
  | .CopyType | .NoCopyAndNoMoveType => .deleted
  | _ => .noexcept

/-- Scalar types: an rvalue of such a type cannot be assigned to. -/
def CxxType.is_scalar : CxxType → Bool
  | .int | .int64_t | .bool => true
  | _ => false

/-- Trait `std::is_nothrow_assignable_v` for the three operand categories. -/
def CxxType.nothrow_assignable : CxxType → ValueCategory → Bool
  | _, .const_lvalue => false
  | T, .lvalue => (CxxType.copy T).is_constructible
  | T, .rvalue => !T.is_scalar && T != .rust_String && (CxxType.move T).is_constructible

instance : AltTraits CxxType where
  sizeof := CxxType.sizeof
  alignof := fun T => min (CxxType.sizeof T) 8
  copy := CxxType.copy
  move := CxxType.move
  nothrow_assignable := CxxType.nothrow_assignable
  monostate := .monostate

/-- Trivially destructible types: the scalars, the reference wrappers and the classes without
members that own anything.  `rust::String`, `rust::Box<RustValue>` and the struct with a
`rust::string` member release memory in their destructor; so does `SharedData`, a shared struct
of the generated header `data.rs.h` that is taken to own its fields. -/
def CxxType.is_trivially_destructible : CxxType → Bool
  | .rust_String | .SharedData | .Box_RustValue | .Struct_t => false
  | _ => true

instance : DestructorTraits CxxType where
  is_trivially_destructible := CxxType.is_trivially_destructible

/-- Little-endian object representation of an unsigned integer of `width` bytes. -/
def le_bytes (width value : Nat) : Bytes :=
  (List.range width).map (fun k => value / 256 ^ k % 256)

/-- Alternatives of `RustEnum` as declared by `CXX_DEFINE_VARIANT` in `tests/suite/tests.h`:
`Empty, Num, String, Bool, Shared, SharedRef, Opaque, OpaqueRef, Tuple, Struct, Unit1, Unit2`. -/
def RustEnum : List CxxType :=
  [.Empty_t, .int64_t, .rust_String, .bool, .SharedData, .SharedDataRef, .Box_RustValue,
   .RustValueRef, .Tuple_t, .Struct_t, .Unit1_t, .Unit2_t]

/-- A prvalue operand. -/
def prvalue (type : CxxType) (value : Bytes) : Operand CxxType :=
  { type := type, value := value, category := .rvalue }

/-- Test function `make_enum()`: `RustEnum{RustEnum::Num(1502)}`. -/
def make_enum (raw : Bytes) : Created CxxType :=
  variant_base.from_value RustEnum (prvalue .int64_t (le_bytes 8 1502)) raw

/-- Conversion of a `std::size_t` to `int32_t`. -/
def int32_of_size_t (n : Nat) : Int :=
  if n % 2 ^ 32 < 2 ^ 31 then ((n % 2 ^ 32 : Nat) : Int) else ((n % 2 ^ 32 : Nat) : Int) - 2 ^ 32

/-- Test function `take_enum(enm)`: `ret = enm.index()`, then the visit that prints the held
value (printing is not modelled), then `return ret`. -/
def take_enum (enm : variant_base CxxType) : Outcome Int :=
  match visit (fun _ _ => ()) RustEnum enm with
  | .returned _ => .returned (int32_of_size_t enm.index)
  | .thrown e => .thrown e
  | .ill_formed => .ill_formed

/-- The union of the specification scenario: alternatives `Unit`, `Int(i64)`, `Str(string)`. -/
def Unit_Int_Str : List CxxType :=
  [.monostate, .int64_t, .rust_String]

/-- A union over `Unit_Int_Str` constructed as `Int(5)`. -/
def Int_5 : variant_base CxxType :=
  { m_Index := 1,
    m_Buff := { bytes := le_bytes 8 5 ++ List.replicate 16 0, object := some .int64_t } }

/-- A union over `Unit_Int_Str` constructed as `Unit`. -/
def Unit_held : variant_base CxxType :=
  { m_Index := 0, m_Buff := { bytes := List.replicate 24 0, object := some .monostate } }

/-- Object representation of the string `"x"`. -/
def Str_x : Bytes :=
  120 :: List.replicate 23 0

/-- Alternatives of a union `variant<rust::String, ThrowingCopy>`. -/
def String_or_ThrowingCopy : List CxxType :=
  [.rust_String, .ThrowingCopy]

/-- The call `ThrowingCopy(7)` of the potentially throwing constructor from `int`, which
completes. -/
def ThrowingCopy_7 : Construction :=
  .may_throw (.built (le_bytes 8 7))

/-- The union `variant<rust::String, ThrowingCopy>(rust::String("x"))`. -/
def holding_x : variant_base CxxType :=
  { m_Index := 0, m_Buff := { bytes := Str_x, object := some .rust_String } }

/-- Alternatives of `duplicate_variant = variant<int, int>` of the static checks. -/
def duplicate_variant : List CxxType :=
  [.int, .int]

/-- The optional `OptionalInt32()` of the test suite, default constructed (absent) in zeroed
storage. -/
def absent_OptionalInt32 : variant_base CxxType :=
  { m_Index := 0, m_Buff := { bytes := [0, 0, 0, 0], object := some .monostate } }

/-! ## Vocabulary of the statements -/

/-- Whether calling the constructor on `source` completes (neither deleted nor throwing). -/
def SpecialCtor.completes (c : SpecialCtor) (source : Bytes) : Bool :=
  match c.call source with
  | some k => decide (k.run = .built source)
  | none => false

/-- Whether an event is a destructor call on the object in `m_Buff`. -/
def Event.is_destroy_in_storage {τ : Type} : Event τ → Bool
  | .destroy _ .storage _ => true
  | _ => false

/-- The special member calls of a successful `emplace<I>` that replaces a held object `old` of
type `A` by an object `t` of type `T`, per branch. -/
def emplace_trace {τ : Type} [AltTraits τ] (T A : τ) (old t : Bytes) :
    Construction → List (Event τ)
  | .noexcept _ => [.destroy A .storage old, .construct T .storage]
  | .may_throw _ =>
    if (AltTraits.move T).is_nothrow_constructible then
      [.construct T .temporary, .destroy A .storage old, .copy_construct T .storage,
       .destroy T .temporary t]
    else [.construct T .storage, .destroy A .storage old]

/-! ## Error messages, checked pointer access -/

/-- The message `what()` of an exception of the engine; unknown for an exception of an
alternative type.  `std::to_string(index)` is the decimal rendering. -/
def Exn.what : Exn → Option String
  | .bad_rust_variant_access index => some ("The index should be " ++ toString index)
  | .out_of_range what => some what
  | .bad_rust_optional_access => some "Optional has no value"
  | .bad_rust_expected_access _ => some "Expected is the unexpected value"
  | .alternative _ => none

/-- Member `variant_base::is_valid<I>()` (the caller has checked `I < sizeof...(Ts)`). -/
def variant_base.is_valid {τ : Type} (I : Nat) (self : variant_base τ) : Bool :=
  size_t_of_int self.m_Index == I

/-- Accessor `get_if<I>(variant)` for a pointer to a union: `none` is `nullptr`, otherwise the
object the returned pointer designates. -/
def get_if {τ : Type} [AltTraits τ] (Ts : List τ) (I : Nat) (variant : variant_base τ) :
    Outcome (Option Bytes) :=
  match variant_alternative I Ts with
  | none => .ill_formed
  | some T =>
    if !variant.is_valid I then .returned none
    else .returned (some (view T variant.m_Buff.bytes))

/-- Accessor `get_if<T>(variant)`. -/
def get_if_type {τ : Type} [DecidableEq τ] [AltTraits τ] (Ts : List τ) (T : τ)
    (variant : variant_base τ) : Outcome (Option Bytes) :=
  if is_unique_v T Ts then
    match index_from_type T Ts with
    | none => .ill_formed
    | some index => get_if Ts index variant
  else .ill_formed

/-- A pointer type `cv T *` as conversions see it: whether the type pointed to is `const`.
A `const` on the pointer itself, as in `T *const`, does not take part. -/
structure PointerType where
  /-- Whether the pointee is `const` qualified. -/
  pointee_const : Bool
  deriving DecidableEq, Repr

/-- Whether an expression of the pointer type `source` can become a `target`, by an implicit
conversion or by `reinterpret_cast`: the qualification of the pointee may be added to, and
neither of the two may cast it away. -/
def PointerType.converts_to (source target : PointerType) : Bool :=
  !source.pointee_const || target.pointee_const

/-- Accessor `get_if<I>(variant)` for a pointer to a `const` union:

    constexpr const std::add_pointer_t<variant_alternative_t<I, Ts...>>
    get_if(const variant_base<Ts...> *variant) {
      if (!variant->template is_valid<I>())
        return nullptr;
      return reinterpret_cast<const variant_alternative_t<I, Ts...> *>(variant->m_Buff);
    }

The declared return type is `T *const`, a pointer to a `T` that is not `const`, and the second
`return` hands it a `const T *`; the overload for a pointer to a union that is not `const`
declares `T *` and returns a `T *`. -/
def get_if_const {τ : Type} [AltTraits τ] (Ts : List τ) (I : Nat) (variant : variant_base τ) :
    Outcome (Option Bytes) :=
  match variant_alternative I Ts with
  | none => .ill_formed
  | some T =>
    if PointerType.converts_to { pointee_const := true } { pointee_const := false } then
      if !variant.is_valid I then .returned none
      else .returned (some (view T variant.m_Buff.bytes))
    else .ill_formed

/-- Accessor `get_if<T>(variant)` for a pointer to a `const` union: it returns
`get_if<index>(variant)`, the overload above. -/
def get_if_type_const {τ : Type} [DecidableEq τ] [AltTraits τ] (Ts : List τ) (T : τ)
    (variant : variant_base τ) : Outcome (Option Bytes) :=
  if is_unique_v T Ts then
    match index_from_type T Ts with
    | none => .ill_formed
    | some index => get_if_const Ts index variant
  else .ill_formed

/-- Predicate `holds_alternative<I>(variant)`. -/
def holds_alternative {τ : Type} (I : Nat) (variant : variant_base τ) : Bool :=
  variant.index == I

/-! ## Swap through references -/

/-- The two references of a member call `a.swap(b)`. -/
inductive Ref where
  | this
  | other
  deriving DecidableEq, Repr

/-- What the references `*this` and `other` of a call designate: two distinct unions, or one
and the same union. -/
inductive Operands (τ : Type) where
  | distinct (this other : variant_base τ)
  | same (object : variant_base τ)
  deriving DecidableEq, Repr

/-- Reading the union a reference designates. -/
def Operands.load {τ : Type} : Operands τ → Ref → variant_base τ
  | .distinct a _, .this => a
  | .distinct _ b, .other => b
  | .same x, _ => x

/-- Writing the union a reference designates. -/
def Operands.store {τ : Type} : Operands τ → Ref → variant_base τ → Operands τ
  | .distinct _ b, .this, value => .distinct value b
  | .distinct a _, .other, value => .distinct a value
  | .same _, _, value => .same value

/-- Reading the byte `m_Buff[i]` through a reference. -/
def Operands.load_byte {τ : Type} (memory : Operands τ) (r : Ref) (i : Nat) : Nat :=
  (memory.load r).m_Buff.bytes.getD i 0

/-- Writing the byte `m_Buff[i]` through a reference. -/
def Operands.store_byte {τ : Type} (memory : Operands τ) (r : Ref) (i byte : Nat) :
    Operands τ :=
  memory.store r
    { m_Index := (memory.load r).m_Index,
      m_Buff := { bytes := (memory.load r).m_Buff.bytes.set i byte,
                  object := (memory.load r).m_Buff.object } }

/-- One step `std::iter_swap(m_Buff + i, other.m_Buff + i)` of `std::swap_ranges`:
`tmp = *a; *a = *b; *b = tmp;` on bytes. -/
def iter_swap {τ : Type} (memory : Operands τ) (i : Nat) : Operands τ :=
  let tmp := memory.load_byte .this i
  let assigned := memory.store_byte .this i (memory.load_byte .other i)
  assigned.store_byte .other i tmp

/-- The loop of `std::swap_ranges(m_Buff + first, m_Buff + first + count, other.m_Buff + first)`. -/
def swap_ranges_in {τ : Type} : Operands τ → Nat → Nat → Operands τ
  | memory, _, 0 => memory
  | memory, first, count + 1 => swap_ranges_in (iter_swap memory first) (first + 1) count

/-- Ghost: the objects travel with the bytes that represent them (`tmp = a; a = b; b = tmp`
on the records of the objects in the two buffers). -/
def swap_objects {τ : Type} (memory : Operands τ) : Operands τ :=
  let tmp := (memory.load .this).m_Buff.object
  let assigned := memory.store .this
    { m_Index := (memory.load .this).m_Index,
      m_Buff := { bytes := (memory.load .this).m_Buff.bytes,
                  object := (memory.load .other).m_Buff.object } }
  assigned.store .other
    { m_Index := (assigned.load .other).m_Index,
      m_Buff := { bytes := (assigned.load .other).m_Buff.bytes, object := tmp } }

/-- The call `std::swap(m_Index, other.m_Index)`: `tmp = a; a = b; b = tmp;`. -/
def swap_index {τ : Type} (memory : Operands τ) : Operands τ :=
  let tmp := (memory.load .this).m_Index
  let assigned := memory.store .this
    { m_Index := (memory.load .other).m_Index, m_Buff := (memory.load .this).m_Buff }
  assigned.store .other { m_Index := tmp, m_Buff := (assigned.load .other).m_Buff }

/-- Member `variant_base::swap(other)` through the references `*this` and `other`: what they
designate afterwards, and the special member calls made (the body makes none). -/
def variant_base.swap_in {τ : Type} (memory : Operands τ) : Operands τ × List (Event τ) :=
  -- std::swap_ranges(m_Buff, m_Buff + sizeof(m_Buff), other.m_Buff);
  let swapped := swap_ranges_in memory 0 (memory.load .this).m_Buff.bytes.length
  -- std::swap(m_Index, other.m_Index);
  (swap_index (swap_objects swapped), [])

/-- For a sequence of calls whose operand is the object in `m_Buff` of `*this` itself:
whether the call that reads the operand (the first constructor call or assignment) is made
after a destructor that is not trivial has run on that object. -/
def reads_destroyed_operand {τ : Type} [DestructorTraits τ] : List (Event τ) → Bool
  | .destroy U .storage _ :: rest =>
    if DestructorTraits.is_trivially_destructible U then reads_destroyed_operand rest
    else !rest.isEmpty
  | _ => false

/-- Copy assignment `variant_base &operator=(const variant_base &other)` through the references
`*this` and `other`: what the two references designate afterwards.  The body is

    visit([this](const auto &value) { *this = value; }, other);
    return *this;

without a test for `this == &other`, and `value` is a reference to the object in
`other.m_Buff`.  When `other` is another union, that object keeps its value while `*this` is
rebuilt and `other` is left as it is.  When `other` is `*this`, `value` designates the object
in the storage the assignment works on: the behaviour is undefined when the destructor of that
object (one that is not trivial) has run before `value` is read, as in the first branch of
`emplace`, `destroy(); new (m_Buff) T(value);`.  In the other cases `value` is read from an
object that no destructor has ended (the assignment operator of the alternative, the temporary
of the second branch, or a constructor that is taken to read its operand before it writes over
it), and the state is that of `variant_base.copy_assign`. -/
def variant_base.copy_assign_in {τ : Type} [DecidableEq τ] [AltTraits τ] [DestructorTraits τ]
    (Ts : List τ) (memory : Operands τ) : Behaviour τ (Operands τ) :=
  let assigned := (memory.load .this).copy_assign Ts (memory.load .other)
  match memory with
  | .distinct _ other =>
    { trace := assigned.trace,
      effect := .value (.distinct assigned.self other, assigned.result) }
  | .same _ =>
    { trace := assigned.trace,
      effect :=
        if reads_destroyed_operand assigned.trace then .undefined
        else .value (.same assigned.self, assigned.result) }

/-- A union with the discriminant `-1`, which no operation of the engine produces. -/
def corrupted : variant_base CxxType :=
  { m_Index := -1, m_Buff := Int_5.m_Buff }

/-! ## Special member functions of `variant<Ts...>` -/

/-- Declaration state of a special member function: it can be called (user-provided, or
defaulted and not deleted), or it is deleted. -/
inductive Member where
  | provided
  | deleted
  deriving DecidableEq, Repr

/-- A member declared `= default` in a class with the given corresponding members of its base
classes: it is defined as deleted when one of them is deleted. -/
def Member.defaulted (bases : List Member) : Member :=
  if bases.all (fun m => decide (m = .provided)) then .provided else .deleted

/-- Copy constructor of `copy_control<B>`: `= default` for `true`, `= delete` for `false`. -/
def copy_control.copy_constructor (B : Bool) : Member :=
  if B then Member.defaulted [] else .deleted

/-- Copy assignment operator of `copy_control<B>`. -/
def copy_control.copy_assignment (B : Bool) : Member :=
  if B then Member.defaulted [] else .deleted

/-- The argument of `allow_copy<Ts...>`, which is
`copy_control<std::conjunction_v<std::is_copy_constructible<Ts>...>>`. -/
def allow_copy {τ : Type} [AltTraits τ] (Ts : List τ) : Bool :=
  Ts.all (fun T => (AltTraits.copy T).is_constructible)

/-- Copy constructor of `variant_base<Ts...>`: user-provided. -/
def variant_base.copy_constructor : Member := .provided

/-- Copy assignment operator of `variant_base<Ts...>`: user-provided. -/
def variant_base.copy_assignment : Member := .provided

/-- Default constructor `variant() = delete` of `variant<Ts...>`. -/
def variant.default_constructor {τ : Type} (_Ts : List τ) : Member := .deleted

/-- Copy constructor `variant(const variant &) = default` of the class with the bases
`variant_base<Ts...>` and `allow_copy<Ts...>`. -/
def variant.copy_constructor {τ : Type} [AltTraits τ] (Ts : List τ) : Member :=
  Member.defaulted [variant_base.copy_constructor, copy_control.copy_constructor (allow_copy Ts)]

/-- Move constructor `variant(variant &&) = delete` of `variant<Ts...>`. -/
def variant.move_constructor {τ : Type} (_Ts : List τ) : Member := .deleted

/-- Copy assignment `variant &operator=(const variant &) = default`. -/
def variant.copy_assignment {τ : Type} [AltTraits τ] (Ts : List τ) : Member :=
  Member.defaulted [variant_base.copy_assignment, copy_control.copy_assignment (allow_copy Ts)]

/-- Move assignment `variant &operator=(variant &&) = delete` of `variant<Ts...>`. -/
def variant.move_assignment {τ : Type} (_Ts : List τ) : Member := .deleted

/-- Trait `std::is_default_constructible_v<variant<Ts...>>`: no inherited constructor takes
no argument, so the declared default constructor is the only candidate. -/
def variant.is_default_constructible {τ : Type} (Ts : List τ) : Bool :=
  decide (variant.default_constructor Ts = .provided)

/-- Trait `std::is_copy_constructible_v<variant<Ts...>>`: for a `const` lvalue argument the
copy constructor is the only viable candidate. -/
def variant.is_copy_constructible {τ : Type} [AltTraits τ] (Ts : List τ) : Bool :=
  decide (variant.copy_constructor Ts = .provided)

/-- Trait `std::is_move_constructible_v<variant<Ts...>>`: for an rvalue argument the declared
move constructor is the best match, and a deleted function that is selected makes the
construction ill formed. -/
def variant.is_move_constructible {τ : Type} (Ts : List τ) : Bool :=
  decide (variant.move_constructor Ts = .provided)

/-- Trait `std::is_copy_assignable_v<variant<Ts...>>`. -/
def variant.is_copy_assignable {τ : Type} [AltTraits τ] (Ts : List τ) : Bool :=
  decide (variant.copy_assignment Ts = .provided)

/-- Trait `std::is_move_assignable_v<variant<Ts...>>`. -/
def variant.is_move_assignable {τ : Type} (Ts : List τ) : Bool :=
  decide (variant.move_assignment Ts = .provided)

/-- Alternatives of `all_variant` of the static checks. -/
def all_variant : List CxxType :=
  [.MoveType, .CopyType, .CopyAndMoveType, .NoCopyAndNoMoveType]

/-- Alternatives of `move_variant` of the static checks. -/
def move_variant : List CxxType :=
  [.MoveType, .CopyAndMoveType]

/-- Alternatives of `copy_variant` of the static checks. -/
def copy_variant : List CxxType :=
  [.CopyType, .CopyAndMoveType]

/-! ## Members of `optional<T>` -/

/-- Member `optional::is_some()`. -/
def optional.is_some {τ : Type} (self : variant_base τ) : Bool :=
  self.m_Index == 1

/-- Member `optional::is_none()`. -/
def optional.is_none {τ : Type} (self : variant_base τ) : Bool :=
  self.m_Index == 0

/-- Test function `take_optional(optional)`: when `optional.has_value()` it prints
`optional.value()` (printing is not modelled), then `return optional.has_value()`.  The
parameter is a reference to `const`: the optional is only read. -/
def take_optional (opt : variant_base CxxType) : Outcome Bool :=
  if optional.has_value opt then
    match optional.value CxxType.int opt with
    | .returned _ => .returned (optional.has_value opt)
    | .thrown e => .thrown e
    | .ill_formed => .ill_formed
  else .returned (optional.has_value opt)

/-- What a function that returns `T` by value hands to its caller when the returned object is
initialised by the given constructor call (`none`: no constructor is usable). -/
def returned_object : Option Construction → Outcome Bytes
  | none => .ill_formed
  | some call =>
    match call.run with
    | .built object => .returned object
    | .failed e _ => .thrown e

/-- Member `optional::value_or(default_value)`, which returns `T` by value:

    return has_value() ? *reinterpret_cast<const T *>(this->m_Buff)
                       : static_cast<T>(std::forward<U>(default_value));

The second operand is a `const` lvalue, so the conditional expression needs the copy constructor
of `T` whatever the state is; `default_value` is the constructor call of the `static_cast`. -/
def optional.value_or {τ : Type} [AltTraits τ] (T : τ) (default_value : Construction)
    (self : variant_base τ) : Outcome Bytes :=
  match (AltTraits.copy T).call (view T self.m_Buff.bytes) with
  | none => .ill_formed
  | some copy_call =>
    if optional.has_value self then returned_object (some copy_call)
    else returned_object (some default_value)

/-- Whether an event is a call, on the object in `m_Buff`, of a destructor that is not
trivial. -/
def Event.runs_destructor_in_storage {τ : Type} [DestructorTraits τ] : Event τ → Bool
  | .destroy U .storage _ => !DestructorTraits.is_trivially_destructible U
  | _ => false

/-- Member `optional::reset()`: `if (has_value()) { this->destroy(); *this = monostate{}; }`.
The assignment is the converting assignment of `variant_base` with an rvalue `monostate`.  It
is entered after `this->destroy()` has run the destructor of the payload, with `m_Index` still
`1` and no object alive in `m_Buff`: a destructor that the assignment runs on the object in
`m_Buff` runs on the payload that is destroyed already, which is undefined behaviour unless
that destructor is trivial. -/
def optional.reset {τ : Type} [DecidableEq τ] [AltTraits τ] [DestructorTraits τ] (T : τ)
    (self : variant_base τ) : Behaviour τ (variant_base τ) :=
  if optional.has_value self then
    -- this->destroy();
    let destroyed := self.destroy (optional.types T)
    match destroyed.result with
    | .returned _ =>
      -- *this = monostate{};
      let assigned := destroyed.self.assign (optional.types T) monostate_value
      { trace := destroyed.trace ++ assigned.trace,
        effect :=
          if destroyed.self.m_Buff.object = none ∧
              assigned.trace.any Event.runs_destructor_in_storage = true then .undefined
          else .value (assigned.self, assigned.result) }
    | .thrown e => { trace := destroyed.trace, effect := .value (destroyed.self, .thrown e) }
    | .ill_formed => { trace := destroyed.trace, effect := .value (destroyed.self, .ill_formed) }
  else { trace := [], effect := .value (self, .returned ()) }

/-- The optional `optional<rust::String>` holding the string `"x"`. -/
def present_String_x : variant_base CxxType :=
  { m_Index := 1, m_Buff := { bytes := Str_x, object := some .rust_String } }

/-- The optional `OptionalInt32` holding `7`. -/
def present_OptionalInt32_7 : variant_base CxxType :=
  { m_Index := 1, m_Buff := { bytes := le_bytes 4 7, object := some .int } }

/-- The optional `optional<ThrowingCopy>{std::in_place_index<1>, 7}`: it holds the object
`ThrowingCopy(7)`, whose copy constructor throws. -/
def present_ThrowingCopy_7 : variant_base CxxType :=
  { m_Index := 1, m_Buff := { bytes := le_bytes 8 7, object := some .ThrowingCopy } }

/-! ## Comparison operators of `optional<T>` -/

/-- Member `optional::operator*() const &`.  Its body is the expression statement
`*reinterpret_cast<const T *>(this->m_Buff);` without `return`: control flows off the end of a
function that returns `const T &`, which is undefined behaviour. -/
def optional.operator_star {τ : Type} (_T : τ) (_self : variant_base τ) : Evaluation Bytes :=
  .undefined

/-- The operand `lhs.has_value` of `operator==` and `operator!=` on two optionals: it names the
non-static member function `has_value` without calling it, which is ill formed. -/
def optional.has_value_not_called {τ : Type} (_lhs : variant_base τ) : Outcome Bool :=
  .ill_formed

/-- Function `operator==(const optional<T> &lhs, const optional<U> &rhs)`:
`lhs.has_value == rhs.has_value() && (!lhs.has_value() || *lhs == *rhs)`, evaluated from left
to right with short circuit; `eq` is `==` on the payloads. -/
def optional.operator_eq {τ : Type} (T U : τ) (eq : Bytes → Bytes → Bool)
    (lhs rhs : variant_base τ) : Outcome (Evaluation Bool) :=
  match optional.has_value_not_called lhs with
  | .returned uncalled =>
    if uncalled == optional.has_value rhs then
      if !optional.has_value lhs then .returned (.value true)
      else
        match optional.operator_star T lhs, optional.operator_star U rhs with
        | .value x, .value y => .returned (.value (eq x y))
        | _, _ => .returned .undefined
    else .returned (.value false)
  | .thrown e => .thrown e
  | .ill_formed => .ill_formed

/-- Function `operator==(const optional<T> &lhs, std::nullopt_t)`. -/
def optional.operator_eq_nullopt {τ : Type} (lhs : variant_base τ) : Bool :=
  !optional.has_value lhs

/-- Function `operator==(std::nullopt_t, const optional<T> &rhs)`. -/
def optional.nullopt_operator_eq {τ : Type} (rhs : variant_base τ) : Bool :=
  !optional.has_value rhs

/-- Function `operator!=(const optional<T> &lhs, std::nullopt_t)`. -/
def optional.operator_ne_nullopt {τ : Type} (lhs : variant_base τ) : Bool :=
  optional.has_value lhs

/-- Function `operator!=(std::nullopt_t, const optional<T> &rhs)`. -/
def optional.nullopt_operator_ne {τ : Type} (rhs : variant_base τ) : Bool :=
  optional.has_value rhs

/-- Function `operator<(const optional<T> &, std::nullopt_t)`. -/
def optional.operator_lt_nullopt {τ : Type} (_lhs : variant_base τ) : Bool :=
  false

/-- Function `operator<(std::nullopt_t, const optional<T> &rhs)`. -/
def optional.nullopt_operator_lt {τ : Type} (rhs : variant_base τ) : Bool :=
  optional.has_value rhs

/-- Function `operator<=(const optional<T> &lhs, std::nullopt_t)`. -/
def optional.operator_le_nullopt {τ : Type} (lhs : variant_base τ) : Bool :=
  !optional.has_value lhs

/-- Function `operator<=(std::nullopt_t, const optional<T> &)`. -/
def optional.nullopt_operator_le {τ : Type} (_rhs : variant_base τ) : Bool :=
  true

/-- Function `operator>(const optional<T> &lhs, std::nullopt_t)`. -/
def optional.operator_gt_nullopt {τ : Type} (lhs : variant_base τ) : Bool :=
  optional.has_value lhs

/-- Function `operator>(std::nullopt_t, const optional<T> &)`. -/
def optional.nullopt_operator_gt {τ : Type} (_rhs : variant_base τ) : Bool :=
  false

/-- Function `operator>=(const optional<T> &, std::nullopt_t)`. -/
def optional.operator_ge_nullopt {τ : Type} (_lhs : variant_base τ) : Bool :=
  true

/-- Function `operator>=(std::nullopt_t, const optional<T> &rhs)`. -/
def optional.nullopt_operator_ge {τ : Type} (rhs : variant_base τ) : Bool :=
  !optional.has_value rhs

/-! ## Derived container: expected -/

/-- The alternative list of `expected<T, E>`, which derives from `variant<T, E>`. -/
def expected.types {τ : Type} (T E : τ) : List τ :=
  [T, E]

/-- Member `expected::has_value()`. -/
def expected.has_value {τ : Type} (self : variant_base τ) : Bool :=
  self.m_Index == 0

/-- Member `expected::error() &`: the object `*reinterpret_cast<E *>(this->m_Buff)`. -/
def expected.error {τ : Type} [AltTraits τ] (E : τ) (self : variant_base τ) : Bytes :=
  view E self.m_Buff.bytes

/-- Member `expected::value() &`.  In the failure state it throws
`bad_rust_expected_access(*reinterpret_cast<E *>(this->m_Buff))`, whose constructor copies the
error into the member `error` of the exception (so `E` must be copy constructible). -/
def expected.value {τ : Type} [AltTraits τ] (T E : τ) (self : variant_base τ) :
    Outcome Bytes :=
  match (AltTraits.copy E).call (view E self.m_Buff.bytes) with
  | none => .ill_formed
  | some copy_call =>
    if expected.has_value self then .returned (view T self.m_Buff.bytes)
    else
      match copy_call.run with
      | .built error => .thrown (.bad_rust_expected_access error)
      | .failed e _ => .thrown e

/-- Member `expected::value() const &`:

    if (has_value()) {
      return *reinterpret_cast<const T *>(this->m_Buff);
    } else {
      throw bad_rust_expected_access(*reinterpret_cast<E *>(this->m_Buff));
    }

In a `const` member function `this->m_Buff` is an array of `const std::byte`.  The first cast
keeps the `const`; the second one, to `E *`, is the cast of `value() &` and casts it away.
Apart from the casts the body is that of `value() &`. -/
def expected.value_const {τ : Type} [AltTraits τ] (T E : τ) (self : variant_base τ) :
    Outcome Bytes :=
  if PointerType.converts_to { pointee_const := true } { pointee_const := true } ∧
      PointerType.converts_to { pointee_const := true } { pointee_const := false } then
    expected.value T E self
  else .ill_formed

/-- Member `expected::value_or(default_value)`, which returns `T` by value; the body is that
of `optional::value_or`, with the `has_value()` of `expected`. -/
def expected.value_or {τ : Type} [AltTraits τ] (T : τ) (default_value : Construction)
    (self : variant_base τ) : Outcome Bytes :=
  match (AltTraits.copy T).call (view T self.m_Buff.bytes) with
  | none => .ill_formed
  | some copy_call =>
    if expected.has_value self then returned_object (some copy_call)
    else returned_object (some default_value)

/-- Member `expected::error_or(default_value)`, which returns `E` by value:
`has_value() ? std::forward<G>(default_value) : error()`.  The third operand is a `const`
lvalue, so the conditional expression needs the copy constructor of `E`; `default_value` is
the constructor call that converts the forwarded argument to `E`. -/
def expected.error_or {τ : Type} [AltTraits τ] (E : τ) (default_value : Construction)
    (self : variant_base τ) : Outcome Bytes :=
  match (AltTraits.copy E).call (expected.error E self) with
  | none => .ill_formed
  | some copy_call =>
    if expected.has_value self then returned_object (some default_value)
    else returned_object (some copy_call)

/-- A callable `f` of type `F` as `transform_error` uses it. -/
structure Callable (τ : Type) where
  /-- The type `std::invoke_result_t<F, A &>`; `none` when `F` cannot be invoked with an lvalue
  of type `A` (the alias then names no type). -/
  invoke_result : τ → Option τ
  /-- The value that `std::invoke(f, a)` returns for an lvalue `a` of type `A`. -/
  invoke : τ → Bytes → Bytes

/-- What a call of `transform_error` yields. -/
structure Transformed (τ : Type) where
  /-- The returned object of class `result`, or why there is none, and the special member
  calls made. -/
  created : Created τ
  /-- The arguments `f` was invoked with, in order. -/
  calls : List (τ × Bytes)

/-- Member `expected::transform_error(f) &`, building the returned object in `raw`:

    using result = expected<std::remove_cv_t<std::invoke_result_t<F, T &>>, E>;
    return has_value() ? result(*this) : std::invoke(std::forward<F>(f), error());

With `R` the type `f` returns for a `T &` and `G` the type it returns for an `E &`:
`result(*this)` needs `result` to be the class of `*this` (`R` is `T`) and its copy
constructor; the conditional operator needs a conversion of `G` to `result`, which is the
converting constructor of `variant_base` (`G` unique among `T, E` and constructible from an
rvalue). -/
def expected.transform_error {τ : Type} [DecidableEq τ] [AltTraits τ] (T E : τ)
    (f : Callable τ) (self : variant_base τ) (raw : Bytes) : Transformed τ :=
  match f.invoke_result T, f.invoke_result E with
  | some R, some G =>
    if R = T ∧ variant.is_copy_constructible (expected.types T E) = true ∧
        is_unique_v G (expected.types T E) = true ∧
        (AltTraits.move G).is_constructible = true then
      if expected.has_value self then
        { created := variant_base.copy_construct (expected.types T E) self raw, calls := [] }
      else
        { created := variant_base.from_value (expected.types T E)
            { type := G, value := f.invoke E (expected.error E self), category := .rvalue } raw,
          calls := [(E, expected.error E self)] }
    else { created := { result := .ill_formed, trace := [] }, calls := [] }
  | _, _ => { created := { result := .ill_formed, trace := [] }, calls := [] }

/-- Alternatives of `I32StringResult`, declared by
`CXX_DEFINE_EXPECTED(I32StringResult, int32_t, rust::string)` in `tests/suite/tests.h`. -/
def I32StringResult : List CxxType :=
  expected.types .int .rust_String

/-- Object representation of an `int32_t` (two's complement, little endian). -/
def int32_bytes (v : Int) : Bytes :=
  le_bytes 4 (v % 2 ^ 32).toNat

/-- Object representation of the string `"value too small"`. -/
def value_too_small : Bytes :=
  [118, 97, 108, 117, 101, 32, 116, 111, 111, 32, 115, 109, 97, 108, 108] ++ List.replicate 9 0

/-- Test function `mul2_if_gt10(value)`, building the returned object in `raw`.  The product
`value * 2` is computed in `int`; when it is not representable the behaviour is undefined.
The local `ret` is constructed in the returned object (the copy of `return ret;` is elided;
made, it would yield an equal object). -/
def mul2_if_gt10 (value : Int) (raw : Bytes) : Evaluation (Created CxxType) :=
  if value > 10 then
    if -(2 : Int) ^ 31 ≤ value * 2 ∧ value * 2 < (2 : Int) ^ 31 then
      -- I32StringResult ret{int32_t(value * 2)}; return ret;
      .value (variant_base.from_value I32StringResult (prvalue .int (int32_bytes (value * 2))) raw)
    else .undefined
  else
    -- return I32StringResult{rust::String("value too small")};
    .value (variant_base.from_value I32StringResult (prvalue .rust_String value_too_small) raw)

/-- Object representation of the string `"bad"`. -/
def Str_bad : Bytes :=
  [98, 97, 100] ++ List.replicate 21 0

/-- Object representation of the string `"BAD"`. -/
def Str_BAD : Bytes :=
  [66, 65, 68] ++ List.replicate 21 0

/-- The expected `I32StringResult{rust::String("bad")}`: the failure state holding `"bad"`. -/
def failure_bad : variant_base CxxType :=
  { m_Index := 1, m_Buff := { bytes := Str_bad, object := some .rust_String } }

/-- The expected `I32StringResult{int32_t(22)}`: the success state holding `22`. -/
def success_22 : variant_base CxxType :=
  { m_Index := 0,
    m_Buff := { bytes := int32_bytes 22 ++ List.replicate 20 0, object := some .int } }

/-- The function `rust::String toUpper(const rust::String &)`: it can be invoked with a string
only, and maps the lower case letters to upper case. -/
def toUpper : Callable CxxType :=
  { invoke_result := fun A => if A = .rust_String then some .rust_String else none,
    invoke := fun _ s => s.map (fun c => if 97 ≤ c ∧ c ≤ 122 then c - 32 else c) }

/-- An overloaded callable with `int32_t operator()(int32_t &x)` returning `x` and
`int32_t operator()(rust::String &s)` returning the length of `s`. -/
def error_length : Callable CxxType :=
  { invoke_result := fun A => if A = .int ∨ A = .rust_String then some .int else none,
    invoke := fun A v =>
      if A = .rust_String then int32_bytes ((v.takeWhile (fun c => c != 0)).length : Int)
      else v }

/-- An overloaded callable with `int32_t operator()(int32_t &x)` returning `x` and
`rust::String operator()(rust::String &s)` returning `s` in upper case. -/
def toUpper_or_same : Callable CxxType :=
  { invoke_result := fun A =>
      if A = .int then some .int else if A = .rust_String then some .rust_String else none,
    invoke := fun A v => if A = .rust_String then toUpper.invoke A v else v }

/-- The expected `expected<int32_t, ThrowingCopy>{std::in_place_index<1>, 7}`: the failure
state holding the object `ThrowingCopy(7)`, whose copy constructor throws. -/
def failure_ThrowingCopy_7 : variant_base CxxType :=
  { m_Index := 1, m_Buff := { bytes := le_bytes 8 7, object := some .ThrowingCopy } }

/-- Object representation of the string `"fallback"`. -/
def Str_fallback : Bytes :=
  [102, 97, 108, 108, 98, 97, 99, 107] ++ List.replicate 16 0

/-! ## The declaration macros of `cxx_enumext_macros.h`

A macro is modelled as the function from its arguments to its full expansion: a call written
`CXX_DEFER(m)(args)` stands for `m(args)`, which one of the rescans of the enclosing `CXX_EVAL`
produces.  `none` is an expansion that names an undefined macro or lacks an argument. -/

/-- The numbers `21, 20, ..., 1` that `CXX_DISPATCH_VARIADIC` appends to its arguments. -/
def CXX_DISPATCH_VARIADIC.numbers : List Nat :=
  [21, 20, 19, 18, 17, 16, 15, 14, 13, 12, 11, 10, 9, 8, 7, 6, 5, 4, 3, 2, 1]

/-- Macro `CXX_DISPATCH_VARIADIC(prefix, ...)`: the suffix pasted to `prefix`.
`CXX_DISPATCH_VARIADIC_IMPL(prefix, unused, a0, ..., a20, ...)` is `prefix##a20`, called with
`(prefix, __VA_ARGS__, 21, 20, ..., 1)`: `a20` is the argument at position `21` (from `0`) of
the arguments followed by the numbers.  It is a number only when that position lies in the
numbers. -/
def CXX_DISPATCH_VARIADIC {α : Type} (args : List α) : Option Nat :=
  match (args.map (fun _ => (none : Option Nat)) ++
      CXX_DISPATCH_VARIADIC.numbers.map some).get? 21 with
  | some (some n) => some n
  | _ => none

/-- Macros `CXX_LIST_WRAP_WITH_0` to `CXX_LIST_WRAP_WITH_15`, by their numeric suffix:
`_0` is empty, `_1(macro, arg, var, ...)` is `macro(var, arg)`, and `_n(macro, arg, var, ...)`
is `macro(var, arg), CXX_LIST_WRAP_WITH_(n-1)(macro, arg, __VA_ARGS__)`; the elements of the
result are the items of the comma separated list. -/
def CXX_LIST_WRAP_WITH_ {α β γ : Type} : Nat → (α → γ → β) → γ → List α → Option (List β)
  | 0, _, _, _ => some []
  | _ + 1, _, _, [] => none
  | 1, fn, arg, var :: _ => some [fn var arg]
  | n + 2, fn, arg, var :: rest =>
    if n + 2 ≤ 15 then (CXX_LIST_WRAP_WITH_ (n + 1) fn arg rest).map (fun l => fn var arg :: l)
    else none

/-- Macro `CXX_LIST_WRAP_WITH(macro, arg, ...)`:
`CXX_DISPATCH_VARIADIC(CXX_LIST_WRAP_WITH_, __VA_ARGS__)(macro, arg, __VA_ARGS__)`. -/
def CXX_LIST_WRAP_WITH {α β γ : Type} (fn : α → γ → β) (arg : γ) (args : List α) :
    Option (List β) :=
  match CXX_DISPATCH_VARIADIC args with
  | some n => CXX_LIST_WRAP_WITH_ n fn arg args
  | none => none

/-- Macros `CXX_LIST_APPLY_INDEX_REV_0` to `CXX_LIST_APPLY_INDEX_REV_15`, by their numeric
suffix: `_0` is empty, `_1(macro, var, ...)` is `macro(var, 0)`, and `_n(macro, var, ...)` is
`CXX_LIST_APPLY_INDEX_REV_(n-1)(macro, __VA_ARGS__) macro(var, n-1)`. -/
def CXX_LIST_APPLY_INDEX_REV_ {α β : Type} : Nat → (α → Nat → β) → List α → Option (List β)
  | 0, _, _ => some []
  | _ + 1, _, [] => none
  | 1, fn, var :: _ => some [fn var 0]
  | n + 2, fn, var :: rest =>
    if n + 2 ≤ 15 then
      (CXX_LIST_APPLY_INDEX_REV_ (n + 1) fn rest).map (fun l => l ++ [fn var (n + 1)])
    else none

/-- Macro `CXX_LIST_APPLY_INDEX_REV(macro, ...)`:
`CXX_DISPATCH_VARIADIC(CXX_LIST_APPLY_INDEX_REV_, __VA_ARGS__)(macro, __VA_ARGS__)`. -/
def CXX_LIST_APPLY_INDEX_REV {α β : Type} (fn : α → Nat → β) (args : List α) :
    Option (List β) :=
  match CXX_DISPATCH_VARIADIC args with
  | some n => CXX_LIST_APPLY_INDEX_REV_ n fn args
  | none => none

/-- An identifier made by token pasting: `base##suffix`. -/
structure Pasted where
  base : String
  suffix : String
  deriving DecidableEq, Repr

/-- A member declaration `type _index;` of a tuple struct. -/
structure Field where
  /-- The tokens of the type. -/
  type : String
  /-- The number pasted to `_` in the name of the member. -/
  index : Nat
  deriving DecidableEq, Repr

/-- Macro `CXX_DEFINE_TUPLE_FIELD(type, index)`: `type _##index;`. -/
def CXX_DEFINE_TUPLE_FIELD (type : String) (index : Nat) : Field :=
  { type := type, index := index }

/-- The declaration that a variant definition puts into the namespace `name##_impl`. -/
inductive Impl where
  /-- Declaration `using name = type;`. -/
  | using_alias (name : Pasted) (type : String)
  /-- Declaration `struct name { members };` with the member declarations in textual order
  (`none`: their expansion failed). -/
  | struct_of_fields (name : Pasted) (members : Option (List Field))
  /-- Declaration `struct name { body };` with a body written by the user. -/
  | struct_of_body (name : Pasted) (body : String)
  deriving DecidableEq, Repr

/-- A variant definition `d` in the list given to `CXX_DEFINE_VARIANT`: the tokens
`UNIT(name)`, `TYPE(name, type)`, `TUPLE(name, types...)` or `STRUCT(name, body)`. -/
inductive VariantDef where
  | UNIT (name : String)
  | TYPE (name : String) (type : String)
  | TUPLE (name : String) (types : List String)
  | STRUCT (name : String) (body : String)
  deriving DecidableEq, Repr

/-- The three items `name, type, impl` that `CXX_VARIANT_##def` expands to. -/
structure VariantItems where
  name : String
  type : Pasted
  impl : Impl
  deriving DecidableEq, Repr

/-- Macro `CXX_VARIANT_TUPLE(name, ...)`: `name, name##_t, struct name##_t { ... };` with the
members `CXX_LIST_APPLY_INDEX_REV(CXX_DEFINE_TUPLE_FIELD, __VA_ARGS__)`. -/
def CXX_VARIANT_TUPLE (name : String) (types : List String) : VariantItems :=
  { name := name, type := ⟨name, "_t"⟩,
    impl := .struct_of_fields ⟨name, "_t"⟩
      (CXX_LIST_APPLY_INDEX_REV CXX_DEFINE_TUPLE_FIELD types) }

/-- Expansion of `CXX_VARIANT_##def`, which pastes to a call of `CXX_VARIANT_UNIT`,
`CXX_VARIANT_TYPE`, `CXX_VARIANT_TUPLE` or `CXX_VARIANT_STRUCT`. -/
def CXX_VARIANT_ : VariantDef → VariantItems
  | .UNIT name =>
    -- name, name##_t, struct name##_t {};
    { name := name, type := ⟨name, "_t"⟩, impl := .struct_of_fields ⟨name, "_t"⟩ (some []) }
  | .TYPE name type =>
    -- name, name##_t, using name##_t = type;
    { name := name, type := ⟨name, "_t"⟩, impl := .using_alias ⟨name, "_t"⟩ type }
  | .TUPLE name types => CXX_VARIANT_TUPLE name types
  | .STRUCT name body =>
    -- name, name##_t, struct name##_t { __VA_ARGS__ };
    { name := name, type := ⟨name, "_t"⟩, impl := .struct_of_body ⟨name, "_t"⟩ body }

/-- Macro `CXX_VARIANT_TYPE_FROM_DEF(name, type, impl)`: `type`. -/
def CXX_VARIANT_TYPE_FROM_DEF (items : VariantItems) : Pasted :=
  items.type

/-- A qualified name `scope::name`. -/
structure Qualified where
  scope : Pasted
  name : Pasted
  deriving DecidableEq, Repr

/-- Macro `CXX_VARIANT_COLLECT_TYPE(def, variant)`:
`variant##_impl::CXX_VARIANT_TYPE_FROM_DEF(CXX_VARIANT_##def)`. -/
def CXX_VARIANT_COLLECT_TYPE (d : VariantDef) (variant : String) : Qualified :=
  { scope := ⟨variant, "_impl"⟩, name := CXX_VARIANT_TYPE_FROM_DEF (CXX_VARIANT_ d) }

/-- Macro `CXX_VARIANT_TYPE_PACK(name, ...)`:
`CXX_LIST_WRAP_WITH(CXX_VARIANT_COLLECT_TYPE, name, __VA_ARGS__)`. -/
def CXX_VARIANT_TYPE_PACK (name : String) (variants : List VariantDef) :
    Option (List Qualified) :=
  CXX_LIST_WRAP_WITH CXX_VARIANT_COLLECT_TYPE name variants

/-- Macro `CXX_DEFINE_VARIANT(name, variants)`: the template arguments of the base class
`::rust::enm::variant<CXX_VARIANT_TYPE_PACK(name, variants...)>` of `struct name`. -/
def CXX_DEFINE_VARIANT (name : String) (variants : List VariantDef) : Option (List Qualified) :=
  CXX_VARIANT_TYPE_PACK name variants

/-- The variant definitions of `RustEnum` in `tests/suite/tests.h`. -/
def RustEnum_variants : List VariantDef :=
  [.UNIT "Empty", .TYPE "Num" "int64_t", .TYPE "String" "rust::string", .TYPE "Bool" "bool",
   .TYPE "Shared" "SharedData", .TYPE "SharedRef" "std::reference_wrapper<SharedData>",
   .TYPE "Opaque" "rust::box<RustValue>", .TYPE "OpaqueRef" "std::reference_wrapper<RustValue>",
   .TUPLE "Tuple" ["int32_t", "int32_t"], .STRUCT "Struct" "int32_t val; rust::string str;",
   .UNIT "Unit1", .UNIT "Unit2"]

/-! ## Comparison of two optionals, and of an optional with a value -/

/-- An expression `*lhs op *rhs` (or `*lhs op rhs`, `lhs op *rhs`) on payloads: both operands
are evaluated, then compared with the operator `op` of the payload type. -/
def compare_payloads (op : Bytes → Bytes → Bool) : Evaluation Bytes → Evaluation Bytes →
    Evaluation Bool
  | .value x, .value y => .value (op x y)
  | _, _ => .undefined

/-- Function `operator!=(const optional<T> &lhs, const optional<U> &rhs)`:
`lhs.has_value != rhs.has_value() && (!lhs.has_value() || *lhs != *rhs)`; `ne` is `!=` on the
payloads. -/
def optional.operator_ne {τ : Type} (T U : τ) (ne : Bytes → Bytes → Bool)
    (lhs rhs : variant_base τ) : Outcome (Evaluation Bool) :=
  match optional.has_value_not_called lhs with
  | .returned uncalled =>
    if uncalled != optional.has_value rhs then
      if !optional.has_value lhs then .returned (.value true)
      else .returned
        (compare_payloads ne (optional.operator_star T lhs) (optional.operator_star U rhs))
    else .returned (.value false)
  | .thrown e => .thrown e
  | .ill_formed => .ill_formed

/-- Function `operator<(const optional<T> &lhs, const optional<U> &rhs)`:
`rhs.has_value() && (!lhs.has_value() || *lhs < *rhs)`. -/
def optional.operator_lt {τ : Type} (T U : τ) (lt : Bytes → Bytes → Bool)
    (lhs rhs : variant_base τ) : Evaluation Bool :=
  if optional.has_value rhs then
    if !optional.has_value lhs then .value true
    else compare_payloads lt (optional.operator_star T lhs) (optional.operator_star U rhs)
  else .value false

/-- Function `operator>(const optional<T> &lhs, const optional<U> &rhs)`:
`lhs.has_value() && (!rhs.has_value() || *lhs > *rhs)`. -/
def optional.operator_gt {τ : Type} (T U : τ) (gt : Bytes → Bytes → Bool)
    (lhs rhs : variant_base τ) : Evaluation Bool :=
  if optional.has_value lhs then
    if !optional.has_value rhs then .value true
    else compare_payloads gt (optional.operator_star T lhs) (optional.operator_star U rhs)
  else .value false

/-- Function `operator<=(const optional<T> &lhs, const optional<U> &rhs)`:
`!lhs.has_value() || (rhs.has_value() || *lhs <= *rhs)`. -/
def optional.operator_le {τ : Type} (T U : τ) (le : Bytes → Bytes → Bool)
    (lhs rhs : variant_base τ) : Evaluation Bool :=
  if !optional.has_value lhs then .value true
  else if optional.has_value rhs then .value true
  else compare_payloads le (optional.operator_star T lhs) (optional.operator_star U rhs)

/-- Function `operator>=(const optional<T> &lhs, const optional<U> &rhs)`:
`!rhs.has_value() || (lhs.has_value() || *lhs <= *rhs)`. -/
def optional.operator_ge {τ : Type} (T U : τ) (le : Bytes → Bytes → Bool)
    (lhs rhs : variant_base τ) : Evaluation Bool :=
  if !optional.has_value rhs then .value true
  else if optional.has_value lhs then .value true
  else compare_payloads le (optional.operator_star T lhs) (optional.operator_star U rhs)

/-- Function `operator==(const optional<T> &lhs, const U &rhs)`:
`lhs.has_value() ? *lhs == rhs : false`. -/
def optional.operator_eq_value {τ : Type} (T : τ) (eq : Bytes → Bytes → Bool)
    (lhs : variant_base τ) (rhs : Bytes) : Evaluation Bool :=
  if optional.has_value lhs then compare_payloads eq (optional.operator_star T lhs) (.value rhs)
  else .value false

/-- Function `operator==(const U &lhs, const optional<T> &rhs)`:
`rhs.has_value() ? lhs == *rhs : false`. -/
def optional.value_operator_eq {τ : Type} (T : τ) (eq : Bytes → Bytes → Bool)
    (lhs : Bytes) (rhs : variant_base τ) : Evaluation Bool :=
  if optional.has_value rhs then compare_payloads eq (.value lhs) (optional.operator_star T rhs)
  else .value false

/-- Function `operator!=(const optional<T> &lhs, const U &rhs)`:
`lhs.has_value() ? *lhs != rhs : true`. -/
def optional.operator_ne_value {τ : Type} (T : τ) (ne : Bytes → Bytes → Bool)
    (lhs : variant_base τ) (rhs : Bytes) : Evaluation Bool :=
  if optional.has_value lhs then compare_payloads ne (optional.operator_star T lhs) (.value rhs)
  else .value true

/-- Function `operator!=(const U &lhs, const optional<T> &rhs)`:
`rhs.has_value() ? lhs != *rhs : true`. -/
def optional.value_operator_ne {τ : Type} (T : τ) (ne : Bytes → Bytes → Bool)
    (lhs : Bytes) (rhs : variant_base τ) : Evaluation Bool :=
  if optional.has_value rhs then compare_payloads ne (.value lhs) (optional.operator_star T rhs)
  else .value true

/-- Function `operator<(const optional<T> &lhs, const U &rhs)`:
`lhs.has_value() ? *lhs < rhs : true`. -/
def optional.operator_lt_value {τ : Type} (T : τ) (lt : Bytes → Bytes → Bool)
    (lhs : variant_base τ) (rhs : Bytes) : Evaluation Bool :=
  if optional.has_value lhs then compare_payloads lt (optional.operator_star T lhs) (.value rhs)
  else .value true

/-- Function `operator<(const U &lhs, const optional<T> &rhs)`:
`rhs.has_value() ? lhs < *rhs : false`. -/
def optional.value_operator_lt {τ : Type} (T : τ) (lt : Bytes → Bytes → Bool)
    (lhs : Bytes) (rhs : variant_base τ) : Evaluation Bool :=
  if optional.has_value rhs then compare_payloads lt (.value lhs) (optional.operator_star T rhs)
  else .value false

/-- Function `operator<=(const optional<T> &lhs, const U &rhs)`:
`lhs.has_value() ? *lhs <= rhs : true`. -/
def optional.operator_le_value {τ : Type} (T : τ) (le : Bytes → Bytes → Bool)
    (lhs : variant_base τ) (rhs : Bytes) : Evaluation Bool :=
  if optional.has_value lhs then compare_payloads le (optional.operator_star T lhs) (.value rhs)
  else .value true

/-- Function `operator<=(const U &lhs, const optional<T> &rhs)`:
`rhs.has_value() ? lhs <= *rhs : false`. -/
def optional.value_operator_le {τ : Type} (T : τ) (le : Bytes → Bytes → Bool)
    (lhs : Bytes) (rhs : variant_base τ) : Evaluation Bool :=
  if optional.has_value rhs then compare_payloads le (.value lhs) (optional.operator_star T rhs)
  else .value false

/-- Function `operator>(const optional<T> &lhs, const U &rhs)`:
`lhs.has_value() ? *lhs > rhs : false`. -/
def optional.operator_gt_value {τ : Type} (T : τ) (gt : Bytes → Bytes → Bool)
    (lhs : variant_base τ) (rhs : Bytes) : Evaluation Bool :=
  if optional.has_value lhs then compare_payloads gt (optional.operator_star T lhs) (.value rhs)
  else .value false

/-- Function `operator>(const U &lhs, const optional<T> &rhs)`:
`rhs.has_value() ? lhs > *rhs : true`. -/
def optional.value_operator_gt {τ : Type} (T : τ) (gt : Bytes → Bytes → Bool)
    (lhs : Bytes) (rhs : variant_base τ) : Evaluation Bool :=
  if optional.has_value rhs then compare_payloads gt (.value lhs) (optional.operator_star T rhs)
  else .value true

/-- Function `operator>=(const optional<T> &lhs, const U &rhs)`:
`lhs.has_value() ? *lhs >= rhs : false`. -/
def optional.operator_ge_value {τ : Type} (T : τ) (ge : Bytes → Bytes → Bool)
    (lhs : variant_base τ) (rhs : Bytes) : Evaluation Bool :=
  if optional.has_value lhs then compare_payloads ge (optional.operator_star T lhs) (.value rhs)
  else .value false

/-- Function `operator>=(const U &lhs, const optional<T> &rhs)`:
`rhs.has_value() ? lhs >= *rhs : true`. -/
def optional.value_operator_ge {τ : Type} (T : τ) (ge : Bytes → Bytes → Bool)
    (lhs : Bytes) (rhs : variant_base τ) : Evaluation Bool :=
  if optional.has_value rhs then compare_payloads ge (.value lhs) (optional.operator_star T rhs)
  else .value true

/-- The unsigned integer that a little-endian object representation encodes. -/
def le_value : Bytes → Nat
  | [] => 0
  | b :: bs => b + 256 * le_value bs

/-- The optional `OptionalInt32` holding `3`. -/
def present_OptionalInt32_3 : variant_base CxxType :=
  { m_Index := 1, m_Buff := { bytes := le_bytes 4 3, object := some .int } }

/-- The optional `OptionalInt32` holding `5`. -/
def present_OptionalInt32_5 : variant_base CxxType :=
  { m_Index := 1, m_Buff := { bytes := le_bytes 4 5, object := some .int } }

/-- A union over `Unit_Int_Str` constructed as `Str("x")`. -/
def Str_held : variant_base CxxType :=
  { m_Index := 2, m_Buff := { bytes := Str_x, object := some .rust_String } }

/-- The union `copy_variant(CopyAndMoveType())` of the static checks. -/
def CopyAndMove_held : variant_base CxxType :=
  { m_Index := 1, m_Buff := { bytes := [0], object := some .CopyAndMoveType } }

/-! ## Chaining on expected: `transform` and `and_then` -/

/-- A callable `f` of type `F` as `and_then` uses it: its result is itself an expected. -/
structure Continuation (τ : Type) where
  /-- The alternatives `U, G` of the class `std::invoke_result_t<F, A &>` when that is an
  `expected<U, G>`; `none` when `F` cannot be invoked with an lvalue of type `A`, or the result
  is no such class (the `static_assert` of `and_then` then fails). -/
  invoke_result : τ → Option (τ × τ)
  /-- The expected that `std::invoke(f, a)` returns for an lvalue `a` of type `A`, built in the
  given storage. -/
  invoke : τ → Bytes → Bytes → variant_base τ

/-- Member `expected::transform(f) &`, building the returned object in `raw`:

    using result = expected<std::remove_cv_t<std::invoke_result_t<F, T &>>, E>;
    return has_value() ? std::invoke(std::forward<F>(f), value()) : result(error());

With `U` the type `f` returns for a `T &`: the second operand has type `U` and the third the
class `result`, so the conditional operator needs the conversion of `U` to `result`, which is
the converting constructor of `variant_base` (`U` unique among `U, E` and constructible from an
rvalue); `result(error())` is the same constructor for the lvalue `error()` (`E` unique and
copy constructible).  Member `value() &` is instantiated, which needs `E` copy
constructible. -/
def expected.transform {τ : Type} [DecidableEq τ] [AltTraits τ] (T E : τ)
    (f : Callable τ) (self : variant_base τ) (raw : Bytes) : Transformed τ :=
  match f.invoke_result T with
  | some U =>
    if is_unique_v U (expected.types U E) = true ∧
        (AltTraits.move U).is_constructible = true ∧
        is_unique_v E (expected.types U E) = true ∧
        (AltTraits.copy E).is_constructible = true then
      if expected.has_value self then
        { created := variant_base.from_value (expected.types U E)
            { type := U, value := f.invoke T (view T self.m_Buff.bytes), category := .rvalue }
            raw,
          calls := [(T, view T self.m_Buff.bytes)] }
      else
        { created := variant_base.from_value (expected.types U E)
            { type := E, value := expected.error E self, category := .lvalue } raw,
          calls := [] }
    else { created := { result := .ill_formed, trace := [] }, calls := [] }
  | none => { created := { result := .ill_formed, trace := [] }, calls := [] }

/-- Member `expected::and_then(f) &`, building the returned object in `raw`:

    using result = std::invoke_result_t<F, T &>;
    static_assert(detail::is_rust_expected<result>::value, "...");
    return (has_value()) ? std::invoke(std::forward<F>(f), value()) : result(error());

With `result` the class `expected<U, G>`: `result(error())` is the converting constructor of
`variant_base` for the lvalue `error()` (`E` unique among `U, G` and copy constructible). -/
def expected.and_then {τ : Type} [DecidableEq τ] [AltTraits τ] (T E : τ)
    (f : Continuation τ) (self : variant_base τ) (raw : Bytes) : Transformed τ :=
  match f.invoke_result T with
  | some (U, G) =>
    if is_unique_v E (expected.types U G) = true ∧
        (AltTraits.copy E).is_constructible = true then
      if expected.has_value self then
        { created :=
            { result := .returned (f.invoke T (view T self.m_Buff.bytes) raw), trace := [] },
          calls := [(T, view T self.m_Buff.bytes)] }
      else
        { created := variant_base.from_value (expected.types U G)
            { type := E, value := expected.error E self, category := .lvalue } raw,
          calls := [] }
    else { created := { result := .ill_formed, trace := [] }, calls := [] }
  | none => { created := { result := .ill_formed, trace := [] }, calls := [] }

/-- The function `int64_t widen(int32_t &x)`, which returns `x` as an `int64_t` (for a
non-negative `x`). -/
def widen : Callable CxxType :=
  { invoke_result := fun A => if A = .int then some .int64_t else none,
    invoke := fun _ x => x ++ [0, 0, 0, 0] }

/-- The function `expected<int64_t, rust::String> checked_widen(int32_t &x)`, which returns
the success holding `x` as an `int64_t`. -/
def checked_widen : Continuation CxxType :=
  { invoke_result := fun A => if A = .int then some (.int64_t, .rust_String) else none,
    invoke := fun _ x raw =>
      { m_Index := 0,
        m_Buff := { bytes := overwrite raw (x ++ [0, 0, 0, 0]), object := some .int64_t } } }

/-- Member `expected::transform(f) const &`: the body of `transform(f) &`, with `f` invoked on
a `const T &` and with the members `value()` and `error()` of a `const` object.  Its `value()`
is `value() const &`, which is instantiated together with it, whatever the state is. -/
def expected.transform_const {τ : Type} [DecidableEq τ] [AltTraits τ] (T E : τ)
    (f : Callable τ) (self : variant_base τ) (raw : Bytes) : Transformed τ :=
  match expected.value_const T E self with
  | .ill_formed => { created := { result := .ill_formed, trace := [] }, calls := [] }
  | _ => expected.transform T E f self raw

/-- Member `expected::and_then(f) const &`: the body of `and_then(f) &`, with `f` invoked on a
`const T &` and with the members `value()` and `error()` of a `const` object. -/
def expected.and_then_const {τ : Type} [DecidableEq τ] [AltTraits τ] (T E : τ)
    (f : Continuation τ) (self : variant_base τ) (raw : Bytes) : Transformed τ :=
  match expected.value_const T E self with
  | .ill_formed => { created := { result := .ill_formed, trace := [] }, calls := [] }
  | _ => expected.and_then T E f self raw

/-- The function `rust::String label(int32_t &)`, which returns the string `"x"`. -/
def label : Callable CxxType :=
  { invoke_result := fun A => if A = .int then some .rust_String else none,
    invoke := fun _ _ => Str_x }

/-- The function `expected<rust::String, int32_t> checked_label(int32_t &)`, which returns the
success holding the string `"x"`; its error type is `int32_t`. -/
def checked_label : Continuation CxxType :=
  { invoke_result := fun A => if A = .int then some (.rust_String, .int) else none,
    invoke := fun _ _ raw =>
      { m_Index := 0, m_Buff := { bytes := overwrite raw Str_x, object := some .rust_String } } }

/-- The type of the test suite that a declaration of the namespace `RustEnum_impl` names: the
target of a `using` alias, or the struct itself. -/
def CxxType.of_impl : Impl → Option CxxType
  | .using_alias _ "int64_t" => some .int64_t
  | .using_alias _ "rust::string" => some .rust_String
  | .using_alias _ "bool" => some .bool
  | .using_alias _ "SharedData" => some .SharedData
  | .using_alias _ "std::reference_wrapper<SharedData>" => some .SharedDataRef
  | .using_alias _ "rust::box<RustValue>" => some .Box_RustValue
  | .using_alias _ "std::reference_wrapper<RustValue>" => some .RustValueRef
  | .struct_of_fields ⟨"Empty", "_t"⟩ _ => some .Empty_t
  | .struct_of_fields ⟨"Tuple", "_t"⟩ _ => some .Tuple_t
  | .struct_of_body ⟨"Struct", "_t"⟩ _ => some .Struct_t
  | .struct_of_fields ⟨"Unit1", "_t"⟩ _ => some .Unit1_t
  | .struct_of_fields ⟨"Unit2", "_t"⟩ _ => some .Unit2_t
  | _ => none

/-! ## Lemmas on buffers, dispatch and the index resolver -/

theorem overwrite_length (buff object : Bytes) : (overwrite buff object).length = buff.length := by
  unfold overwrite
  simp only [List.length_take, List.length_append, List.length_drop]
  omega

theorem view_overwrite {τ : Type} [AltTraits τ] (T : τ) (buff object : Bytes)
    (hobject : object.length = AltTraits.sizeof T) (hfits : AltTraits.sizeof T ≤ buff.length) :
    view T (overwrite buff object) = object := by
  unfold view overwrite
  rw [List.take_take, ← hobject, min_eq_left (by omega), List.take_left]

theorem memcpy_all {τ : Type} (dst src : Storage τ) (n : Nat) (hsrc : src.bytes.length = n)
    (hdst : dst.bytes.length ≤ n) : memcpy dst src n = src := by
  cases src with
  | mk bytes object =>
    simp only [memcpy] at *
    rw [List.take_of_length_le (by omega), List.drop_eq_nil_of_le hdst, List.append_nil]

theorem backup_eq {τ : Type} (buff : Storage τ) :
    memcpy { bytes := List.replicate buff.bytes.length 0, object := none } buff
      buff.bytes.length = buff :=
  memcpy_all _ _ _ rfl (by simp)

theorem placement_new_length {τ : Type} (buff : Storage τ) (T : τ) (a : Attempt) :
    (placement_new buff T a).bytes.length = buff.bytes.length := by
  cases a <;> simp [placement_new, overwrite_length]

theorem variant_alternative_lt {τ : Type} : ∀ (Ts : List τ) (I : Nat) (T : τ),
    variant_alternative I Ts = some T → I < Ts.length
  | [], _, _, h => by simp [variant_alternative] at h
  | _ :: _, 0, _, _ => by simp
  | _ :: Remainder, I + 1, T, h => by
    have := variant_alternative_lt Remainder I T (by simpa [variant_alternative] using h)
    simp only [List.length_cons]
    omega

theorem variant_alternative_none {τ : Type} : ∀ (Ts : List τ) (I : Nat),
    variant_alternative I Ts = none → Ts.length ≤ I
  | [], _, _ => by simp
  | _ :: _, 0, h => by simp [variant_alternative] at h
  | _ :: Remainder, I + 1, h => by
    have := variant_alternative_none Remainder I (by simpa [variant_alternative] using h)
    simp only [List.length_cons]
    omega

/-- Dispatch reaches exactly the alternative at position `index`; past the end of a non-empty
list it throws `std::out_of_range("invalid")`. -/
theorem visitor_type_visit_eq {τ ρ : Type} [AltTraits τ] (visitor : τ → Bytes → ρ) :
    ∀ (Ts : List τ) (index : Nat) (data : Bytes),
      visitor_type.visit visitor Ts index data =
        match variant_alternative index Ts with
        | some T => .returned (visitor T (view T data))
        | none => if Ts.length = 0 then .ill_formed else .thrown (.out_of_range "invalid")
  | [], index, data => by simp [visitor_type.visit, variant_alternative]
  | First :: Remainder, 0, data => by simp [visitor_type.visit, variant_alternative]
  | First :: Remainder, index + 1, data => by
    have ih := visitor_type_visit_eq visitor Remainder index data
    simp only [visitor_type.visit, variant_alternative, Nat.add_sub_cancel]
    cases hR : Remainder with
    | nil => simp [variant_alternative]
    | cons U Us =>
      rw [hR] at ih
      simp [ih]

theorem destroy_eq {τ : Type} [AltTraits τ] (Ts : List τ) (self : variant_base τ) :
    self.destroy Ts =
      match variant_alternative self.index Ts with
      | some A =>
        { self := { self with m_Buff := { self.m_Buff with object := none } },
          result := .returned (),
          trace := [.destroy A .storage (view A self.m_Buff.bytes)] }
      | none =>
        { self := self,
          result := if Ts.length = 0 then .ill_formed else .thrown (.out_of_range "invalid"),
          trace := [] } := by
  unfold variant_base.destroy visit variant_base.index
  rw [visitor_type_visit_eq]
  cases variant_alternative (size_t_of_int self.m_Index) Ts with
  | some A => rfl
  | none =>
    by_cases h : Ts.length = 0 <;> simp [h]

theorem sizeof_le_buff_size {τ : Type} [AltTraits τ] : ∀ (Ts : List τ) (I : Nat) (T : τ),
    variant_alternative I Ts = some T → AltTraits.sizeof T ≤ buff_size Ts
  | [], _, _, h => by simp [variant_alternative] at h
  | First :: _, 0, T, h => by
    simp only [variant_alternative, Option.some.injEq] at h
    subst h
    simp [buff_size]
  | _ :: Remainder, I + 1, T, h => by
    have := sizeof_le_buff_size Remainder I T (by simpa [variant_alternative] using h)
    simp only [buff_size]
    omega

theorem compile_time_count_pos_of_alternative {τ : Type} [DecidableEq τ] (T : τ) :
    ∀ (Ts : List τ) (j : Nat), variant_alternative j Ts = some T →
      0 < compile_time_count (is_same_pack T Ts)
  | [], _, h => by simp [variant_alternative] at h
  | First :: _, 0, h => by
    simp only [variant_alternative, Option.some.injEq] at h
    subst h
    simp [is_same_pack, compile_time_count]
  | First :: Remainder, j + 1, h => by
    have := compile_time_count_pos_of_alternative T Remainder j
      (by simpa [variant_alternative] using h)
    simp only [is_same_pack, List.map_cons, compile_time_count] at this ⊢
    omega

/-- The position found by `index_from_booleans` holds the type that was looked up. -/
theorem index_from_booleans_alternative {τ : Type} [DecidableEq τ] (T : τ) :
    ∀ (Ts : List τ) (I : Nat), 0 < compile_time_count (is_same_pack T Ts) →
      ∃ j, index_from_booleans I (is_same_pack T Ts) = some (I + j) ∧
        variant_alternative j Ts = some T
  | [], _, h => by simp [is_same_pack, compile_time_count] at h
  | First :: Remainder, I, h => by
    by_cases hsame : T = First
    · subst hsame
      exact ⟨0, by simp [is_same_pack, index_from_booleans], by simp [variant_alternative]⟩
    · have hrest : 0 < compile_time_count (is_same_pack T Remainder) := by
        simpa [is_same_pack, compile_time_count, hsame] using h
      obtain ⟨j, hj, halt⟩ := index_from_booleans_alternative T Remainder (I + 1) hrest
      refine ⟨j + 1, ?_, by simpa [variant_alternative] using halt⟩
      simp only [is_same_pack, List.map_cons, hsame, decide_False, index_from_booleans]
      simp only [is_same_pack] at hj
      rw [hj]
      congr 1
      omega

/-- When `T` occurs exactly once, every position holding `T` is the one `index_from_booleans`
finds. -/
theorem index_from_booleans_unique {τ : Type} [DecidableEq τ] (T : τ) :
    ∀ (Ts : List τ) (I j : Nat), compile_time_count (is_same_pack T Ts) = 1 →
      variant_alternative j Ts = some T →
      index_from_booleans I (is_same_pack T Ts) = some (I + j)
  | [], _, _, _, h => by simp [variant_alternative] at h
  | First :: Remainder, I, j, hcount, halt => by
    by_cases hsame : T = First
    · subst hsame
      cases j with
      | zero => simp [is_same_pack, index_from_booleans]
      | succ j =>
        have := compile_time_count_pos_of_alternative T Remainder j
          (by simpa [variant_alternative] using halt)
        simp only [is_same_pack, List.map_cons, decide_True, compile_time_count, if_true]
          at hcount this
        omega
    · cases j with
      | zero =>
        simp only [variant_alternative, Option.some.injEq] at halt
        exact absurd halt.symm hsame
      | succ j =>
        have hrest : compile_time_count (is_same_pack T Remainder) = 1 := by
          simpa [is_same_pack, compile_time_count, hsame] using hcount
        have ih := index_from_booleans_unique T Remainder (I + 1) j hrest
          (by simpa [variant_alternative] using halt)
        simp only [is_same_pack, List.map_cons, hsame, decide_False, index_from_booleans]
        simp only [is_same_pack] at ih
        rw [ih]
        congr 1
        omega

theorem index_from_type_of_unique {τ : Type} [DecidableEq τ] (T : τ) (Ts : List τ)
    (hunique : is_unique_v T Ts = true) :
    ∃ index, index_from_type T Ts = some index ∧ variant_alternative index Ts = some T := by
  have hcount : compile_time_count (is_same_pack T Ts) = 1 := by
    simpa [is_unique_v, exactly_once] using hunique
  obtain ⟨j, hj, halt⟩ := index_from_booleans_alternative T Ts 0 (by omega)
  refine ⟨j, ?_, halt⟩
  simp only [index_from_type, exactly_once, hcount, beq_self_eq_true, if_true, hj]
  simp

theorem index_from_type_of_alternative {τ : Type} [DecidableEq τ] (T : τ) (Ts : List τ) (j : Nat)
    (hunique : is_unique_v T Ts = true) (halt : variant_alternative j Ts = some T) :
    index_from_type T Ts = some j := by
  have hcount : compile_time_count (is_same_pack T Ts) = 1 := by
    simpa [is_unique_v, exactly_once] using hunique
  simp only [index_from_type, exactly_once, hcount, beq_self_eq_true, if_true,
    index_from_booleans_unique T Ts 0 j hcount halt]
  simp

theorem emplace_type_eq {τ : Type} [DecidableEq τ] [AltTraits τ] (Ts : List τ) (T : τ) (I : Nat)
    (args : Construction) (self : variant_base τ) (hunique : is_unique_v T Ts = true)
    (hindex : index_from_type T Ts = some I) :
    self.emplace_type Ts T args = self.emplace Ts I args := by
  simp [variant_base.emplace_type, hunique, hindex]

theorem emplace_failed {τ : Type} [AltTraits τ] (Ts : List τ) (I : Nat) (T : τ)
    (self : variant_base τ) (e : Exn) (scribbled : Bytes)
    (hT : variant_alternative I Ts = some T)
    (hcompiles : (AltTraits.move T).is_nothrow_constructible = true →
      (AltTraits.copy T).is_constructible = true) :
    self.emplace Ts I (.may_throw (.failed e scribbled)) =
      { self := self, result := .thrown e,
        trace := [.construct_failed T
          (if (AltTraits.move T).is_nothrow_constructible then .temporary else .storage)] } := by
  unfold variant_base.emplace
  simp only [hT]
  by_cases hmove : (AltTraits.move T).is_nothrow_constructible = true
  · have hcopy := hcompiles hmove
    simp only [hmove, if_true]
    cases hc : AltTraits.copy T <;> simp_all [SpecialCtor.is_constructible]
  · simp only [hmove, Bool.false_eq_true, if_false, backup_eq]
    rw [memcpy_all _ _ _ rfl (by rw [placement_new_length])]

theorem size_t_of_int_natCast (n : Nat) : size_t_of_int (n : Int) = n := by
  simp [size_t_of_int]

theorem get_after_emplace {τ : Type} [AltTraits τ] (Ts : List τ) (I : Nat) (T : τ)
    (buff : Storage τ) (hT : variant_alternative I Ts = some T) :
    get Ts I { m_Index := (I : Int), m_Buff := buff } = .returned (view T buff.bytes) := by
  simp [get, hT, variant_base.throw_if_invalid, size_t_of_int_natCast]

/-- A successful `emplace<I>`, in each of its three branches. -/
theorem emplace_built {τ : Type} [AltTraits τ] (Ts : List τ) (I : Nat) (T A : τ)
    (self : variant_base τ) (args : Construction) (t : Bytes)
    (hT : variant_alternative I Ts = some T)
    (hA : variant_alternative self.index Ts = some A)
    (hrun : args.run = .built t)
    (hcopy : args = .may_throw (.built t) →
      (AltTraits.move T).is_nothrow_constructible = true →
      (AltTraits.copy T).completes t = true) :
    self.emplace Ts I args =
      { self := { m_Index := (I : Int),
                  m_Buff := { bytes := overwrite self.m_Buff.bytes t, object := some T } },
        result := .returned (view T (overwrite self.m_Buff.bytes t)),
        trace := emplace_trace T A (view A self.m_Buff.bytes) t args } := by
  unfold variant_base.emplace
  simp only [hT]
  cases args with
  | noexcept object =>
    simp only [Construction.run, Attempt.built.injEq] at hrun
    subst hrun
    simp only [destroy_eq, hA, variant_base.emplace_finish, placement_new, emplace_trace,
      get_after_emplace Ts I T _ hT, List.singleton_append]
  | may_throw run =>
    simp only [Construction.run] at hrun
    subst hrun
    by_cases hmove : (AltTraits.move T).is_nothrow_constructible = true
    · have hc := hcopy rfl hmove
      simp only [hmove, if_true, emplace_trace]
      cases hk : AltTraits.copy T with
      | deleted => simp [hk, SpecialCtor.completes, SpecialCtor.call] at hc
      | noexcept =>
        simp only [destroy_eq, hA, SpecialCtor.call, Construction.run,
          variant_base.emplace_finish, placement_new, get_after_emplace Ts I T _ hT,
          List.singleton_append, List.cons_append, List.nil_append]
      | may_throw fails =>
        simp only [hk, SpecialCtor.completes, SpecialCtor.call] at hc
        cases hf : fails t with
        | some p => simp [hf, Construction.run] at hc
        | none =>
          simp only [destroy_eq, hA, SpecialCtor.call, hf, Construction.run,
            variant_base.emplace_finish, placement_new, get_after_emplace Ts I T _ hT,
            List.singleton_append, List.cons_append, List.nil_append]
    · simp only [hmove, Bool.false_eq_true, if_false, backup_eq, emplace_trace, swap_ranges]
      have h1 : memcpy (placement_new self.m_Buff T (.built t)) self.m_Buff
          self.m_Buff.bytes.length = self.m_Buff :=
        memcpy_all _ _ _ rfl (by rw [placement_new_length])
      have h2 : memcpy self.m_Buff (placement_new self.m_Buff T (.built t))
          self.m_Buff.bytes.length = placement_new self.m_Buff T (.built t) :=
        memcpy_all _ _ _ (placement_new_length _ _ _) (le_refl _)
      rw [h1, h2]
      have hidx : ({ self with m_Buff := self.m_Buff } : variant_base τ) = self := rfl
      simp only [hidx, destroy_eq, hA, variant_base.emplace_finish]
      have h3 : memcpy { bytes := self.m_Buff.bytes, object := none }
          (placement_new self.m_Buff T (.built t)) self.m_Buff.bytes.length =
          placement_new self.m_Buff T (.built t) :=
        memcpy_all _ _ _ (placement_new_length _ _ _) (le_refl _)
      rw [h3]
      simp only [placement_new, get_after_emplace Ts I T _ hT]

/-- What a returning `emplace<I>` implies about its inputs. -/
theorem emplace_returned_inv {τ : Type} [AltTraits τ] (Ts : List τ) (I : Nat)
    (self : variant_base τ) (args : Construction) (r : Bytes)
    (hret : (self.emplace Ts I args).result = .returned r) :
    ∃ T A t, variant_alternative I Ts = some T ∧ variant_alternative self.index Ts = some A ∧
      args.run = .built t ∧
      (args = .may_throw (.built t) → (AltTraits.move T).is_nothrow_constructible = true →
        (AltTraits.copy T).completes t = true) := by
  unfold variant_base.emplace at hret
  cases hT : variant_alternative I Ts with
  | none => simp [hT] at hret
  | some T =>
    simp only [hT] at hret
    cases hA : variant_alternative self.index Ts with
    | none =>
      exfalso
      cases args with
      | noexcept object =>
        simp only [destroy_eq, hA] at hret
        by_cases h0 : Ts.length = 0 <;> simp [h0] at hret
      | may_throw run =>
        by_cases hmove : (AltTraits.move T).is_nothrow_constructible = true
        · simp only [hmove, if_true] at hret
          cases hk : AltTraits.copy T <;> cases run <;> simp only [hk] at hret <;>
            first
              | (simp at hret; done)
              | (simp only [destroy_eq, hA] at hret
                 by_cases h0 : Ts.length = 0 <;> simp [h0] at hret)
        · cases run with
          | failed e scribbled => simp [hmove] at hret
          | built t =>
            simp only [hmove, Bool.false_eq_true, if_false, backup_eq, swap_ranges] at hret
            have h1 : memcpy (placement_new self.m_Buff T (.built t)) self.m_Buff
                self.m_Buff.bytes.length = self.m_Buff :=
              memcpy_all _ _ _ rfl (by rw [placement_new_length])
            rw [h1] at hret
            have hidx : ({ self with m_Buff := self.m_Buff } : variant_base τ) = self := rfl
            simp only [hidx, destroy_eq, hA] at hret
            by_cases h0 : Ts.length = 0 <;> simp [h0] at hret
    | some A =>
      cases args with
      | noexcept object => exact ⟨T, A, object, rfl, rfl, rfl, by simp⟩
      | may_throw run =>
        cases run with
        | failed e scribbled =>
          exfalso
          by_cases hmove : (AltTraits.move T).is_nothrow_constructible = true
          · simp only [hmove, if_true] at hret
            cases hk : AltTraits.copy T <;> simp [hk] at hret
          · simp [hmove] at hret
        | built t =>
          refine ⟨T, A, t, rfl, rfl, rfl, ?_⟩
          intro _ hmove
          simp only [hmove, if_true] at hret
          cases hk : AltTraits.copy T with
          | deleted => simp [hk] at hret
          | noexcept => simp [SpecialCtor.completes, SpecialCtor.call, Construction.run]
          | may_throw fails =>
            simp only [hk, destroy_eq, hA, SpecialCtor.call] at hret
            cases hf : fails t with
            | none => simp [SpecialCtor.completes, SpecialCtor.call, hf, Construction.run]
            | some p => simp [hf, Construction.run] at hret

theorem completes_call (c : SpecialCtor) (source : Bytes) (h : c.completes source = true) :
    ∃ k, c.call source = some k ∧ k.run = .built source := by
  unfold SpecialCtor.completes at h
  cases hk : c.call source with
  | none => simp [hk] at h
  | some k => exact ⟨k, rfl, by simpa [hk] using h⟩

theorem get_type_eq {τ : Type} [DecidableEq τ] [AltTraits τ] (Ts : List τ) (T : τ) (I : Nat)
    (variant : variant_base τ) (hunique : is_unique_v T Ts = true)
    (hindex : index_from_type T Ts = some I) : get_type Ts T variant = get Ts I variant := by
  simp [get_type, hunique, hindex]

theorem from_value_built {τ : Type} [DecidableEq τ] [AltTraits τ] (Ts : List τ)
    (other : Operand τ) (raw : Bytes) (index : Nat)
    (hunique : is_unique_v other.type Ts = true)
    (hindex : index_from_type other.type Ts = some index)
    (hbuilt : other.constructor.completes other.value = true) :
    variant_base.from_value Ts other raw =
      { result := .returned
          { m_Index := (index : Int),
            m_Buff := { bytes := overwrite raw other.value, object := some other.type } },
        trace := [.construct other.type .storage] } := by
  obtain ⟨k, hk, hrun⟩ := completes_call _ _ hbuilt
  simp [variant_base.from_value, hunique, hindex, Operand.construction, hk, hrun, placement_new]

/-- A converting assignment whose operand can be constructed from returns, in both of its
branches, with the operand's alternative selected and the operand's value written. -/
theorem assign_built {τ : Type} [DecidableEq τ] [AltTraits τ] (Ts : List τ)
    (u : variant_base τ) (x : Operand τ) (A : τ) (index : Nat)
    (hA : variant_alternative u.index Ts = some A)
    (hunique : is_unique_v x.type Ts = true)
    (hindex : index_from_type x.type Ts = some index)
    (halt : variant_alternative index Ts = some x.type)
    (hbuilt : x.constructor.completes x.value = true) :
    (u.assign Ts x).result = .returned () ∧ (u.assign Ts x).self.index = index ∧
    (u.assign Ts x).self.m_Buff.bytes = overwrite u.m_Buff.bytes x.value := by
  obtain ⟨k, hk, hrun⟩ := completes_call _ _ hbuilt
  unfold variant_base.assign
  simp only [hunique, if_true, hindex, Operand.construction, hk]
  by_cases hsame : size_t_of_int u.m_Index = index ∧ x.nothrow_assignable = true
  · simp [hsame, variant_base.index]
  · simp only [hsame, if_false]
    have hcopy : k = .may_throw (.built x.value) →
        (AltTraits.move x.type).is_nothrow_constructible = true →
        (AltTraits.copy x.type).completes x.value = true := by
      intro hkk hmove
      have hctor : x.constructor = AltTraits.copy x.type := by
        unfold Operand.constructor
        cases hcat : x.category with
        | rvalue =>
          exfalso
          simp only [Operand.constructor, hcat] at hk
          cases hm : AltTraits.move x.type with
          | deleted => simp [hm, SpecialCtor.call] at hk
          | noexcept =>
            simp only [hm, SpecialCtor.call, Option.some.injEq] at hk
            rw [← hk] at hkk
            cases hkk
          | may_throw fails => simp [hm, SpecialCtor.is_nothrow_constructible] at hmove
        | const_lvalue => rfl
        | lvalue => rfl
      rw [← hctor]
      exact hbuilt
    rw [emplace_type_eq Ts x.type index k u hunique hindex,
      emplace_built Ts index x.type A u k x.value halt hA hrun hcopy]
    exact ⟨rfl, by simp [variant_base.index, size_t_of_int_natCast], rfl⟩

theorem int32_of_size_t_small (n : Nat) (h : n < 2 ^ 31) : int32_of_size_t n = (n : Int) := by
  have hmod : n % 2 ^ 32 = n := Nat.mod_eq_of_lt (by omega)
  unfold int32_of_size_t
  rw [hmod, if_pos h]

theorem take_enum_eq (enm : variant_base CxxType) (A : CxxType)
    (hA : variant_alternative enm.index RustEnum = some A) :
    take_enum enm = .returned (enm.index : Int) := by
  have hlt := variant_alternative_lt RustEnum enm.index A hA
  have hlen : RustEnum.length = 12 := rfl
  unfold take_enum visit
  rw [visitor_type_visit_eq]
  have hA' : variant_alternative (size_t_of_int enm.m_Index) RustEnum = some A := hA
  simp only [hA']
  rw [int32_of_size_t_small _ (by omega)]

theorem assign_get_type {τ : Type} [DecidableEq τ] [AltTraits τ] (Ts : List τ)
    (u : variant_base τ) (x : Operand τ) (A : τ)
    (hA : variant_alternative u.index Ts = some A)
    (hunique : is_unique_v x.type Ts = true)
    (hbuilt : x.constructor.completes x.value = true)
    (hvalue : x.value.length = AltTraits.sizeof x.type)
    (hbuff : u.m_Buff.bytes.length = buff_size Ts) :
    ∃ index, index_from_type x.type Ts = some index ∧
      (u.assign Ts x).result = .returned () ∧ (u.assign Ts x).self.index = index ∧
      get_type Ts x.type (u.assign Ts x).self = .returned x.value := by
  obtain ⟨index, hindex, halt⟩ := index_from_type_of_unique x.type Ts hunique
  obtain ⟨hres, hidx, hbytes⟩ := assign_built Ts u x A index hA hunique hindex halt hbuilt
  refine ⟨index, hindex, hres, hidx, ?_⟩
  rw [get_type_eq Ts x.type index _ hunique hindex]
  have hsz := sizeof_le_buff_size Ts index x.type halt
  have hget : get Ts index (u.assign Ts x).self =
      .returned (view x.type (u.assign Ts x).self.m_Buff.bytes) := by
    have h' : size_t_of_int (u.assign Ts x).self.m_Index = index := hidx
    simp [get, halt, variant_base.throw_if_invalid, h']
  rw [hget, hbytes, view_overwrite x.type _ _ hvalue (by omega)]

theorem variant_alternative_mem {τ : Type} : ∀ (Ts : List τ) (I : Nat) (T : τ),
    variant_alternative I Ts = some T → T ∈ Ts
  | [], _, _, h => by simp [variant_alternative] at h
  | First :: _, 0, T, h => by
    simp only [variant_alternative, Option.some.injEq] at h
    simp [h]
  | _ :: Remainder, I + 1, T, h => by
    have := variant_alternative_mem Remainder I T (by simpa [variant_alternative] using h)
    simp [this]

theorem length_view {τ : Type} [AltTraits τ] (T : τ) (data : Bytes)
    (h : AltTraits.sizeof T ≤ data.length) : (view T data).length = AltTraits.sizeof T := by
  simp [view, List.length_take, h]

/-- Copy assignment from another object: for alternatives that are copy constructible and
pairwise distinct, when the copy of the object held by `b` completes, `a.copy_assign Ts b`
returns with the discriminant of `b` and with `get<b.index()>` equal to that of `b`. -/
theorem copy_assign_of_other_object {τ : Type} [DecidableEq τ] [AltTraits τ]
    (Ts : List τ) (a b : variant_base τ) (A B : τ)
    (hall : all_copy_constructible_v Ts = true)
    (hdistinct : Ts.all (fun T => is_unique_v T Ts) = true)
    (hA : variant_alternative a.index Ts = some A)
    (hB : variant_alternative b.index Ts = some B)
    (hcopy : (AltTraits.copy B).completes (view B b.m_Buff.bytes) = true)
    (ha : a.m_Buff.bytes.length = buff_size Ts)
    (hb : b.m_Buff.bytes.length = buff_size Ts) :
    (a.copy_assign Ts b).result = .returned () ∧
    (a.copy_assign Ts b).self.index = b.index ∧
    get Ts b.index (a.copy_assign Ts b).self = get Ts b.index b ∧
    get Ts b.index b = .returned (view B b.m_Buff.bytes) := by
  have hB' : variant_alternative (size_t_of_int b.m_Index) Ts = some B := hB
  have hsz := sizeof_le_buff_size Ts b.index B hB
  have hu : get Ts b.index b = .returned (view B b.m_Buff.bytes) := by
    simp [get, hB, hB', variant_base.throw_if_invalid, variant_base.index]
  have hunique : is_unique_v B Ts = true :=
    (List.all_eq_true.mp hdistinct) B (variant_alternative_mem Ts b.index B hB)
  have hindex := index_from_type_of_alternative B Ts b.index hunique hB
  have hstep : a.copy_assign Ts b = a.assign Ts (const_lvalue B (view B b.m_Buff.bytes)) := by
    unfold variant_base.copy_assign visit
    rw [visitor_type_visit_eq]
    simp [hall, hdistinct, hB']
  obtain ⟨index, hindex', hres, hidx, hget⟩ :=
    assign_get_type Ts a (const_lvalue B (view B b.m_Buff.bytes)) A hA hunique hcopy
      (length_view B _ (by omega)) ha
  have hi : index = b.index := by
    have h' : index_from_type B Ts = some index := hindex'
    rw [hindex] at h'
    exact (Option.some.inj h').symm
  subst hi
  rw [hstep, hu]
  refine ⟨hres, hidx, ?_, rfl⟩
  have hget' : get_type Ts B (a.assign Ts (const_lvalue B (view B b.m_Buff.bytes))).self =
      .returned (view B b.m_Buff.bytes) := hget
  rw [get_type_eq Ts B b.index _ hunique hindex] at hget'
  exact hget'

/-! ## Claims C1 to C10 -/

/-- C1: when the construction of the target alternative from the supplied arguments throws
`e`, `emplace<I>` (and `emplace<T>` for a unique `T`) propagates `e` and leaves the union as
it was: whatever alternative `A` it held with value `a`, afterwards `index()` is still `A`
and `get<A>` still returns `a`; no destructor has run. -/
theorem emplace_failure_keeps_held_alternative {τ : Type} [DecidableEq τ] [AltTraits τ]
    (Ts : List τ) (I : Nat) (T : τ) (self : variant_base τ) (e : Exn) (scribbled : Bytes)
    (hT : variant_alternative I Ts = some T)
    (hcompiles : (AltTraits.move T).is_nothrow_constructible = true →
      (AltTraits.copy T).is_constructible = true) :
    (self.emplace Ts I (.may_throw (.failed e scribbled))).result = .thrown e ∧
    (self.emplace Ts I (.may_throw (.failed e scribbled))).self = self ∧
    (∀ A a, get Ts A self = .returned a →
      self.index = A ∧
      (self.emplace Ts I (.may_throw (.failed e scribbled))).self.index = A ∧
      get Ts A (self.emplace Ts I (.may_throw (.failed e scribbled))).self = .returned a) ∧
    (∀ U place object, Event.destroy U place object ∉
      (self.emplace Ts I (.may_throw (.failed e scribbled))).trace) ∧
    (is_unique_v T Ts = true → index_from_type T Ts = some I →
      self.emplace_type Ts T (.may_throw (.failed e scribbled)) =
        self.emplace Ts I (.may_throw (.failed e scribbled))) := by
  rw [emplace_failed Ts I T self e scribbled hT hcompiles]
  refine ⟨rfl, rfl, ?_, ?_, ?_⟩
  · intro A a hget
    have hindex : self.index = A := by
      unfold get at hget
      cases hA : variant_alternative A Ts with
      | none => simp [hA] at hget
      | some TA =>
        simp only [hA, variant_base.throw_if_invalid] at hget
        by_cases h : size_t_of_int self.m_Index = A
        · exact h
        · simp [h] at hget
    exact ⟨hindex, hindex, hget⟩
  · intro U place object h
    simp at h
  · intro hunique hindex
    rw [emplace_type_eq Ts T I _ self hunique hindex,
      emplace_failed Ts I T self e scribbled hT hcompiles]

theorem emplace_failure_keeps_held_alternative_witness :
    variant_alternative 2 Unit_Int_Str = some CxxType.rust_String ∧
    (Int_5.emplace Unit_Int_Str 2 (.may_throw (.failed (.alternative 7) [9, 9]))).result =
      .thrown (.alternative 7) ∧
    (Int_5.emplace Unit_Int_Str 2 (.may_throw (.failed (.alternative 7) [9, 9]))).self = Int_5 :=
  ⟨by decide,
   (emplace_failure_keeps_held_alternative Unit_Int_Str 2 .rust_String Int_5 (.alternative 7)
      [9, 9] (by decide) (by decide)).1,
   (emplace_failure_keeps_held_alternative Unit_Int_Str 2 .rust_String Int_5 (.alternative 7)
      [9, 9] (by decide) (by decide)).2.1⟩

/-- C2, the code at the failing input: a union `variant<rust::String, ThrowingCopy>` is
constructed from the string `"x"` (it satisfies the invariant); `emplace<1>(7)` builds the
temporary, destroys the held string and then calls the copy constructor of `ThrowingCopy`
(the operand `std::move(tmp)` is `const`), which throws.  The exception leaves the union with
discriminant `0` and no live object in its storage: the invariant is broken. -/
theorem emplace_copy_of_temporary_breaks_never_valueless :
    (variant_base.from_value String_or_ThrowingCopy (prvalue .rust_String Str_x)
      (List.replicate 24 0)).result = .returned holding_x ∧
    never_valueless String_or_ThrowingCopy holding_x = true ∧
    (holding_x.emplace String_or_ThrowingCopy 1 ThrowingCopy_7).result =
      .thrown (.alternative 1) ∧
    (holding_x.emplace String_or_ThrowingCopy 1 ThrowingCopy_7).self.m_Index = 0 ∧
    (holding_x.emplace String_or_ThrowingCopy 1 ThrowingCopy_7).self.m_Buff.object = none ∧
    never_valueless String_or_ThrowingCopy
      (holding_x.emplace String_or_ThrowingCopy 1 ThrowingCopy_7).self = false := by
  decide

/-- C3, the code at the failing input: constructing `ThrowingCopy` from the argument `7`
succeeds, yet `emplace<1>(7)` on `variant<rust::String, ThrowingCopy>(rust::String("x"))` does
not return: it throws out of the copy of the temporary, after the destructor of the held
string has run; `index()` is still `0` and `get<1>` fails. -/
theorem emplace_throws_although_construction_succeeds :
    ThrowingCopy_7.run = .built (le_bytes 8 7) ∧
    variant_alternative 1 String_or_ThrowingCopy = some CxxType.ThrowingCopy ∧
    (holding_x.emplace String_or_ThrowingCopy 1 ThrowingCopy_7).result =
      .thrown (.alternative 1) ∧
    (holding_x.emplace String_or_ThrowingCopy 1 ThrowingCopy_7).trace =
      [.construct .ThrowingCopy .temporary, .destroy .rust_String .storage Str_x,
       .copy_construct_failed .ThrowingCopy .storage,
       .destroy .ThrowingCopy .temporary (le_bytes 8 7)] ∧
    (holding_x.emplace String_or_ThrowingCopy 1 ThrowingCopy_7).self.index = 0 ∧
    get String_or_ThrowingCopy 1
      (holding_x.emplace String_or_ThrowingCopy 1 ThrowingCopy_7).self =
      .thrown (.bad_rust_variant_access 0) := by
  decide

/-- C4: whenever `emplace<I>` returns, whichever of its three branches ran, the calls it made
are those of `emplace_trace`: the only destructor call on the union's storage is one call of
the destructor of the alternative `A` named by the old discriminant, run on the formerly held
object, and the newly stored object of type `type_at<I>` is alive afterwards (the second
destructor call of the temporary branch is on the local `tmp`). -/
theorem emplace_destroys_old_alternative_once {τ : Type} [AltTraits τ] (Ts : List τ) (I : Nat)
    (self : variant_base τ) (args : Construction) (r : Bytes)
    (hret : (self.emplace Ts I args).result = .returned r) :
    ∃ T A t, variant_alternative I Ts = some T ∧ variant_alternative self.index Ts = some A ∧
      (self.emplace Ts I args).trace = emplace_trace T A (view A self.m_Buff.bytes) t args ∧
      (self.emplace Ts I args).trace.filter Event.is_destroy_in_storage =
        [.destroy A .storage (view A self.m_Buff.bytes)] ∧
      (self.emplace Ts I args).self.m_Buff.object = some T := by
  obtain ⟨T, A, t, hT, hA, hrun, hcopy⟩ := emplace_returned_inv Ts I self args r hret
  refine ⟨T, A, t, hT, hA, ?_⟩
  rw [emplace_built Ts I T A self args t hT hA hrun hcopy]
  refine ⟨rfl, ?_, rfl⟩
  cases args with
  | noexcept object => simp [emplace_trace, Event.is_destroy_in_storage]
  | may_throw run =>
    by_cases hmove : (AltTraits.move T).is_nothrow_constructible = true <;>
      simp [emplace_trace, hmove, Event.is_destroy_in_storage]

theorem emplace_destroys_old_alternative_once_witness :
    (Int_5.emplace Unit_Int_Str 2 (.may_throw (.built Str_x))).result = .returned Str_x ∧
    ∃ T A t, variant_alternative 2 Unit_Int_Str = some T ∧
      variant_alternative Int_5.index Unit_Int_Str = some A ∧
      (Int_5.emplace Unit_Int_Str 2 (.may_throw (.built Str_x))).trace =
        emplace_trace T A (view A Int_5.m_Buff.bytes) t (.may_throw (.built Str_x)) ∧
      (Int_5.emplace Unit_Int_Str 2 (.may_throw (.built Str_x))).trace.filter
          Event.is_destroy_in_storage = [.destroy A .storage (view A Int_5.m_Buff.bytes)] ∧
      (Int_5.emplace Unit_Int_Str 2 (.may_throw (.built Str_x))).self.m_Buff.object = some T :=
  ⟨by decide,
   emplace_destroys_old_alternative_once Unit_Int_Str 2 Int_5 (.may_throw (.built Str_x)) Str_x
     (by decide)⟩

/-- C5: constructing a union from a value `v` whose decayed type `T` occurs exactly once among
the alternatives (and whose construction from `v` completes) yields a union with
`index() == index_of<T>` and `get<T>` equal to `v`; `make_enum()`, built from `Num(1502)`, has
discriminant `1` and holds `1502`. -/
theorem from_value_holds_the_value {τ : Type} [DecidableEq τ] [AltTraits τ] (Ts : List τ)
    (other : Operand τ) (raw : Bytes)
    (hunique : is_unique_v other.type Ts = true)
    (hbuilt : other.constructor.completes other.value = true)
    (hvalue : other.value.length = AltTraits.sizeof other.type)
    (hraw : raw.length = buff_size Ts) :
    (∃ u index, (variant_base.from_value Ts other raw).result = .returned u ∧
      index_from_type other.type Ts = some index ∧ u.index = index ∧
      get_type Ts other.type u = .returned other.value) ∧
    (∀ storage : Bytes, storage.length = buff_size RustEnum →
      ∃ u, (make_enum storage).result = .returned u ∧ u.m_Index = 1 ∧ u.index = 1 ∧
        get RustEnum 1 u = .returned (le_bytes 8 1502) ∧
        get_type RustEnum .int64_t u = .returned (le_bytes 8 1502)) := by
  constructor
  · obtain ⟨index, hindex, halt⟩ := index_from_type_of_unique other.type Ts hunique
    refine ⟨{ m_Index := (index : Int),
              m_Buff := { bytes := overwrite raw other.value, object := some other.type } },
      index, ?_, hindex, ?_, ?_⟩
    · rw [from_value_built Ts other raw index hunique hindex hbuilt]
    · simp [variant_base.index, size_t_of_int_natCast]
    · rw [get_type_eq Ts other.type index _ hunique hindex,
        get_after_emplace Ts index other.type _ halt]
      have := sizeof_le_buff_size Ts index other.type halt
      rw [view_overwrite other.type raw other.value hvalue (by omega)]
  · intro storage hstorage
    have hunique : is_unique_v CxxType.int64_t RustEnum = true := by decide
    have hindex : index_from_type CxxType.int64_t RustEnum = some 1 := by decide
    have hget : get RustEnum 1
        { m_Index := ((1 : Nat) : Int),
          m_Buff := { bytes := overwrite storage (le_bytes 8 1502),
                      object := some CxxType.int64_t } } =
        .returned (le_bytes 8 1502) := by
      rw [get_after_emplace RustEnum 1 CxxType.int64_t _ (by decide)]
      rw [view_overwrite CxxType.int64_t storage _ (by decide)
        (by rw [hstorage]; decide)]
    refine ⟨{ m_Index := ((1 : Nat) : Int),
              m_Buff := { bytes := overwrite storage (le_bytes 8 1502),
                          object := some CxxType.int64_t } }, ?_, rfl,
      by simp [variant_base.index, size_t_of_int], hget, ?_⟩
    · unfold make_enum
      rw [from_value_built RustEnum (prvalue .int64_t (le_bytes 8 1502)) storage 1
        hunique hindex (by decide)]
      rfl
    · rw [get_type_eq RustEnum .int64_t 1 _ hunique hindex]
      exact hget

theorem from_value_holds_the_value_witness :
    is_unique_v (prvalue .bool [1]).type RustEnum = true ∧
    (∃ u index, (variant_base.from_value RustEnum (prvalue .bool [1])
        (List.replicate 32 0)).result = .returned u ∧
      index_from_type (prvalue .bool [1]).type RustEnum = some index ∧ u.index = index ∧
      get_type RustEnum (prvalue .bool [1]).type u = .returned (prvalue .bool [1]).value) :=
  ⟨by decide,
   (from_value_holds_the_value RustEnum (prvalue .bool [1]) (List.replicate 32 0) (by decide)
      (by decide) (by decide) (by decide)).1⟩

/-- C7: for a union `u` (valid discriminant naming `A`) whose alternatives are all copy
constructible, the copy constructor, when the copy of the held object completes, yields a
union `c` with `c.index() == u.index()` whose `get<u.index()>` equals that of `u`; the only
special member call is the copy constructor of `A`.  The source is a `const` operand: the
constructor produces `c` and nothing else. -/
theorem copy_construct_copies_active_alternative {τ : Type} [AltTraits τ] (Ts : List τ)
    (u : variant_base τ) (A : τ) (raw : Bytes)
    (hall : all_copy_constructible_v Ts = true)
    (hA : variant_alternative u.index Ts = some A)
    (hcopy : (AltTraits.copy A).completes (view A u.m_Buff.bytes) = true)
    (hbuff : u.m_Buff.bytes.length = buff_size Ts)
    (hraw : raw.length = buff_size Ts) :
    ∃ c, variant_base.copy_construct Ts u raw =
        { result := .returned c, trace := [.copy_construct A .storage] } ∧
      c.index = u.index ∧ c.m_Buff.object = some A ∧
      get Ts u.index c = get Ts u.index u ∧
      get Ts u.index u = .returned (view A u.m_Buff.bytes) := by
  obtain ⟨k, hk, hrun⟩ := completes_call _ _ hcopy
  have hA' : variant_alternative (size_t_of_int u.m_Index) Ts = some A := hA
  have hsz := sizeof_le_buff_size Ts u.index A hA
  have hu : get Ts u.index u = .returned (view A u.m_Buff.bytes) := by
    simp [get, hA, hA', variant_base.throw_if_invalid, variant_base.index]
  refine ⟨{ m_Index := u.m_Index,
            m_Buff := { bytes := overwrite raw (view A u.m_Buff.bytes), object := some A } },
    ?_, rfl, rfl, ?_, hu⟩
  · unfold variant_base.copy_construct visit
    rw [visitor_type_visit_eq]
    simp [hall, hA', hk, hrun, placement_new]
  · rw [hu]
    have hc : size_t_of_int u.m_Index = u.index := rfl
    simp only [get, hA, variant_base.throw_if_invalid, hc, ne_eq, not_true_eq_false, if_false]
    rw [view_overwrite A raw _ (length_view A _ (by omega)) (by omega)]

theorem copy_construct_copies_active_alternative_witness :
    all_copy_constructible_v Unit_Int_Str = true ∧
    variant_alternative Int_5.index Unit_Int_Str = some CxxType.int64_t ∧
    ∃ c, variant_base.copy_construct Unit_Int_Str Int_5 (List.replicate 24 1) =
        { result := .returned c, trace := [.copy_construct .int64_t .storage] } ∧
      c.index = Int_5.index ∧ c.m_Buff.object = some CxxType.int64_t ∧
      get Unit_Int_Str Int_5.index c = get Unit_Int_Str Int_5.index Int_5 ∧
      get Unit_Int_Str Int_5.index Int_5 = .returned (view CxxType.int64_t Int_5.m_Buff.bytes) :=
  ⟨by decide, by decide,
   copy_construct_copies_active_alternative Unit_Int_Str Int_5 .int64_t (List.replicate 24 1)
     (by decide) (by decide) (by decide) (by decide) (by decide)⟩

/-- C8, the code at the failing input: the union `variant<monostate, int64_t, rust::String>`
holding the string `"x"` is copy assigned to itself (`a = b` with `b` a reference to `a`).
The body has no test for `this == &other`: the destructor of the held string runs first and
the copy constructor then reads the destroyed string, so the behaviour is undefined and there
is no value of `a` or `b` afterwards that is unchanged.  With two different objects the
assignment does what is expected of it: `a` ends with the discriminant and the value of `b`,
and `b` is as before, also when the two hold equal strings. -/
theorem copy_assign_to_itself_is_undefined :
    all_copy_constructible_v Unit_Int_Str = true ∧
    Unit_Int_Str.all (fun T => is_unique_v T Unit_Int_Str) = true ∧
    never_valueless Unit_Int_Str Str_held = true ∧
    (variant_base.copy_assign_in Unit_Int_Str (.same Str_held)).trace =
      [.destroy .rust_String .storage Str_x, .construct .rust_String .storage] ∧
    (variant_base.copy_assign_in Unit_Int_Str (.same Str_held)).effect = .undefined ∧
    (variant_base.copy_assign_in Unit_Int_Str (.distinct Str_held Str_held)).effect =
      .value (.distinct Str_held Str_held, .returned ()) ∧
    (variant_base.copy_assign_in Unit_Int_Str (.distinct Unit_held Int_5)).effect =
      .value (.distinct Int_5 Int_5, .returned ()) ∧
    (∀ (Ts : List CxxType) (a b : variant_base CxxType) (A B : CxxType),
      all_copy_constructible_v Ts = true →
      Ts.all (fun T => is_unique_v T Ts) = true →
      variant_alternative a.index Ts = some A →
      variant_alternative b.index Ts = some B →
      (AltTraits.copy B).completes (view B b.m_Buff.bytes) = true →
      a.m_Buff.bytes.length = buff_size Ts →
      b.m_Buff.bytes.length = buff_size Ts →
      ∃ after, (variant_base.copy_assign_in Ts (.distinct a b)).effect =
          .value (.distinct after b, .returned ()) ∧
        after.index = b.index ∧
        get Ts b.index after = get Ts b.index b ∧
        get Ts b.index b = .returned (view B b.m_Buff.bytes)) := by
  refine ⟨by decide, by decide, by decide, by decide, by decide, by decide, by decide, ?_⟩
  intro Ts a b A B hall hdistinct hA hB hcopy ha hb
  obtain ⟨hres, hidx, hget, hb'⟩ :=
    copy_assign_of_other_object Ts a b A B hall hdistinct hA hB hcopy ha hb
  refine ⟨(a.copy_assign Ts b).self, ?_, hidx, hget, hb'⟩
  simp only [variant_base.copy_assign_in, Operands.load, hres]

/-- C9: constructing with `std::in_place_index<I>` (`I < N`) and arguments from which
`type_at<I>` is built as `t` yields `index() == I` and `get<I>` equal to `t`, whether or not
`type_at<I>` occurs more than once (`variant<int, int>` built at index `1` has `index() == 1`);
constructing with `std::in_place_type<T>` for a unique `T` is constructing with
`std::in_place_index<index_of<T>>`. -/
theorem in_place_index_holds_the_alternative {τ : Type} [DecidableEq τ] [AltTraits τ]
    (Ts : List τ) (I : Nat) (T : τ) (args : Construction) (t raw : Bytes)
    (hT : variant_alternative I Ts = some T)
    (hrun : args.run = .built t)
    (ht : t.length = AltTraits.sizeof T)
    (hraw : raw.length = buff_size Ts) :
    (∃ u, (variant_base.in_place_index Ts I args raw).result = .returned u ∧ u.index = I ∧
      get Ts I u = .returned t) ∧
    (is_unique_v T Ts = true →
      index_from_type T Ts = some I ∧
      variant_base.in_place_type Ts T args raw = variant_base.in_place_index Ts I args raw) ∧
    (∃ u, (variant_base.in_place_index duplicate_variant 1 (.noexcept (le_bytes 4 9))
        (List.replicate 4 0)).result = .returned u ∧ u.index = 1 ∧
      get duplicate_variant 1 u = .returned (le_bytes 4 9)) := by
  refine ⟨⟨{ m_Index := (I : Int),
             m_Buff := { bytes := overwrite raw t, object := some T } }, ?_, ?_, ?_⟩, ?_, ?_⟩
  · simp [variant_base.in_place_index, hT, hrun, placement_new]
  · simp [variant_base.index, size_t_of_int_natCast]
  · rw [get_after_emplace Ts I T _ hT]
    have := sizeof_le_buff_size Ts I T hT
    rw [view_overwrite T raw t ht (by omega)]
  · intro hunique
    have hindex := index_from_type_of_alternative T Ts I hunique hT
    exact ⟨hindex, by simp [variant_base.in_place_type, hunique, hindex]⟩
  · exact ⟨_, rfl, by decide, by decide⟩

theorem in_place_index_holds_the_alternative_witness :
    variant_alternative 2 Unit_Int_Str = some CxxType.rust_String ∧
    (∃ u, (variant_base.in_place_index Unit_Int_Str 2 (.may_throw (.built Str_x))
        (List.replicate 24 0)).result = .returned u ∧ u.index = 2 ∧
      get Unit_Int_Str 2 u = .returned Str_x) :=
  ⟨by decide,
   (in_place_index_holds_the_alternative Unit_Int_Str 2 .rust_String
      (.may_throw (.built Str_x)) Str_x (List.replicate 24 0) (by decide) (by decide)
      (by decide) (by decide)).1⟩

/-- C10: for `I < N`, `get<I>(u)` throws if and only if `u.index() != I`, and what it throws is
then `bad_rust_variant_access`; when `u.index() == I` it returns the stored alternative (the
union is an input only: `get` has no effect on it).  For a unique `T`, `get<T>` is
`get<index_of<T>>`. -/
theorem get_fails_iff_other_alternative {τ : Type} [DecidableEq τ] [AltTraits τ]
    (Ts : List τ) (I : Nat) (T : τ) (u : variant_base τ)
    (hT : variant_alternative I Ts = some T) :
    ((∃ e, get Ts I u = .thrown e) ↔ u.index ≠ I) ∧
    (u.index ≠ I → get Ts I u = .thrown (.bad_rust_variant_access u.index)) ∧
    (u.index = I → get Ts I u = .returned (view T u.m_Buff.bytes)) ∧
    (is_unique_v T Ts = true →
      index_from_type T Ts = some I ∧ get_type Ts T u = get Ts I u) := by
  have hne : u.index ≠ I → get Ts I u = .thrown (.bad_rust_variant_access u.index) := by
    intro h
    have h' : ¬ size_t_of_int u.m_Index = I := h
    simp [get, hT, variant_base.throw_if_invalid, variant_base.index, h']
  have heq : u.index = I → get Ts I u = .returned (view T u.m_Buff.bytes) := by
    intro h
    have h' : size_t_of_int u.m_Index = I := h
    simp [get, hT, variant_base.throw_if_invalid, h']
  refine ⟨⟨?_, fun h => ⟨_, hne h⟩⟩, hne, heq, ?_⟩
  · rintro ⟨e, he⟩ h
    rw [heq h] at he
    cases he
  · intro hunique
    have hindex := index_from_type_of_alternative T Ts I hunique hT
    exact ⟨hindex, get_type_eq Ts T I u hunique hindex⟩

theorem get_fails_iff_other_alternative_witness :
    variant_alternative 2 Unit_Int_Str = some CxxType.rust_String ∧
    ((∃ e, get Unit_Int_Str 2 Int_5 = .thrown e) ↔ Int_5.index ≠ 2) ∧
    (Int_5.index ≠ 2 →
      get Unit_Int_Str 2 Int_5 = .thrown (.bad_rust_variant_access Int_5.index)) :=
  ⟨by decide,
   (get_fails_iff_other_alternative Unit_Int_Str 2 .rust_String Int_5 (by decide)).1,
   (get_fails_iff_other_alternative Unit_Int_Str 2 .rust_String Int_5 (by decide)).2.1⟩

/-! ## Lemmas for the claims C11 to C20 -/

theorem toString_nonneg (i : Int) (h : 0 ≤ i) : toString i = toString i.toNat := by
  cases i with
  | ofNat n => rfl
  | negSucc n => exact absurd h (by simp [Int.negSucc_lt_zero])

theorem size_t_of_int_nonneg (i : Int) (h : 0 ≤ i) : size_t_of_int i = i.toNat := by
  simp [size_t_of_int, h]

theorem variant_alternative_eq_get? {τ : Type} : ∀ (Ts : List τ) (I : Nat),
    variant_alternative I Ts = Ts.get? I
  | [], _ => by simp [variant_alternative]
  | _ :: _, 0 => by simp [variant_alternative]
  | _ :: Remainder, I + 1 => by
    simp [variant_alternative, variant_alternative_eq_get? Remainder I]

theorem variant_alternative_of_lt {τ : Type} (Ts : List τ) (I : Nat) (h : I < Ts.length) :
    ∃ T, variant_alternative I Ts = some T := by
  rw [variant_alternative_eq_get?]
  exact ⟨Ts.get ⟨I, h⟩, List.get?_eq_get h⟩

theorem variant_alternative_of_le {τ : Type} (Ts : List τ) (I : Nat) (h : Ts.length ≤ I) :
    variant_alternative I Ts = none := by
  rw [variant_alternative_eq_get?]
  exact List.get?_eq_none.mpr h

theorem set_getD_self : ∀ (l : List Nat) (i d : Nat), l.set i (l.getD i d) = l
  | [], _, _ => by simp
  | _ :: _, 0, _ => by simp
  | x :: l, i + 1, d => by
    simp only [List.getD_cons_succ, List.set_cons_succ, set_getD_self l i d]

theorem getD_take_append_drop : ∀ (a b : List Nat) (i : Nat), i < a.length → i < b.length →
    (b.take i ++ a.drop i).getD i 0 = a.getD i 0
  | [], _, _, ha, _ => by simp at ha
  | _ :: _, [], _, _, hb => by simp at hb
  | x :: a, y :: b, 0, _, _ => by simp
  | x :: a, y :: b, i + 1, ha, hb => by
    have := getD_take_append_drop a b i (by simpa using ha) (by simpa using hb)
    simpa using this

theorem set_take_append_drop : ∀ (a b : List Nat) (i : Nat), i < a.length → i < b.length →
    (b.take i ++ a.drop i).set i (b.getD i 0) = b.take (i + 1) ++ a.drop (i + 1)
  | [], _, _, ha, _ => by simp at ha
  | _ :: _, [], _, _, hb => by simp at hb
  | x :: a, y :: b, 0, _, _ => by simp
  | x :: a, y :: b, i + 1, ha, hb => by
    have := set_take_append_drop a b i (by simpa using ha) (by simpa using hb)
    simpa using this

theorem iter_swap_same {τ : Type} (x : variant_base τ) (i : Nat) :
    iter_swap (.same x) i = .same x := by
  cases x with
  | mk index buff =>
    cases buff with
    | mk bytes object =>
      simp only [iter_swap, Operands.store_byte, Operands.load_byte, Operands.store,
        Operands.load, set_getD_self]

theorem swap_ranges_in_same {τ : Type} (x : variant_base τ) : ∀ (count first : Nat),
    swap_ranges_in (.same x) first count = .same x
  | 0, _ => rfl
  | count + 1, first => by
    rw [swap_ranges_in, iter_swap_same, swap_ranges_in_same x count]

theorem iter_swap_distinct {τ : Type} (a0 b0 : Bytes) (ia ib : Int) (oa ob : Option τ)
    (i : Nat) (ha : i < a0.length) (hb : i < b0.length) :
    iter_swap (.distinct { m_Index := ia, m_Buff := ⟨b0.take i ++ a0.drop i, oa⟩ }
      { m_Index := ib, m_Buff := ⟨a0.take i ++ b0.drop i, ob⟩ }) i =
    .distinct { m_Index := ia, m_Buff := ⟨b0.take (i + 1) ++ a0.drop (i + 1), oa⟩ }
      { m_Index := ib, m_Buff := ⟨a0.take (i + 1) ++ b0.drop (i + 1), ob⟩ } := by
  simp only [iter_swap, Operands.store_byte, Operands.load_byte, Operands.store, Operands.load]
  rw [getD_take_append_drop a0 b0 i ha hb, getD_take_append_drop b0 a0 i hb ha,
    set_take_append_drop a0 b0 i ha hb, set_take_append_drop b0 a0 i hb ha]

theorem swap_ranges_in_distinct {τ : Type} (a0 b0 : Bytes) (ia ib : Int) (oa ob : Option τ)
    (hsize : a0.length = b0.length) : ∀ (count first : Nat), first + count ≤ a0.length →
    swap_ranges_in (.distinct { m_Index := ia, m_Buff := ⟨b0.take first ++ a0.drop first, oa⟩ }
      { m_Index := ib, m_Buff := ⟨a0.take first ++ b0.drop first, ob⟩ }) first count =
    .distinct
      { m_Index := ia,
        m_Buff := ⟨b0.take (first + count) ++ a0.drop (first + count), oa⟩ }
      { m_Index := ib,
        m_Buff := ⟨a0.take (first + count) ++ b0.drop (first + count), ob⟩ }
  | 0, first, _ => by simp [swap_ranges_in]
  | count + 1, first, h => by
    rw [swap_ranges_in, iter_swap_distinct a0 b0 ia ib oa ob first (by omega) (by omega),
      swap_ranges_in_distinct a0 b0 ia ib oa ob hsize count (first + 1) (by omega)]
    have : first + 1 + count = first + (count + 1) := by omega
    rw [this]

theorem allow_copy_iff {τ : Type} [AltTraits τ] (Ts : List τ) :
    allow_copy Ts = true ↔ ∀ T ∈ Ts, (AltTraits.copy T).is_constructible = true := by
  simp [allow_copy, List.all_eq_true]

/-- The overload of `get_if<I>` for a pointer to a union that is not `const`: for `I < N` it
always returns; it returns `nullptr` exactly when `u.index() != I`, which is exactly when
`holds_alternative<I>(u)` is false; otherwise the pointer designates the object that
`get<I>(u)` returns.  For a unique `T`, `get_if<T>` is `get_if<index_of<T>>`. -/
theorem get_if_of_mutable_union {τ : Type} [DecidableEq τ] [AltTraits τ]
    (Ts : List τ) (I : Nat) (T : τ) (u : variant_base τ)
    (hT : variant_alternative I Ts = some T) :
    (∃ pointer, get_if Ts I u = .returned pointer) ∧
    (get_if Ts I u = .returned none ↔ u.index ≠ I) ∧
    (u.index ≠ I ↔ holds_alternative I u = false) ∧
    (u.index = I → ∃ object, get_if Ts I u = .returned (some object) ∧
      get Ts I u = .returned object) ∧
    (is_unique_v T Ts = true →
      index_from_type T Ts = some I ∧ get_if_type Ts T u = get_if Ts I u) := by
  by_cases h : size_t_of_int u.m_Index = I
  · have hu : u.index = I := h
    refine ⟨⟨some (view T u.m_Buff.bytes), by simp [get_if, hT, variant_base.is_valid, h]⟩,
      ?_, ?_, ?_, ?_⟩
    · simp [get_if, hT, variant_base.is_valid, h, hu]
    · simp [holds_alternative, hu]
    · intro _
      exact ⟨view T u.m_Buff.bytes, by simp [get_if, hT, variant_base.is_valid, h],
        by simp [get, hT, variant_base.throw_if_invalid, h]⟩
    · intro hunique
      have hindex := index_from_type_of_alternative T Ts I hunique hT
      exact ⟨hindex, by simp [get_if_type, hunique, hindex]⟩
  · have hu : u.index ≠ I := h
    refine ⟨⟨none, by simp [get_if, hT, variant_base.is_valid, h]⟩, ?_, ?_, ?_, ?_⟩
    · simp [get_if, hT, variant_base.is_valid, h, hu]
    · simp [holds_alternative, hu]
    · intro heq
      exact absurd heq hu
    · intro hunique
      have hindex := index_from_type_of_alternative T Ts I hunique hT
      exact ⟨hindex, by simp [get_if_type, hunique, hindex]⟩

/-! ## Claims C11 to C20 -/

/-- C11: the error raised by `get<I>` on a union whose discriminant is `j != I` is
`bad_rust_variant_access` built from the discriminant the union holds: its message is
`"The index should be "` followed by the decimal rendering of that discriminant (of `j`
itself for every `j >= 0`, that is for every discriminant of the data model). -/
theorem get_error_names_held_discriminant {τ : Type} [AltTraits τ] (Ts : List τ) (I : Nat)
    (T : τ) (u : variant_base τ)
    (hT : variant_alternative I Ts = some T)
    (hne : u.index ≠ I) :
    (∃ e, get Ts I u = .thrown e ∧ e = .bad_rust_variant_access u.index ∧
      e.what = some ("The index should be " ++ toString u.index) ∧
      (0 ≤ u.m_Index → e.what = some ("The index should be " ++ toString u.m_Index))) ∧
    (∃ e, get Unit_Int_Str 2 Int_5 = .thrown e ∧ e.what = some "The index should be 1") := by
  have h' : ¬ size_t_of_int u.m_Index = I := hne
  refine ⟨⟨.bad_rust_variant_access u.index, ?_, rfl, rfl, ?_⟩,
    ⟨.bad_rust_variant_access 1, by decide, by decide⟩⟩
  · simp [get, hT, variant_base.throw_if_invalid, variant_base.index, h']
  · intro h0
    simp only [Exn.what, variant_base.index, size_t_of_int_nonneg _ h0, toString_nonneg _ h0]

theorem get_error_names_held_discriminant_witness :
    variant_alternative 2 Unit_Int_Str = some CxxType.rust_String ∧ Int_5.index ≠ 2 ∧
    ∃ e, get Unit_Int_Str 2 Int_5 = .thrown e ∧ e = .bad_rust_variant_access Int_5.index ∧
      e.what = some ("The index should be " ++ toString Int_5.index) ∧
      (0 ≤ Int_5.m_Index → e.what = some ("The index should be " ++ toString Int_5.m_Index)) :=
  ⟨by decide, by decide,
   (get_error_names_held_discriminant Unit_Int_Str 2 .rust_String Int_5 (by decide)
      (by decide)).1⟩

/-- C12, the code at the failing input: for the `const` union
`variant<monostate, int64_t, rust::String>` holding `Int(5)`, `get_if<1>(&u)` and
`get_if<int64_t>(&u)` do not return the address of the held `5`: the overloads of `get_if` for
a pointer to a `const` union return a `const T *` from a function declared to return a
`T *const`, so no call of them compiles, for any union and any index, while `get<1>(u)` and
`holds_alternative<1>(u)` accept the same union.  The overloads for a pointer to a union that
is not `const` return `nullptr` exactly when `u.index() != I` and the held object otherwise. -/
theorem get_if_of_const_union_is_ill_formed :
    variant_alternative 1 Unit_Int_Str = some CxxType.int64_t ∧
    holds_alternative 1 Int_5 = true ∧
    get Unit_Int_Str 1 Int_5 = .returned (le_bytes 8 5) ∧
    get_if_const Unit_Int_Str 1 Int_5 = .ill_formed ∧
    get_if_type_const Unit_Int_Str CxxType.int64_t Int_5 = .ill_formed ∧
    get_if Unit_Int_Str 1 Int_5 = .returned (some (le_bytes 8 5)) ∧
    (∀ (Ts : List CxxType) (I : Nat) (u : variant_base CxxType),
      get_if_const Ts I u = .ill_formed) ∧
    (∀ (Ts : List CxxType) (T : CxxType) (u : variant_base CxxType),
      get_if_type_const Ts T u = .ill_formed) ∧
    (∀ (Ts : List CxxType) (I : Nat) (T : CxxType) (u : variant_base CxxType),
      variant_alternative I Ts = some T →
      (∃ pointer, get_if Ts I u = .returned pointer) ∧
      (get_if Ts I u = .returned none ↔ u.index ≠ I) ∧
      (u.index ≠ I ↔ holds_alternative I u = false) ∧
      (u.index = I → ∃ object, get_if Ts I u = .returned (some object) ∧
        get Ts I u = .returned object)) := by
  have hconst : ∀ (Ts : List CxxType) (I : Nat) (u : variant_base CxxType),
      get_if_const Ts I u = .ill_formed := by
    intro Ts I u
    unfold get_if_const
    cases variant_alternative I Ts <;> simp [PointerType.converts_to]
  refine ⟨by decide, by decide, by decide, by decide, by decide, by decide, hconst, ?_, ?_⟩
  · intro Ts T u
    unfold get_if_type_const
    split
    · cases index_from_type T Ts <;> simp [hconst]
    · rfl
  · intro Ts I T u hT
    obtain ⟨h1, h2, h3, h4, _⟩ := get_if_of_mutable_union Ts I T u hT
    exact ⟨h1, h2, h3, h4⟩

/-- C13: for every alternative list, every position `i < N` and every visitor, visiting a
union whose discriminant is `i` returns the result of applying the visitor to the stored
object viewed as `type_at<i>`; a visitor that records its invocations has recorded exactly
that one.  Dispatch only reads the union.  `take_enum` returns `index()`. -/
theorem visit_invokes_held_alternative_once {τ ρ : Type} [AltTraits τ] (Ts : List τ)
    (i : Nat) (T : τ) (u : variant_base τ) (visitor : τ → Bytes → ρ)
    (hT : variant_alternative i Ts = some T)
    (hu : u.index = i) :
    visit visitor Ts u = .returned (visitor T (view T u.m_Buff.bytes)) ∧
    (∃ record, visit (fun type value (calls : List (τ × Bytes)) => calls ++ [(type, value)])
        Ts u = .returned record ∧ record [] = [(T, view T u.m_Buff.bytes)]) ∧
    (∀ (enm : variant_base CxxType) (A : CxxType),
      variant_alternative enm.index RustEnum = some A →
      take_enum enm = .returned (enm.index : Int)) := by
  have hT' : variant_alternative (size_t_of_int u.m_Index) Ts = some T := by
    have : size_t_of_int u.m_Index = i := hu
    rw [this]
    exact hT
  refine ⟨?_, ⟨fun calls => calls ++ [(T, view T u.m_Buff.bytes)], ?_, rfl⟩,
    fun enm A hA => take_enum_eq enm A hA⟩
  · unfold visit
    rw [visitor_type_visit_eq]
    simp [hT']
  · unfold visit
    rw [visitor_type_visit_eq]
    simp [hT']

theorem visit_invokes_held_alternative_once_witness :
    variant_alternative 1 Unit_Int_Str = some CxxType.int64_t ∧ Int_5.index = 1 ∧
    visit (fun type value => (type, value)) Unit_Int_Str Int_5 =
      .returned (CxxType.int64_t, view CxxType.int64_t Int_5.m_Buff.bytes) :=
  ⟨by decide, by decide,
   (visit_invokes_held_alternative_once Unit_Int_Str 1 .int64_t Int_5
      (fun type value => (type, value)) (by decide) (by decide)).1⟩

/-- C14: for a non-empty list of at most `2^31` alternatives and every `int` discriminant
outside `[0, N)`, negative ones included (they are converted to `std::size_t`), dispatch throws
`std::out_of_range("invalid")` whatever the visitor is, so the visitor is not applied; for
every discriminant in `[0, N)` dispatch returns what the visitor returned. -/
theorem visit_invalid_discriminant_throws {τ ρ : Type} [AltTraits τ] (Ts : List τ)
    (u : variant_base τ) (visitor : τ → Bytes → ρ)
    (hTs : Ts ≠ [])
    (hN : Ts.length ≤ 2 ^ 31)
    (hint : -(2 : Int) ^ 31 ≤ u.m_Index) :
    ((u.m_Index < 0 ∨ (Ts.length : Int) ≤ u.m_Index) →
      visit visitor Ts u = .thrown (.out_of_range "invalid") ∧
      (Exn.out_of_range "invalid").what = some "invalid") ∧
    ((0 ≤ u.m_Index ∧ u.m_Index < (Ts.length : Int)) →
      ∃ T, variant_alternative u.m_Index.toNat Ts = some T ∧
        visit visitor Ts u = .returned (visitor T (view T u.m_Buff.bytes))) := by
  have hlen : Ts.length ≠ 0 := by
    intro h
    exact hTs (List.length_eq_zero.mp h)
  constructor
  · intro hout
    have hge : Ts.length ≤ size_t_of_int u.m_Index := by
      unfold size_t_of_int
      rcases hout with hneg | hbig
      · have h0 : ¬ (0 : Int) ≤ u.m_Index := by omega
        rw [if_neg h0]
        have : ((Ts.length : Nat) : Int) ≤ u.m_Index + 2 ^ 64 := by
          have h64 : (2 : Int) ^ 64 = 18446744073709551616 := by norm_num
          have h31 : (2 : Int) ^ 31 = 2147483648 := by norm_num
          have hN' : ((Ts.length : Nat) : Int) ≤ 2147483648 := by
            have : Ts.length ≤ 2147483648 := by
              have h31n : (2 : Nat) ^ 31 = 2147483648 := by norm_num
              omega
            exact_mod_cast this
          omega
        omega
      · have h0 : (0 : Int) ≤ u.m_Index := by omega
        rw [if_pos h0]
        omega
    unfold visit
    rw [visitor_type_visit_eq, variant_alternative_of_le Ts _ hge]
    simp [hlen, Exn.what]
  · rintro ⟨h0, hlt⟩
    have hidx : size_t_of_int u.m_Index = u.m_Index.toNat := size_t_of_int_nonneg _ h0
    obtain ⟨T, hT⟩ := variant_alternative_of_lt Ts u.m_Index.toNat (by omega)
    refine ⟨T, hT, ?_⟩
    unfold visit
    rw [visitor_type_visit_eq, hidx]
    simp [hT]

theorem visit_invalid_discriminant_throws_witness :
    Unit_Int_Str ≠ [] ∧ Unit_Int_Str.length ≤ 2 ^ 31 ∧ -(2 : Int) ^ 31 ≤ corrupted.m_Index ∧
    corrupted.m_Index < 0 ∧
    visit (fun type value => (type, value)) Unit_Int_Str corrupted =
      .thrown (.out_of_range "invalid") :=
  ⟨by decide, by decide, by decide, by decide,
   ((visit_invalid_discriminant_throws Unit_Int_Str corrupted
      (fun type value => (type, value)) (by decide) (by decide) (by decide)).1
      (Or.inl (by decide))).1⟩

/-- C15: for two distinct unions `a` and `b` of the same union type (their buffers have the
same extent), after `a.swap(b)` the union `a` has the former discriminant and storage
contents of `b` and `b` those of `a`, the held objects having travelled with the bytes; the
call runs no constructor and no destructor. -/
theorem swap_exchanges_discriminant_and_storage {τ : Type} (a b : variant_base τ)
    (hsize : a.m_Buff.bytes.length = b.m_Buff.bytes.length) :
    variant_base.swap_in (.distinct a b) = (.distinct b a, []) ∧
    ((variant_base.swap_in (.distinct a b)).1.load .this).m_Index = b.m_Index ∧
    ((variant_base.swap_in (.distinct a b)).1.load .this).m_Buff = b.m_Buff ∧
    ((variant_base.swap_in (.distinct a b)).1.load .other).m_Index = a.m_Index ∧
    ((variant_base.swap_in (.distinct a b)).1.load .other).m_Buff = a.m_Buff ∧
    (variant_base.swap_in (.distinct a b)).2 = [] ∧
    a.swap b = (b, a) := by
  have key : variant_base.swap_in (.distinct a b) = (.distinct b a, []) := by
    cases a with
    | mk ia buffa =>
      cases buffa with
      | mk a0 oa =>
        cases b with
        | mk ib buffb =>
          cases buffb with
          | mk b0 ob =>
            simp only at hsize
            have h := swap_ranges_in_distinct a0 b0 ia ib oa ob hsize a0.length 0 (by omega)
            simp only [List.take_zero, List.drop_zero, List.nil_append, Nat.zero_add] at h
            simp only [variant_base.swap_in, Operands.load, h, swap_objects, swap_index,
              Operands.store]
            rw [List.take_of_length_le (by omega), List.drop_eq_nil_of_le (le_refl _),
              List.take_length, List.drop_eq_nil_of_le (by omega)]
            simp
  refine ⟨key, ?_, ?_, ?_, ?_, ?_, ?_⟩
  · rw [key]; rfl
  · rw [key]; rfl
  · rw [key]; rfl
  · rw [key]; rfl
  · rw [key]
  · cases a with
    | mk ia buffa =>
      cases b with
      | mk ib buffb =>
        simp only at hsize
        simp only [variant_base.swap, swap_ranges]
        rw [memcpy_all _ _ _ hsize.symm (le_refl _), memcpy_all _ _ _ rfl (by omega)]

theorem swap_exchanges_discriminant_and_storage_witness :
    Int_5.m_Buff.bytes.length = Unit_held.m_Buff.bytes.length ∧
    variant_base.swap_in (.distinct Int_5 Unit_held) = (.distinct Unit_held Int_5, []) :=
  ⟨by decide, (swap_exchanges_discriminant_and_storage Int_5 Unit_held (by decide)).1⟩

/-- C16: for every union `a`, `a.swap(a)` (both references designate `a`) leaves the
discriminant and every byte of the storage of `a` unchanged; it makes no special member
call. -/
theorem swap_with_itself_changes_nothing {τ : Type} (a : variant_base τ) :
    variant_base.swap_in (.same a) = (.same a, []) ∧
    ((variant_base.swap_in (.same a)).1.load .this).m_Index = a.m_Index ∧
    ((variant_base.swap_in (.same a)).1.load .this).m_Buff.bytes = a.m_Buff.bytes := by
  have key : variant_base.swap_in (.same a) = (.same a, []) := by
    simp only [variant_base.swap_in, swap_ranges_in_same, swap_objects, swap_index,
      Operands.store, Operands.load]
  refine ⟨key, ?_, ?_⟩
  · rw [key]; rfl
  · rw [key]; rfl

/-- C19: a union type `variant<Ts...>` is copy constructible and copy assignable, each
separately and both together, if and only if every alternative in `Ts` is copy constructible
(the capability that `std::is_copy_constructible_v` and `std::is_copy_assignable_v` report);
when it is not, the copy constructor and the copy assignment of the engine are rejected.
`copy_variant` is; `move_variant` and `all_variant` are not. -/
theorem copy_capability_iff_all_alternatives_copy_constructible {τ : Type} [DecidableEq τ]
    [AltTraits τ] (Ts : List τ) :
    (variant.is_copy_constructible Ts = true ↔
      ∀ T ∈ Ts, (AltTraits.copy T).is_constructible = true) ∧
    (variant.is_copy_assignable Ts = true ↔
      ∀ T ∈ Ts, (AltTraits.copy T).is_constructible = true) ∧
    ((variant.is_copy_constructible Ts = true ∧ variant.is_copy_assignable Ts = true) ↔
      ∀ T ∈ Ts, (AltTraits.copy T).is_constructible = true) ∧
    (variant.is_copy_constructible Ts = false →
      (∀ u raw, (variant_base.copy_construct Ts u raw).result = .ill_formed) ∧
      (∀ a b : variant_base τ, (a.copy_assign Ts b).result = .ill_formed)) ∧
    (variant.is_copy_constructible copy_variant = true ∧
      variant.is_copy_assignable copy_variant = true ∧
      variant.is_copy_constructible move_variant = false ∧
      variant.is_copy_assignable move_variant = false ∧
      variant.is_copy_constructible all_variant = false ∧
      variant.is_copy_assignable all_variant = false) := by
  have hctor : variant.is_copy_constructible Ts = true ↔
      ∀ T ∈ Ts, (AltTraits.copy T).is_constructible = true := by
    rw [← allow_copy_iff]
    cases h : allow_copy Ts <;>
      simp [variant.is_copy_constructible, variant.copy_constructor, Member.defaulted,
        variant_base.copy_constructor, copy_control.copy_constructor, h]
  have hassign : variant.is_copy_assignable Ts = true ↔
      ∀ T ∈ Ts, (AltTraits.copy T).is_constructible = true := by
    rw [← allow_copy_iff]
    cases h : allow_copy Ts <;>
      simp [variant.is_copy_assignable, variant.copy_assignment, Member.defaulted,
        variant_base.copy_assignment, copy_control.copy_assignment, h]
  refine ⟨hctor, hassign, ?_, ?_, by decide⟩
  · constructor
    · intro h
      exact hctor.mp h.1
    · intro h
      exact ⟨hctor.mpr h, hassign.mpr h⟩
  · intro hfalse
    have hall : all_copy_constructible_v Ts = false := by
      cases hall : all_copy_constructible_v Ts with
      | false => rfl
      | true =>
        have : variant.is_copy_constructible Ts = true :=
          hctor.mpr ((allow_copy_iff Ts).mp hall)
        rw [hfalse] at this
        cases this
    constructor
    · intro u raw
      simp [variant_base.copy_construct, hall]
    · intro a b
      simp [variant_base.copy_assign, hall]

/-- C20: for every alternative list, `variant<Ts...>` is not default constructible, not move
constructible and not move assignable: the three members are declared `= delete` whatever
the alternatives are, also when every alternative is nothrow movable (`move_variant`) and
when `variant<Ts...>` is copy constructible (`copy_variant`). -/
theorem never_default_or_move_constructible {τ : Type} (Ts : List τ) :
    variant.default_constructor Ts = .deleted ∧ variant.move_constructor Ts = .deleted ∧
    variant.move_assignment Ts = .deleted ∧
    variant.is_default_constructible Ts = false ∧ variant.is_move_constructible Ts = false ∧
    variant.is_move_assignable Ts = false ∧
    (move_variant.all (fun T => (AltTraits.move T).is_nothrow_constructible) = true ∧
      variant.is_default_constructible move_variant = false ∧
      variant.is_move_constructible move_variant = false ∧
      variant.is_move_assignable move_variant = false ∧
      variant.is_copy_constructible copy_variant = true ∧
      variant.is_move_constructible copy_variant = false ∧
      variant.is_move_assignable copy_variant = false ∧
      variant.is_default_constructible all_variant = false ∧
      variant.is_move_constructible all_variant = false ∧
      variant.is_move_assignable all_variant = false) := by
  refine ⟨rfl, rfl, rfl, rfl, rfl, rfl, by decide⟩

/-! ## Lemmas for the claims C21 to C30 -/

theorem is_unique_v_monostate {τ : Type} [DecidableEq τ] [AltTraits τ] (T : τ)
    (hT : T ≠ AltTraits.monostate) :
    is_unique_v (AltTraits.monostate : τ) (optional.types T) = true := by
  have h : ¬ (AltTraits.monostate : τ) = T := fun h => hT h.symm
  simp [is_unique_v, exactly_once, is_same_pack, optional.types, compile_time_count, h]

theorem index_from_type_monostate {τ : Type} [DecidableEq τ] [AltTraits τ] (T : τ)
    (hT : T ≠ AltTraits.monostate) :
    index_from_type (AltTraits.monostate : τ) (optional.types T) = some 0 :=
  index_from_type_of_alternative _ _ 0 (is_unique_v_monostate T hT) rfl

theorem reset_present {τ : Type} [DecidableEq τ] [AltTraits τ] [DestructorTraits τ] (T : τ)
    (o : variant_base τ)
    (hT : T ≠ AltTraits.monostate)
    (hmove : AltTraits.move (AltTraits.monostate : τ) = .noexcept)
    (h1 : o.m_Index = 1) :
    optional.reset T o =
      { trace := [.destroy T .storage (view T o.m_Buff.bytes),
                  .destroy T .storage (view T o.m_Buff.bytes),
                  .construct AltTraits.monostate .storage],
        effect :=
          if DestructorTraits.is_trivially_destructible T = true then
            .value ({ m_Index := 0,
                      m_Buff := { bytes := overwrite o.m_Buff.bytes
                                    (monostate_value : Operand τ).value,
                                  object := some AltTraits.monostate } }, .returned ())
          else .undefined } := by
  obtain ⟨i, buff⟩ := o
  simp only at h1
  subst h1
  have hA : variant_alternative (variant_base.mk (1 : Int) buff).index (optional.types T) =
      some T := rfl
  have hdestroy := destroy_eq (optional.types T) (variant_base.mk (1 : Int) buff)
  rw [hA] at hdestroy
  have hcons : (monostate_value : Operand τ).construction =
      some (.noexcept (monostate_value : Operand τ).value) := by
    simp [Operand.construction, Operand.constructor, monostate_value, hmove, SpecialCtor.call]
  have hemplace := emplace_built (optional.types T) 0 AltTraits.monostate T
    { m_Index := 1, m_Buff := { bytes := buff.bytes, object := none } }
    (.noexcept (monostate_value : Operand τ).value) (monostate_value : Operand τ).value
    rfl hA rfl (fun h => by cases h)
  have htype : (monostate_value : Operand τ).type = AltTraits.monostate := rfl
  have hne : ¬ size_t_of_int 1 = 0 := by decide
  unfold optional.reset
  simp only [optional.has_value, beq_self_eq_true, if_true, hdestroy]
  unfold variant_base.assign
  simp only [htype, is_unique_v_monostate T hT, index_from_type_monostate T hT, hcons, if_true,
    hne, false_and, if_false,
    emplace_type_eq (optional.types T) AltTraits.monostate 0 _ _ (is_unique_v_monostate T hT)
      (index_from_type_monostate T hT), hemplace]
  cases htrivial : DestructorTraits.is_trivially_destructible T <;>
    simp [emplace_trace, Event.runs_destructor_in_storage, htrivial]

theorem call_of_is_constructible (c : SpecialCtor) (source : Bytes)
    (h : c.is_constructible = true) : ∃ k, c.call source = some k := by
  cases c with
  | deleted => simp [SpecialCtor.is_constructible] at h
  | noexcept => exact ⟨.noexcept source, rfl⟩
  | may_throw fails =>
    cases hf : fails source with
    | none => exact ⟨.may_throw (.built source), by simp [SpecialCtor.call, hf]⟩
    | some r => exact ⟨.may_throw (.failed r.1 r.2), by simp [SpecialCtor.call, hf]⟩

theorem returned_object_ne_ill_formed (c : Construction) :
    returned_object (some c) ≠ .ill_formed := by
  unfold returned_object
  cases h : c.run <;> simp [h]

theorem returned_object_built (c : Construction) (x : Bytes) (h : c.run = .built x) :
    returned_object (some c) = .returned x := by
  simp [returned_object, h]

theorem returned_object_thrown (c : Construction) (e : Exn)
    (h : returned_object (some c) = .thrown e) : ∃ scribbled, c.run = .failed e scribbled := by
  unfold returned_object at h
  cases hr : c.run with
  | built x => simp [hr] at h
  | failed e1 scribbled =>
    simp only [hr, Outcome.thrown.injEq] at h
    exact ⟨scribbled, by rw [h]⟩

theorem is_unique_v_pair {τ : Type} [DecidableEq τ] (T E : τ) (hTE : T ≠ E) :
    is_unique_v T (expected.types T E) = true ∧ is_unique_v E (expected.types T E) = true := by
  have h : ¬ E = T := fun h => hTE h.symm
  simp [is_unique_v, exactly_once, is_same_pack, expected.types, compile_time_count, hTE, h]

theorem length_le_bytes (width value : Nat) : (le_bytes width value).length = width := by
  simp [le_bytes]

theorem expected_from_value {τ : Type} [DecidableEq τ] [AltTraits τ] (T E : τ)
    (x : Operand τ) (raw : Bytes) (index : Nat)
    (hTE : T ≠ E)
    (halt : variant_alternative index (expected.types T E) = some x.type)
    (hx : x.constructor.completes x.value = true)
    (hlen : x.value.length = AltTraits.sizeof x.type)
    (hraw : raw.length = buff_size (expected.types T E)) :
    variant_base.from_value (expected.types T E) x raw =
      { result := .returned
          { m_Index := (index : Int),
            m_Buff := { bytes := overwrite raw x.value, object := some x.type } },
        trace := [.construct x.type .storage] } ∧
    view x.type (overwrite raw x.value) = x.value := by
  have hunique : is_unique_v x.type (expected.types T E) = true := by
    have hmem := variant_alternative_mem _ _ _ halt
    simp only [expected.types, List.mem_cons, List.mem_singleton, List.not_mem_nil,
      or_false] at hmem
    rcases hmem with h | h
    · rw [h]; exact (is_unique_v_pair T E hTE).1
    · rw [h]; exact (is_unique_v_pair T E hTE).2
  refine ⟨from_value_built _ x raw index hunique
    (index_from_type_of_alternative _ _ index hunique halt) hx, ?_⟩
  have hsz := sizeof_le_buff_size _ index x.type halt
  exact view_overwrite x.type raw x.value hlen (by omega)

theorem prvalue_completes (T : CxxType) (x : Bytes) (h : CxxType.move T = .noexcept) :
    (prvalue T x).constructor.completes (prvalue T x).value = true := by
  have hc : (prvalue T x).constructor = .noexcept := h
  rw [hc]
  simp [SpecialCtor.completes, SpecialCtor.call, Construction.run, prvalue]

/-- Member `value() &` of an expected over a copy constructible error type: it fails if and
only if `has_value()` is false.  In the failure state it throws `bad_rust_expected_access`
carrying a copy of the held failure payload (unless the copy constructor of the error type
throws while that copy is made: then this exception leaves `value()`); in the success state it
returns the held payload.  `I32StringResult(failure = "bad").value()` fails carrying `"bad"`. -/
theorem value_of_mutable_expected {τ : Type} [AltTraits τ] (T E : τ)
    (r : variant_base τ) (hE : (AltTraits.copy E).is_constructible = true) :
    ((∃ e, expected.value T E r = .thrown e) ↔ expected.has_value r = false) ∧
    (expected.has_value r = false →
      (AltTraits.copy E).completes (expected.error E r) = true →
      expected.value T E r = .thrown (.bad_rust_expected_access (expected.error E r))) ∧
    (expected.has_value r = false → ∀ c e scribbled,
      (AltTraits.copy E).call (expected.error E r) = some c → c.run = .failed e scribbled →
      expected.value T E r = .thrown e) ∧
    (expected.has_value r = true → expected.value T E r = .returned (view T r.m_Buff.bytes)) ∧
    (expected.has_value failure_bad = false ∧
      expected.error CxxType.rust_String failure_bad = Str_bad ∧
      expected.value CxxType.int CxxType.rust_String failure_bad =
        .thrown (.bad_rust_expected_access Str_bad)) := by
  obtain ⟨k, hk⟩ := call_of_is_constructible _ (view E r.m_Buff.bytes) hE
  refine ⟨?_, ?_, ?_, ?_, by decide⟩
  · unfold expected.value
    rw [hk]
    cases h : expected.has_value r
    · cases hr : k.run <;> simp [hr]
    · simp
  · intro h hc
    have hrun : k.run = .built (view E r.m_Buff.bytes) := by
      simpa [SpecialCtor.completes, expected.error, hk] using hc
    simp [expected.value, expected.error, hk, h, hrun]
  · intro h c e scribbled hc hrun
    have hck : c = k := by
      have : some c = some k := by rw [← hc, ← hk]; rfl
      exact Option.some.inj this
    subst hck
    simp [expected.value, hk, h, hrun]
  · intro h
    simp [expected.value, hk, h]

/-! ## Claims C21 to C30 -/

/-- C21: for every optional `o`, `value()` fails if and only if `has_value()` is false, and the
exception is then `bad_rust_optional_access`; when `has_value()` is true it returns the payload
held in the storage.  The member only reads `o` (it is a function of the state and yields no
new state).  `take_optional` returns exactly `has_value()`. -/
theorem value_fails_iff_absent {τ : Type} [AltTraits τ] (T : τ) (o : variant_base τ) :
    ((∃ e, optional.value T o = .thrown e) ↔ optional.has_value o = false) ∧
    (optional.has_value o = false → optional.value T o = .thrown .bad_rust_optional_access) ∧
    (optional.has_value o = true → optional.value T o = .returned (view T o.m_Buff.bytes)) ∧
    (∀ opt : variant_base CxxType, take_optional opt = .returned (optional.has_value opt)) := by
  refine ⟨?_, ?_, ?_, ?_⟩
  · cases h : optional.has_value o <;> simp [optional.value, h]
  · intro h; simp [optional.value, h]
  · intro h; simp [optional.value, h]
  · intro opt
    cases h : optional.has_value opt <;> simp [take_optional, optional.value, h]

/-- C22, counterexample: the optional `optional<ThrowingCopy>` holds an object (`has_value()`
is true), and `value_or` does not return: building the returned `T` copies the payload, and the
exception of that copy constructor leaves `value_or`.  The same holds for an expected in the
success state. -/
theorem value_or_propagates_copy_failure :
    optional.has_value present_ThrowingCopy_7 = true ∧
    optional.value_or CxxType.ThrowingCopy (.noexcept (le_bytes 8 0)) present_ThrowingCopy_7 =
      .thrown (.alternative 1) ∧
    expected.has_value { present_ThrowingCopy_7 with m_Index := 0 } = true ∧
    expected.value_or CxxType.ThrowingCopy (.noexcept (le_bytes 8 0))
      { present_ThrowingCopy_7 with m_Index := 0 } = .thrown (.alternative 1) := by
  decide

/-- C22, as amended: for every optional or expected `o` over a copy constructible payload type
`T` and every default `d`, `value_or(d)` raises no error of its own.  It returns a copy of the
held payload when `has_value()` is true and that copy completes, and `d` when `has_value()` is
false and the conversion of `d` completes; an exception that leaves it is the one thrown by the
copy constructor of `T` on the payload (state `has_value()`) or by the conversion of `d`
(otherwise).  A default constructed `OptionalInt32` gives `value_or(42) == 42`. -/
theorem value_or_returns_payload_or_default {τ : Type} [AltTraits τ] (T : τ)
    (d : Construction) (o : variant_base τ)
    (hcopy : (AltTraits.copy T).is_constructible = true) :
    (optional.value_or T d o ≠ .ill_formed ∧
     (optional.has_value o = true →
        (AltTraits.copy T).completes (view T o.m_Buff.bytes) = true →
        optional.value_or T d o = .returned (view T o.m_Buff.bytes)) ∧
     (optional.has_value o = false → ∀ x, d.run = .built x →
        optional.value_or T d o = .returned x) ∧
     (∀ e, optional.value_or T d o = .thrown e →
        (optional.has_value o = true ∧ ∃ c scribbled,
          (AltTraits.copy T).call (view T o.m_Buff.bytes) = some c ∧
          c.run = .failed e scribbled) ∨
        (optional.has_value o = false ∧ ∃ scribbled, d.run = .failed e scribbled))) ∧
    (expected.value_or T d o ≠ .ill_formed ∧
     (expected.has_value o = true →
        (AltTraits.copy T).completes (view T o.m_Buff.bytes) = true →
        expected.value_or T d o = .returned (view T o.m_Buff.bytes)) ∧
     (expected.has_value o = false → ∀ x, d.run = .built x →
        expected.value_or T d o = .returned x) ∧
     (∀ e, expected.value_or T d o = .thrown e →
        (expected.has_value o = true ∧ ∃ c scribbled,
          (AltTraits.copy T).call (view T o.m_Buff.bytes) = some c ∧
          c.run = .failed e scribbled) ∨
        (expected.has_value o = false ∧ ∃ scribbled, d.run = .failed e scribbled))) ∧
    (∀ (raw : Bytes) (u : variant_base CxxType),
      (optional.default_construct CxxType.int raw).result = .returned u →
      optional.has_value u = false ∧
      optional.value_or CxxType.int (.noexcept (int32_bytes 42)) u =
        .returned (int32_bytes 42)) := by
  obtain ⟨k, hk⟩ := call_of_is_constructible _ (view T o.m_Buff.bytes) hcopy
  have hcompl : (AltTraits.copy T).completes (view T o.m_Buff.bytes) = true →
      k.run = .built (view T o.m_Buff.bytes) := by
    intro h
    simpa [SpecialCtor.completes, hk] using h
  refine ⟨⟨?_, ?_, ?_, ?_⟩, ⟨?_, ?_, ?_, ?_⟩, ?_⟩
  · unfold optional.value_or
    rw [hk]
    cases optional.has_value o
    · exact returned_object_ne_ill_formed d
    · exact returned_object_ne_ill_formed k
  · intro h hc
    simp [optional.value_or, hk, h, returned_object_built k _ (hcompl hc)]
  · intro h x hx
    simp [optional.value_or, hk, h, returned_object_built d x hx]
  · intro e he
    unfold optional.value_or at he
    rw [hk] at he
    cases h : optional.has_value o
    · rw [h] at he
      exact Or.inr ⟨rfl, returned_object_thrown d e he⟩
    · rw [h] at he
      obtain ⟨scribbled, hs⟩ := returned_object_thrown k e he
      exact Or.inl ⟨rfl, k, scribbled, hk, hs⟩
  · unfold expected.value_or
    rw [hk]
    cases expected.has_value o
    · exact returned_object_ne_ill_formed d
    · exact returned_object_ne_ill_formed k
  · intro h hc
    simp [expected.value_or, hk, h, returned_object_built k _ (hcompl hc)]
  · intro h x hx
    simp [expected.value_or, hk, h, returned_object_built d x hx]
  · intro e he
    unfold expected.value_or at he
    rw [hk] at he
    cases h : expected.has_value o
    · rw [h] at he
      exact Or.inr ⟨rfl, returned_object_thrown d e he⟩
    · rw [h] at he
      obtain ⟨scribbled, hs⟩ := returned_object_thrown k e he
      exact Or.inl ⟨rfl, k, scribbled, hk, hs⟩
  · intro raw u hu
    have hbuilt := from_value_built (optional.types CxxType.int)
      (monostate_value : Operand CxxType) raw 0 (by decide) (by decide) (by decide)
    unfold optional.default_construct at hu
    rw [hbuilt] at hu
    simp only [Outcome.returned.injEq] at hu
    subst hu
    exact ⟨rfl, rfl⟩

theorem value_or_returns_payload_or_default_witness :
    (AltTraits.copy CxxType.int).is_constructible = true ∧
    optional.has_value present_OptionalInt32_7 = true ∧
    optional.value_or CxxType.int (.noexcept (int32_bytes 42)) present_OptionalInt32_7 =
      .returned (view CxxType.int present_OptionalInt32_7.m_Buff.bytes) :=
  ⟨by decide, by decide,
   (value_or_returns_payload_or_default CxxType.int (.noexcept (int32_bytes 42))
      present_OptionalInt32_7 (by decide)).1.2.1 (by decide) (by decide)⟩

/-- C23, the code at the failing input: `reset()` on the optional `optional<rust::String>`
holding `"x"` does not leave an absent optional behind, its behaviour is undefined.  After
`this->destroy()` the assignment `*this = monostate{}` runs the destructor of the string a
second time, on the string that is destroyed already (a double free).  The same holds for every
present optional whose payload type has a destructor that is not trivial.  For an optional that
is absent already `reset()` changes nothing, and for a present optional with a trivially
destructible payload (`OptionalInt32` holding `7`) it returns and leaves the optional absent:
`has_value()` false, `is_none()` true, discriminant `0`. -/
theorem reset_of_owning_payload_is_undefined :
    optional.has_value present_String_x = true ∧
    (optional.reset CxxType.rust_String present_String_x).effect = .undefined ∧
    (∀ (T : CxxType) (o : variant_base CxxType), T ≠ .monostate → o.m_Index = 1 →
      CxxType.is_trivially_destructible T = false →
      (optional.reset T o).effect = .undefined) ∧
    (∀ (T : CxxType) (o : variant_base CxxType), T ≠ .monostate → o.m_Index = 1 →
      CxxType.is_trivially_destructible T = true →
      ∃ after, (optional.reset T o).effect = .value (after, .returned ()) ∧
        optional.has_value after = false ∧ optional.is_none after = true ∧
        after.m_Index = 0 ∧ after.index = 0 ∧ after.m_Buff.object = some .monostate) ∧
    (optional.has_value present_OptionalInt32_7 = true ∧
      ∃ after, (optional.reset CxxType.int present_OptionalInt32_7).effect =
          .value (after, .returned ()) ∧
        optional.has_value after = false ∧ optional.is_none after = true ∧
        after.m_Index = 0) ∧
    (∀ (T : CxxType) (o : variant_base CxxType), optional.has_value o = false →
      optional.reset T o = { trace := [], effect := .value (o, .returned ()) }) := by
  have htrivial : ∀ (T : CxxType) (o : variant_base CxxType), T ≠ .monostate → o.m_Index = 1 →
      CxxType.is_trivially_destructible T = true →
      ∃ after, (optional.reset T o).effect = .value (after, .returned ()) ∧
        optional.has_value after = false ∧ optional.is_none after = true ∧
        after.m_Index = 0 ∧ after.index = 0 ∧ after.m_Buff.object = some .monostate := by
    intro T o hT h1 ht
    have ht' : DestructorTraits.is_trivially_destructible T = true := ht
    rw [reset_present T o hT rfl h1]
    simp only [ht', if_true]
    exact ⟨_, rfl, rfl, rfl, rfl, rfl, rfl⟩
  refine ⟨by decide, by decide, ?_, htrivial, ⟨by decide, ?_⟩, ?_⟩
  · intro T o hT h1 ht
    have ht' : DestructorTraits.is_trivially_destructible T = false := ht
    rw [reset_present T o hT rfl h1]
    simp [ht']
  · obtain ⟨after, h, hv, hn, hi, _, _⟩ :=
      htrivial CxxType.int present_OptionalInt32_7 (by decide) rfl rfl
    exact ⟨after, h, hv, hn, hi⟩
  · intro T o hno
    simp [optional.reset, hno]

/-- C24, the code at the failing input: `reset()` on the optional `optional<rust::String>`
holding `"x"` runs the destructor of the held string twice, first in `this->destroy()` and
again in the `destroy()` of the `emplace` that the assignment `*this = monostate` performs;
the second call runs on storage whose object is already destroyed.  The same holds for every
present optional. -/
theorem reset_destroys_payload_twice :
    optional.has_value present_String_x = true ∧
    (optional.reset CxxType.rust_String present_String_x).trace =
      [.destroy .rust_String .storage Str_x, .destroy .rust_String .storage Str_x,
       .construct .monostate .storage] ∧
    ((optional.reset CxxType.rust_String present_String_x).trace.filter
      Event.is_destroy_in_storage).length = 2 ∧
    (present_String_x.destroy (optional.types CxxType.rust_String)).self.m_Buff.object = none ∧
    (∀ (T : CxxType) (o : variant_base CxxType), T ≠ .monostate → o.m_Index = 1 →
      ((optional.reset T o).trace.filter Event.is_destroy_in_storage).length = 2) := by
  refine ⟨by decide, by decide, by decide, by decide, ?_⟩
  intro T o hT h1
  rw [reset_present T o hT rfl h1]
  rfl

/-- C25, the code at the failing input: `operator==` on two optionals cannot be instantiated.
Its first operand `lhs.has_value` names the member function without calling it, so for two
absent `OptionalInt32` (which are equal), and for every other pair of optionals, the
comparison is rejected when the program is compiled. -/
theorem optional_equality_is_ill_formed :
    optional.operator_eq CxxType.int CxxType.int (fun x y => x == y) absent_OptionalInt32
      absent_OptionalInt32 = .ill_formed ∧
    optional.operator_eq CxxType.int CxxType.int (fun x y => x == y) present_OptionalInt32_7
      present_OptionalInt32_7 = .ill_formed ∧
    (∀ (T U : CxxType) (eq : Bytes → Bytes → Bool) (lhs rhs : variant_base CxxType),
      optional.operator_eq T U eq lhs rhs = .ill_formed) :=
  ⟨rfl, rfl, fun _ _ _ _ _ => rfl⟩

/-- C26: for every optional `o`, each of the twelve comparisons with `std::nullopt` agrees with
comparing `has_value()` against `false`: `o == nullopt` and `nullopt == o` hold iff `o` is
absent, `o != nullopt` and `nullopt != o` iff it is present, `o < nullopt` never,
`nullopt < o` iff present, `o <= nullopt` iff absent, `nullopt <= o` always, `o > nullopt` iff
present, `nullopt > o` never, `o >= nullopt` always, `nullopt >= o` iff absent. -/
theorem nullopt_comparisons_follow_has_value {τ : Type} (o : variant_base τ) :
    optional.operator_eq_nullopt o = (optional.has_value o == false) ∧
    optional.nullopt_operator_eq o = (false == optional.has_value o) ∧
    optional.operator_ne_nullopt o = (optional.has_value o != false) ∧
    optional.nullopt_operator_ne o = (false != optional.has_value o) ∧
    optional.operator_lt_nullopt o = decide (optional.has_value o < false) ∧
    optional.nullopt_operator_lt o = decide (false < optional.has_value o) ∧
    optional.operator_le_nullopt o = decide (optional.has_value o ≤ false) ∧
    optional.nullopt_operator_le o = decide (false ≤ optional.has_value o) ∧
    optional.operator_gt_nullopt o = decide (optional.has_value o > false) ∧
    optional.nullopt_operator_gt o = decide (false > optional.has_value o) ∧
    optional.operator_ge_nullopt o = decide (optional.has_value o ≥ false) ∧
    optional.nullopt_operator_ge o = decide (false ≥ optional.has_value o) ∧
    ((optional.operator_eq_nullopt o = true ↔ optional.has_value o = false) ∧
     (optional.nullopt_operator_eq o = true ↔ optional.has_value o = false) ∧
     (optional.operator_ne_nullopt o = true ↔ optional.has_value o = true) ∧
     (optional.nullopt_operator_ne o = true ↔ optional.has_value o = true) ∧
     optional.operator_lt_nullopt o = false ∧
     (optional.nullopt_operator_lt o = true ↔ optional.has_value o = true) ∧
     (optional.operator_le_nullopt o = true ↔ optional.has_value o = false) ∧
     optional.nullopt_operator_le o = true ∧
     (optional.operator_gt_nullopt o = true ↔ optional.has_value o = true) ∧
     optional.nullopt_operator_gt o = false ∧
     optional.operator_ge_nullopt o = true ∧
     (optional.nullopt_operator_ge o = true ↔ optional.has_value o = false)) := by
  unfold optional.operator_eq_nullopt optional.nullopt_operator_eq optional.operator_ne_nullopt
    optional.nullopt_operator_ne optional.operator_lt_nullopt optional.nullopt_operator_lt
    optional.operator_le_nullopt optional.nullopt_operator_le optional.operator_gt_nullopt
    optional.nullopt_operator_gt optional.operator_ge_nullopt optional.nullopt_operator_ge
  cases optional.has_value o <;> decide

/-- C27: for two distinct types `T` and `E`, constructing an `expected<T, E>` from an operand
`v` of type `T` (whose construction completes) yields the success state, with `has_value()`
true, discriminant `0` and `value() == v`; constructing it from an operand `e` of type `E`
yields the failure state, with `has_value()` false, discriminant `1` and `error() == e`.
`mul2_if_gt10(v)` is a success holding `2 * v` for every `v > 10` whose double is
representable, and a failure holding `"value too small"` for every `v <= 10`. -/
theorem expected_from_value_selects_state {τ : Type} [DecidableEq τ] [AltTraits τ]
    (v e : Operand τ) (raw : Bytes)
    (hTE : v.type ≠ e.type)
    (hv : v.constructor.completes v.value = true)
    (he : e.constructor.completes e.value = true)
    (hvlen : v.value.length = AltTraits.sizeof v.type)
    (helen : e.value.length = AltTraits.sizeof e.type)
    (hraw : raw.length = buff_size (expected.types v.type e.type)) :
    (∃ r, (variant_base.from_value (expected.types v.type e.type) v raw).result = .returned r ∧
      expected.has_value r = true ∧ r.m_Index = 0 ∧ r.index = 0 ∧
      r.m_Buff.object = some v.type ∧
      ((AltTraits.copy e.type).is_constructible = true →
        expected.value v.type e.type r = .returned v.value)) ∧
    (∃ r, (variant_base.from_value (expected.types v.type e.type) e raw).result = .returned r ∧
      expected.has_value r = false ∧ r.m_Index = 1 ∧ r.index = 1 ∧
      r.m_Buff.object = some e.type ∧
      expected.error e.type r = e.value) ∧
    (∀ (value : Int) (storage : Bytes), storage.length = buff_size I32StringResult →
      10 < value → value * 2 < 2 ^ 31 →
      ∃ r, mul2_if_gt10 value storage =
          .value { result := .returned r, trace := [.construct .int .storage] } ∧
        expected.has_value r = true ∧ r.index = 0 ∧
        expected.value .int .rust_String r = .returned (int32_bytes (2 * value))) ∧
    (∀ (value : Int) (storage : Bytes), storage.length = buff_size I32StringResult →
      value ≤ 10 →
      ∃ r, mul2_if_gt10 value storage =
          .value { result := .returned r, trace := [.construct .rust_String .storage] } ∧
        expected.has_value r = false ∧ r.index = 1 ∧
        expected.error .rust_String r = value_too_small) := by
  refine ⟨?_, ?_, ?_, ?_⟩
  · obtain ⟨hres, hview⟩ := expected_from_value v.type e.type v raw 0 hTE rfl hv hvlen hraw
    refine ⟨{ m_Index := ((0 : Nat) : Int),
              m_Buff := { bytes := overwrite raw v.value, object := some v.type } },
      by rw [hres], rfl, rfl, rfl, rfl, ?_⟩
    intro hE
    obtain ⟨k, hk⟩ := call_of_is_constructible _
      (view e.type (overwrite raw v.value)) hE
    simp [expected.value, hk, expected.has_value, hview]
  · obtain ⟨hres, hview⟩ := expected_from_value v.type e.type e raw 1 hTE rfl he helen hraw
    exact ⟨{ m_Index := ((1 : Nat) : Int),
             m_Buff := { bytes := overwrite raw e.value, object := some e.type } },
      by rw [hres], rfl, rfl, rfl, rfl, hview⟩
  · intro value storage hlen h10 hfits
    have hrange : -(2 : Int) ^ 31 ≤ value * 2 ∧ value * 2 < (2 : Int) ^ 31 := by
      constructor <;> omega
    obtain ⟨hres, hview⟩ := expected_from_value CxxType.int CxxType.rust_String
      (prvalue .int (int32_bytes (value * 2))) storage 0 (by decide) rfl
      (prvalue_completes _ _ rfl) (length_le_bytes 4 _) hlen
    refine ⟨{ m_Index := ((0 : Nat) : Int),
              m_Buff := { bytes := overwrite storage (int32_bytes (value * 2)),
                          object := some .int } }, ?_, rfl, rfl, ?_⟩
    · unfold mul2_if_gt10
      rw [if_pos h10, if_pos hrange]
      exact congrArg Evaluation.value hres
    · have hmul : 2 * value = value * 2 := by omega
      rw [hmul]
      have hview' : view CxxType.int (overwrite storage (int32_bytes (value * 2))) =
          int32_bytes (value * 2) := hview
      have hcall : (AltTraits.copy CxxType.rust_String).call
          (view CxxType.rust_String (overwrite storage (int32_bytes (value * 2)))) =
          some (.noexcept
            (view CxxType.rust_String (overwrite storage (int32_bytes (value * 2))))) := rfl
      simp [expected.value, expected.has_value, hview', hcall]
  · intro value storage hlen h10
    obtain ⟨hres, hview⟩ := expected_from_value CxxType.int CxxType.rust_String
      (prvalue .rust_String value_too_small) storage 1 (by decide) rfl
      (prvalue_completes _ _ rfl) (by decide) hlen
    refine ⟨{ m_Index := ((1 : Nat) : Int),
              m_Buff := { bytes := overwrite storage value_too_small,
                          object := some .rust_String } }, ?_, rfl, rfl, hview⟩
    unfold mul2_if_gt10
    rw [if_neg (by omega)]
    exact congrArg Evaluation.value hres

theorem expected_from_value_selects_state_witness :
    (prvalue .int (int32_bytes 22)).type ≠ (prvalue .rust_String Str_bad).type ∧
    (prvalue .int (int32_bytes 22)).value.length =
      AltTraits.sizeof (prvalue .int (int32_bytes 22)).type ∧
    (prvalue .rust_String Str_bad).value.length =
      AltTraits.sizeof (prvalue .rust_String Str_bad).type ∧
    (List.replicate 24 0).length = buff_size (expected.types
      (prvalue .int (int32_bytes 22)).type (prvalue .rust_String Str_bad).type) ∧
    (∃ r, (variant_base.from_value (expected.types (prvalue .int (int32_bytes 22)).type
        (prvalue .rust_String Str_bad).type) (prvalue .rust_String Str_bad)
        (List.replicate 24 0)).result = .returned r ∧
      expected.has_value r = false ∧ r.m_Index = 1 ∧ r.index = 1 ∧
      r.m_Buff.object = some (prvalue .rust_String Str_bad).type ∧
      expected.error (prvalue .rust_String Str_bad).type r =
        (prvalue .rust_String Str_bad).value) :=
  ⟨by decide, by decide, by decide, by decide,
   (expected_from_value_selects_state (prvalue .int (int32_bytes 22))
      (prvalue .rust_String Str_bad) (List.replicate 24 0) (by decide)
      (prvalue_completes _ _ rfl) (prvalue_completes _ _ rfl) (by decide) (by decide)
      (by decide)).2.1⟩

/-- C28, the code at the failing input: for a `const I32StringResult`, in the failure state
holding `"bad"` as well as in the success state holding `22`, `r.value()` neither raises the
bad-access error nor returns the payload: `value() const &` casts the `const` storage to `E *`
with `reinterpret_cast`, so no call of it compiles, for any expected.  The overload `value() &`
does on the same two objects what is expected: it throws the error carrying `"bad"`, and it
returns `22`; for every expected over a copy constructible error type it fails if and only if
`has_value()` is false. -/
theorem value_of_const_expected_is_ill_formed :
    expected.has_value failure_bad = false ∧
    expected.value_const CxxType.int CxxType.rust_String failure_bad = .ill_formed ∧
    expected.has_value success_22 = true ∧
    expected.value_const CxxType.int CxxType.rust_String success_22 = .ill_formed ∧
    expected.value CxxType.int CxxType.rust_String failure_bad =
      .thrown (.bad_rust_expected_access Str_bad) ∧
    expected.value CxxType.int CxxType.rust_String success_22 = .returned (int32_bytes 22) ∧
    (∀ (T E : CxxType) (r : variant_base CxxType), expected.value_const T E r = .ill_formed) ∧
    (∀ (T E : CxxType) (r : variant_base CxxType),
      (AltTraits.copy E).is_constructible = true →
      ((∃ e, expected.value T E r = .thrown e) ↔ expected.has_value r = false) ∧
      (expected.has_value r = false →
        (AltTraits.copy E).completes (expected.error E r) = true →
        expected.value T E r = .thrown (.bad_rust_expected_access (expected.error E r))) ∧
      (expected.has_value r = true →
        expected.value T E r = .returned (view T r.m_Buff.bytes))) := by
  refine ⟨by decide, by decide, by decide, by decide, by decide, by decide, ?_, ?_⟩
  · intro T E r
    simp [expected.value_const, PointerType.converts_to]
  · intro T E r hE
    obtain ⟨h1, h2, _, h4, _⟩ := value_of_mutable_expected T E r hE
    exact ⟨h1, h2, h4⟩

/-- C29, counterexample: the expected `expected<int32_t, ThrowingCopy>` is in the failure
state, and `error_or` does not return: building the returned `E` copies the held failure
payload, and the exception of that copy constructor leaves `error_or`. -/
theorem error_or_propagates_copy_failure :
    expected.has_value failure_ThrowingCopy_7 = false ∧
    expected.error_or CxxType.ThrowingCopy (.noexcept (le_bytes 8 0)) failure_ThrowingCopy_7 =
      .thrown (.alternative 1) := by
  decide

/-- C29, as amended: for every expected `r` over a copy constructible error type `E` and every
default `d`, `error_or(d)` raises no error of its own.  It returns a copy of the held failure
payload when `r` is in the failure state and that copy completes, and `d` when `r` is in the
success state and the conversion of `d` completes; an exception that leaves it is the one
thrown by the copy constructor of `E` on the payload (failure state) or by the conversion of
`d` (success state).  `I32StringResult(failure = "bad").error_or("fallback")` is `"bad"`. -/
theorem error_or_returns_error_or_default {τ : Type} [AltTraits τ] (E : τ)
    (d : Construction) (r : variant_base τ)
    (hcopy : (AltTraits.copy E).is_constructible = true) :
    expected.error_or E d r ≠ .ill_formed ∧
    (expected.has_value r = false →
      (AltTraits.copy E).completes (expected.error E r) = true →
      expected.error_or E d r = .returned (expected.error E r)) ∧
    (expected.has_value r = true → ∀ x, d.run = .built x →
      expected.error_or E d r = .returned x) ∧
    (∀ e, expected.error_or E d r = .thrown e →
      (expected.has_value r = false ∧ ∃ c scribbled,
        (AltTraits.copy E).call (expected.error E r) = some c ∧ c.run = .failed e scribbled) ∨
      (expected.has_value r = true ∧ ∃ scribbled, d.run = .failed e scribbled)) ∧
    (expected.has_value failure_bad = false ∧
      expected.error_or CxxType.rust_String (.may_throw (.built Str_fallback)) failure_bad =
        .returned Str_bad) := by
  obtain ⟨k, hk⟩ := call_of_is_constructible _ (expected.error E r) hcopy
  have hcompl : (AltTraits.copy E).completes (expected.error E r) = true →
      k.run = .built (expected.error E r) := by
    intro h
    simpa [SpecialCtor.completes, hk] using h
  refine ⟨?_, ?_, ?_, ?_, by decide⟩
  · unfold expected.error_or
    rw [hk]
    cases expected.has_value r
    · exact returned_object_ne_ill_formed k
    · exact returned_object_ne_ill_formed d
  · intro h hc
    simp [expected.error_or, hk, h, returned_object_built k _ (hcompl hc)]
  · intro h x hx
    simp [expected.error_or, hk, h, returned_object_built d x hx]
  · intro e he
    unfold expected.error_or at he
    rw [hk] at he
    cases h : expected.has_value r
    · rw [h] at he
      obtain ⟨scribbled, hs⟩ := returned_object_thrown k e he
      exact Or.inl ⟨rfl, k, scribbled, hk, hs⟩
    · rw [h] at he
      exact Or.inr ⟨rfl, returned_object_thrown d e he⟩

theorem error_or_returns_error_or_default_witness :
    (AltTraits.copy CxxType.rust_String).is_constructible = true ∧
    expected.has_value success_22 = true ∧
    expected.error_or CxxType.rust_String (.may_throw (.built Str_fallback)) success_22 =
      .returned Str_fallback :=
  ⟨by decide, by decide,
   (error_or_returns_error_or_default CxxType.rust_String (.may_throw (.built Str_fallback))
      success_22 (by decide)).2.2.1 (by decide) Str_fallback rfl⟩

/-- C30, the code at the failing inputs.  `transform_error` declares its result as
`expected<invoke_result_t<F, T &>, E>` (the line of `transform`) and returns what `f` returns
unwrapped.  For `I32StringResult(failure = "bad")` and `toUpper`, which maps a string to a
string, the call is rejected when the program is compiled (`toUpper` cannot be invoked with an
`int32_t &`), as it is for every callable that cannot be invoked with the success type.  For a
callable that maps `int32_t &` to `int32_t` and the error string to its length, the call
compiles, `f` is called on `"bad"`, and the result is an expected in the success state holding
`3`, not one in the failure state holding `f(e)`.  Only a callable that maps `T &` to `T` and
`E &` to `E` yields a failure holding `f(e)`, and a copy of a success without calling `f`. -/
theorem transform_error_mistypes_its_result :
    (expected.transform_error CxxType.int CxxType.rust_String toUpper failure_bad
      (List.replicate 24 0)).created.result = .ill_formed ∧
    (∀ (f : Callable CxxType) (r : variant_base CxxType) (raw : Bytes),
      f.invoke_result CxxType.int = none →
      (expected.transform_error CxxType.int CxxType.rust_String f r raw).created.result =
        .ill_formed) ∧
    (expected.has_value failure_bad = false ∧
      error_length.invoke CxxType.rust_String (expected.error CxxType.rust_String failure_bad) =
        int32_bytes 3 ∧
      (expected.transform_error CxxType.int CxxType.rust_String error_length failure_bad
        (List.replicate 24 0)).calls = [(CxxType.rust_String, Str_bad)] ∧
      ∃ r, (expected.transform_error CxxType.int CxxType.rust_String error_length failure_bad
          (List.replicate 24 0)).created.result = .returned r ∧
        expected.has_value r = true ∧ r.m_Index = 0 ∧
        expected.value CxxType.int CxxType.rust_String r = .returned (int32_bytes 3)) ∧
    ((∃ r, (expected.transform_error CxxType.int CxxType.rust_String toUpper_or_same failure_bad
          (List.replicate 24 0)).created.result = .returned r ∧
        expected.has_value r = false ∧ expected.error CxxType.rust_String r = Str_BAD) ∧
      (expected.transform_error CxxType.int CxxType.rust_String toUpper_or_same success_22
        (List.replicate 24 0)).calls = [] ∧
      ∃ r, (expected.transform_error CxxType.int CxxType.rust_String toUpper_or_same success_22
          (List.replicate 24 0)).created.result = .returned r ∧
        expected.has_value r = true ∧
        expected.value CxxType.int CxxType.rust_String r = .returned (int32_bytes 22)) := by
  refine ⟨by decide, ?_, ⟨by decide, by decide, by decide, ?_⟩, ⟨?_, by decide, ?_⟩⟩
  · intro f r raw h
    simp [expected.transform_error, h]
  · exact ⟨{ m_Index := 0,
             m_Buff := { bytes := int32_bytes 3 ++ List.replicate 20 0, object := some .int } },
      by decide, by decide, by decide, by decide⟩
  · exact ⟨{ m_Index := 1, m_Buff := { bytes := Str_BAD, object := some .rust_String } },
      by decide, by decide, by decide⟩
  · exact ⟨success_22, by decide, by decide, by decide⟩

/-! ## Lemmas for the claims C31 to C40 -/

theorem CXX_DISPATCH_VARIADIC_numbers_getElem? :
    ∀ j, j < 21 → CXX_DISPATCH_VARIADIC.numbers[j]? = some (21 - j) := by
  decide

theorem CXX_DISPATCH_VARIADIC_eq {α : Type} (args : List α) (h1 : 1 ≤ args.length)
    (h21 : args.length ≤ 21) : CXX_DISPATCH_VARIADIC args = some args.length := by
  unfold CXX_DISPATCH_VARIADIC
  have hlen : (args.map (fun _ => (none : Option Nat))).length ≤ 21 := by simpa using h21
  rw [List.get?_eq_getElem?, List.getElem?_append_right hlen, List.getElem?_map,
    List.length_map, CXX_DISPATCH_VARIADIC_numbers_getElem? (21 - args.length) (by omega)]
  have h : 21 - (21 - args.length) = args.length := by omega
  simp [h]

theorem CXX_LIST_WRAP_WITH__eq {α β γ : Type} (fn : α → γ → β) (arg : γ) :
    ∀ (args : List α) (n : Nat), args.length = n → n ≤ 15 →
      CXX_LIST_WRAP_WITH_ n fn arg args = some (args.map (fun var => fn var arg))
  | [], n, hn, _ => by
    simp only [List.length_nil] at hn
    subst hn
    rfl
  | [var], n, hn, _ => by
    simp only [List.length_singleton] at hn
    subst hn
    rfl
  | var :: next :: rest, n, hn, h15 => by
    simp only [List.length_cons] at hn
    subst hn
    have ih := CXX_LIST_WRAP_WITH__eq fn arg (next :: rest) (rest.length + 1) rfl (by omega)
    simp only [CXX_LIST_WRAP_WITH_, h15, if_true, ih]
    rfl

theorem CXX_LIST_APPLY_INDEX_REV__eq {α β : Type} (fn : α → Nat → β) :
    ∀ (args : List α) (n : Nat), args.length = n → n ≤ 15 →
      CXX_LIST_APPLY_INDEX_REV_ n fn args =
        some (List.zipWith fn args.reverse (List.range args.length))
  | [], n, hn, _ => by
    simp only [List.length_nil] at hn
    subst hn
    rfl
  | [var], n, hn, _ => by
    simp only [List.length_singleton] at hn
    subst hn
    rfl
  | var :: next :: rest, n, hn, h15 => by
    simp only [List.length_cons] at hn
    subst hn
    have ih := CXX_LIST_APPLY_INDEX_REV__eq fn (next :: rest) (rest.length + 1) rfl (by omega)
    simp only [CXX_LIST_APPLY_INDEX_REV_, h15, if_true, ih, Option.map_some', Option.some.injEq]
    have hrange : List.range (var :: next :: rest).length =
        List.range (next :: rest).length ++ [rest.length + 1] := by
      simp [List.range_succ]
    rw [hrange, List.reverse_cons var, List.zipWith_append _ _ _ _ _ (by simp)]
    rfl

/-- Chaining with a compatible function: let `r` be an `expected<T, E>`, `f` a function that
maps a `T` to a `U` and `g` one that maps a `T` to an `expected<U, E>`, with `U` other than `E`,
`U` constructible from an rvalue and `E` copy constructible.  In the success state holding `v`,
`transform(f) &` calls `f` once, on `v`, and yields a success holding `f(v)`, and
`and_then(g) &` calls `g` once, on `v`, and yields `g(v)`.  In the failure state holding `e`
both yield a failure holding `e` and call nothing. -/
theorem chaining_with_compatible_function {τ : Type} [DecidableEq τ] [AltTraits τ]
    (T E U : τ) (f : Callable τ) (g : Continuation τ) (r : variant_base τ) (raw : Bytes)
    (hf : f.invoke_result T = some U)
    (hg : g.invoke_result T = some (U, E))
    (hUE : U ≠ E)
    (hU : (AltTraits.move U).is_constructible = true)
    (hE : (AltTraits.copy E).is_constructible = true)
    (hflen : (f.invoke T (view T r.m_Buff.bytes)).length = AltTraits.sizeof U)
    (helen : (expected.error E r).length = AltTraits.sizeof E)
    (hraw : raw.length = buff_size (expected.types U E)) :
    (expected.has_value r = true →
      (AltTraits.move U).completes (f.invoke T (view T r.m_Buff.bytes)) = true →
      (∃ s, (expected.transform T E f r raw).created.result = .returned s ∧
        expected.has_value s = true ∧ s.m_Index = 0 ∧
        expected.value U E s = .returned (f.invoke T (view T r.m_Buff.bytes))) ∧
      (expected.transform T E f r raw).calls = [(T, view T r.m_Buff.bytes)]) ∧
    (expected.has_value r = true →
      (expected.and_then T E g r raw).created.result =
        .returned (g.invoke T (view T r.m_Buff.bytes) raw) ∧
      (expected.and_then T E g r raw).calls = [(T, view T r.m_Buff.bytes)]) ∧
    (expected.has_value r = false →
      (AltTraits.copy E).completes (expected.error E r) = true →
      (∃ s, (expected.transform T E f r raw).created.result = .returned s ∧
        expected.has_value s = false ∧ s.m_Index = 1 ∧
        expected.error E s = expected.error E r) ∧
      (expected.transform T E f r raw).calls = [] ∧
      (∃ s, (expected.and_then T E g r raw).created.result = .returned s ∧
        expected.has_value s = false ∧ s.m_Index = 1 ∧
        expected.error E s = expected.error E r) ∧
      (expected.and_then T E g r raw).calls = []) := by
  obtain ⟨huU, huE⟩ := is_unique_v_pair U E hUE
  have hcond : is_unique_v U (expected.types U E) = true ∧
      (AltTraits.move U).is_constructible = true ∧
      is_unique_v E (expected.types U E) = true ∧
      (AltTraits.copy E).is_constructible = true := ⟨huU, hU, huE, hE⟩
  refine ⟨?_, ?_, ?_⟩
  · intro hv hcompl
    obtain ⟨hres, hview⟩ := expected_from_value U E
      { type := U, value := f.invoke T (view T r.m_Buff.bytes), category := .rvalue } raw 0
      hUE rfl hcompl hflen hraw
    have htr : expected.transform T E f r raw =
        { created := variant_base.from_value (expected.types U E)
            { type := U, value := f.invoke T (view T r.m_Buff.bytes), category := .rvalue }
            raw,
          calls := [(T, view T r.m_Buff.bytes)] } := by
      simp only [expected.transform, hf, hcond, and_self, if_true, hv]
    rw [htr]
    refine ⟨⟨{ m_Index := ((0 : Nat) : Int),
               m_Buff := { bytes := overwrite raw (f.invoke T (view T r.m_Buff.bytes)),
                           object := some U } }, by rw [hres], rfl, rfl, ?_⟩, rfl⟩
    obtain ⟨k, hk⟩ := call_of_is_constructible _
      (view E (overwrite raw (f.invoke T (view T r.m_Buff.bytes)))) hE
    simp [expected.value, hk, expected.has_value, hview]
  · intro hv
    have hand : expected.and_then T E g r raw =
        { created :=
            { result := .returned (g.invoke T (view T r.m_Buff.bytes) raw), trace := [] },
          calls := [(T, view T r.m_Buff.bytes)] } := by
      simp only [expected.and_then, hg, huE, hE, and_self, if_true, hv]
    rw [hand]
    exact ⟨rfl, rfl⟩
  · intro hv hcompl
    obtain ⟨hres, hview⟩ := expected_from_value U E
      { type := E, value := expected.error E r, category := .lvalue } raw 1
      hUE rfl hcompl helen hraw
    have htr : expected.transform T E f r raw =
        { created := variant_base.from_value (expected.types U E)
            { type := E, value := expected.error E r, category := .lvalue } raw,
          calls := [] } := by
      simp only [expected.transform, hf, hcond, and_self, if_true, hv, Bool.false_eq_true,
        if_false]
    have hand : expected.and_then T E g r raw =
        { created := variant_base.from_value (expected.types U E)
            { type := E, value := expected.error E r, category := .lvalue } raw,
          calls := [] } := by
      simp only [expected.and_then, hg, huE, hE, and_self, if_true, hv, Bool.false_eq_true,
        if_false]
    rw [htr, hand]
    exact ⟨⟨{ m_Index := ((1 : Nat) : Int),
              m_Buff := { bytes := overwrite raw (expected.error E r), object := some E } },
        by rw [hres], rfl, rfl, hview⟩, rfl,
      ⟨{ m_Index := ((1 : Nat) : Int),
         m_Buff := { bytes := overwrite raw (expected.error E r), object := some E } },
        by rw [hres], rfl, rfl, hview⟩, rfl⟩

/-! ## Claims C31 to C40 -/

/-- C31: for a list of `k` variant definitions, `1 <= k <= 15`, `CXX_DEFINE_VARIANT` derives
the struct from `variant` over the types of the definitions in declaration order, so the
alternative at position `i` (the one with discriminant `i`) is the type of the definition
declared at position `i`.  For `RustEnum` the alternatives are `Empty_t`, `Num_t`, `String_t`,
`Bool_t`, ..., `Unit2_t` of the namespace `RustEnum_impl`, which name the types of the list
`RustEnum`: `Empty` is `0`, `Num` is `1`, `String` is `2`, `Bool` is `3`, `Unit2` is `11`. -/
theorem define_variant_keeps_declaration_order (name : String) (variants : List VariantDef)
    (h1 : 1 ≤ variants.length) (h15 : variants.length ≤ 15) :
    CXX_DEFINE_VARIANT name variants =
      some (variants.map (fun d => CXX_VARIANT_COLLECT_TYPE d name)) ∧
    (∀ i d, variants.get? i = some d →
      ∃ Ts, CXX_DEFINE_VARIANT name variants = some Ts ∧ Ts.length = variants.length ∧
        variant_alternative i Ts = some (CXX_VARIANT_COLLECT_TYPE d name)) ∧
    (∃ Ts, CXX_DEFINE_VARIANT "RustEnum" RustEnum_variants = some Ts ∧
      Ts.map (fun T => T.name.base) =
        ["Empty", "Num", "String", "Bool", "Shared", "SharedRef", "Opaque", "OpaqueRef",
         "Tuple", "Struct", "Unit1", "Unit2"] ∧
      variant_alternative 0 Ts = some ⟨⟨"RustEnum", "_impl"⟩, ⟨"Empty", "_t"⟩⟩ ∧
      variant_alternative 1 Ts = some ⟨⟨"RustEnum", "_impl"⟩, ⟨"Num", "_t"⟩⟩ ∧
      variant_alternative 2 Ts = some ⟨⟨"RustEnum", "_impl"⟩, ⟨"String", "_t"⟩⟩ ∧
      variant_alternative 3 Ts = some ⟨⟨"RustEnum", "_impl"⟩, ⟨"Bool", "_t"⟩⟩ ∧
      variant_alternative 11 Ts = some ⟨⟨"RustEnum", "_impl"⟩, ⟨"Unit2", "_t"⟩⟩ ∧
      index_from_type (⟨⟨"RustEnum", "_impl"⟩, ⟨"Num", "_t"⟩⟩ : Qualified) Ts = some 1) ∧
    RustEnum_variants.map (fun d => CxxType.of_impl (CXX_VARIANT_ d).impl) =
      RustEnum.map some := by
  have hpack : CXX_DEFINE_VARIANT name variants =
      some (variants.map (fun d => CXX_VARIANT_COLLECT_TYPE d name)) := by
    unfold CXX_DEFINE_VARIANT CXX_VARIANT_TYPE_PACK CXX_LIST_WRAP_WITH
    rw [CXX_DISPATCH_VARIADIC_eq variants h1 (by omega)]
    exact CXX_LIST_WRAP_WITH__eq _ name variants _ rfl h15
  refine ⟨hpack, ?_, ?_, by decide⟩
  · intro i d hd
    refine ⟨_, hpack, by simp, ?_⟩
    rw [variant_alternative_eq_get?, List.get?_eq_getElem?, List.getElem?_map,
      ← List.get?_eq_getElem?, hd]
    rfl
  · exact ⟨_, rfl, by decide, by decide, by decide, by decide, by decide, by decide, by decide⟩

theorem define_variant_keeps_declaration_order_witness :
    1 ≤ RustEnum_variants.length ∧ RustEnum_variants.length ≤ 15 ∧
    CXX_DEFINE_VARIANT "RustEnum" RustEnum_variants =
      some (RustEnum_variants.map (fun d => CXX_VARIANT_COLLECT_TYPE d "RustEnum")) :=
  ⟨by decide, by decide,
   (define_variant_keeps_declaration_order "RustEnum" RustEnum_variants (by decide)
      (by decide)).1⟩

/-- C32, the code at the failing input: `TUPLE(Pair, int32_t, rust::String)` expands to
`struct Pair_t { rust::String _0; int32_t _1; };`.  The members are declared in the order
`_0`, `_1`, ..., but `CXX_LIST_APPLY_INDEX_REV` hands the index `k - i` to the type `Ti`: for
`k` types the member `_j` has the type `T(k-j)`, the types in reverse. -/
theorem tuple_fields_get_types_in_reverse :
    (CXX_VARIANT_TUPLE "Pair" ["int32_t", "rust::String"]).impl =
      .struct_of_fields ⟨"Pair", "_t"⟩ (some [⟨"rust::String", 0⟩, ⟨"int32_t", 1⟩]) ∧
    (CXX_VARIANT_TUPLE "Triple" ["A", "B", "C"]).impl =
      .struct_of_fields ⟨"Triple", "_t"⟩ (some [⟨"C", 0⟩, ⟨"B", 1⟩, ⟨"A", 2⟩]) ∧
    (∀ (name : String) (types : List String), 1 ≤ types.length → types.length ≤ 15 →
      (CXX_VARIANT_TUPLE name types).impl = .struct_of_fields ⟨name, "_t"⟩
        (some (List.zipWith CXX_DEFINE_TUPLE_FIELD types.reverse
          (List.range types.length)))) := by
  refine ⟨by decide, by decide, ?_⟩
  intro name types h1 h15
  simp only [CXX_VARIANT_TUPLE, CXX_LIST_APPLY_INDEX_REV,
    CXX_DISPATCH_VARIADIC_eq types h1 (by omega),
    CXX_LIST_APPLY_INDEX_REV__eq CXX_DEFINE_TUPLE_FIELD types _ rfl h15]

/-- C34, the code at the failing input.  The target `ThrowingCopy` is not nothrow
constructible from the argument but nothrow move constructible, so `emplace<1>(7)` on
`variant<rust::String, ThrowingCopy>(rust::String("x"))` builds the temporary `const T tmp`
first.  The object in the storage is then built by `T(std::move(tmp))` with a `const` operand,
a call of the copy constructor: it runs after the destructor of the held string, and here it
throws, leaving no object in the storage.  When every step completes (a string emplaced into
the union holding `Int(5)`), the object in the storage is copy constructed from the temporary;
for a target without copy constructor (`rust::Box`) the branch does not compile. -/
theorem emplace_temporary_branch_copies_after_destroy :
    (AltTraits.move CxxType.ThrowingCopy).is_nothrow_constructible = true ∧
    ThrowingCopy_7 = .may_throw (.built (le_bytes 8 7)) ∧
    (holding_x.emplace String_or_ThrowingCopy 1 ThrowingCopy_7).trace =
      [.construct .ThrowingCopy .temporary, .destroy .rust_String .storage Str_x,
       .copy_construct_failed .ThrowingCopy .storage,
       .destroy .ThrowingCopy .temporary (le_bytes 8 7)] ∧
    (holding_x.emplace String_or_ThrowingCopy 1 ThrowingCopy_7).result =
      .thrown (.alternative 1) ∧
    (holding_x.emplace String_or_ThrowingCopy 1 ThrowingCopy_7).self.m_Buff.object = none ∧
    (Int_5.emplace Unit_Int_Str 2 (.may_throw (.built Str_x))).trace =
      [.construct .rust_String .temporary, .destroy .int64_t .storage (le_bytes 8 5),
       .copy_construct .rust_String .storage, .destroy .rust_String .temporary Str_x] ∧
    (AltTraits.move CxxType.Box_RustValue).is_nothrow_constructible = true ∧
    (Int_5.emplace [.monostate, .int64_t, .Box_RustValue] 2
      (.may_throw (.built (le_bytes 8 1)))).result = .ill_formed := by
  decide

/-- C35: for a target type `T` that is not nothrow move constructible, when the construction
of `T` in the storage throws `e` after writing `scribbled` over the start of the storage,
`emplace<I>` re-raises `e` and every byte of the storage equals its value before the call (the
backup is copied back over what the constructor left), the discriminant is unchanged, the
held object is still alive, and no destructor has run: the only special member call is the
failed constructor. -/
theorem emplace_backup_branch_restores_storage {τ : Type} [AltTraits τ] (Ts : List τ)
    (I : Nat) (T : τ) (self : variant_base τ) (e : Exn) (scribbled : Bytes)
    (hT : variant_alternative I Ts = some T)
    (hmove : (AltTraits.move T).is_nothrow_constructible = false) :
    (placement_new self.m_Buff T (.failed e scribbled)).bytes =
      overwrite self.m_Buff.bytes scribbled ∧
    memcpy (placement_new self.m_Buff T (.failed e scribbled))
      (memcpy { bytes := List.replicate self.m_Buff.bytes.length 0, object := none }
        self.m_Buff self.m_Buff.bytes.length) self.m_Buff.bytes.length = self.m_Buff ∧
    (self.emplace Ts I (.may_throw (.failed e scribbled))).result = .thrown e ∧
    (self.emplace Ts I (.may_throw (.failed e scribbled))).self.m_Buff.bytes =
      self.m_Buff.bytes ∧
    (∀ i, (self.emplace Ts I (.may_throw (.failed e scribbled))).self.m_Buff.bytes.get? i =
      self.m_Buff.bytes.get? i) ∧
    (self.emplace Ts I (.may_throw (.failed e scribbled))).self.m_Index = self.m_Index ∧
    (self.emplace Ts I (.may_throw (.failed e scribbled))).self.m_Buff.object =
      self.m_Buff.object ∧
    (self.emplace Ts I (.may_throw (.failed e scribbled))).trace =
      [.construct_failed T .storage] ∧
    (∀ U place object, Event.destroy U place object ∉
      (self.emplace Ts I (.may_throw (.failed e scribbled))).trace) := by
  have hfailed := emplace_failed Ts I T self e scribbled hT
    (fun h => by rw [hmove] at h; cases h)
  rw [hfailed]
  refine ⟨rfl, ?_, rfl, rfl, fun _ => rfl, rfl, rfl, by simp [hmove], by simp⟩
  rw [backup_eq]
  exact memcpy_all _ _ _ rfl (by rw [placement_new_length])

theorem emplace_backup_branch_restores_storage_witness :
    variant_alternative 0 copy_variant = some CxxType.CopyType ∧
    (AltTraits.move CxxType.CopyType).is_nothrow_constructible = false ∧
    (CopyAndMove_held.emplace copy_variant 0
      (.may_throw (.failed (.alternative 3) [9]))).result = .thrown (.alternative 3) ∧
    (CopyAndMove_held.emplace copy_variant 0
      (.may_throw (.failed (.alternative 3) [9]))).self.m_Buff.bytes =
      CopyAndMove_held.m_Buff.bytes :=
  ⟨by decide, by decide,
   (emplace_backup_branch_restores_storage copy_variant 0 .CopyType CopyAndMove_held
      (.alternative 3) [9] (by decide) (by decide)).2.2.1,
   (emplace_backup_branch_restores_storage copy_variant 0 .CopyType CopyAndMove_held
      (.alternative 3) [9] (by decide) (by decide)).2.2.2.1⟩

/-- C36, the code at the failing input: the union `variant<monostate, int64_t, rust::String>`
holds the string `"x"` and is copy assigned to itself.  The visit hands the lambda a reference
`value` to the object in the storage of the union itself; `*this = value` goes to
`emplace<rust::String>(value)` (a `const` operand is never nothrow assignable), whose first
branch runs `destroy()` and then the constructor that copies `value`.  The destructor of the
held string has run, and the storage holds no object, when the string is read to construct the
copy.  The same order of calls holds for a union holding `Int(5)`. -/
theorem self_copy_assignment_destroys_before_copying :
    never_valueless Unit_Int_Str Str_held = true ∧
    all_copy_constructible_v Unit_Int_Str = true ∧
    visit (fun type value => (type, value)) Unit_Int_Str Str_held =
      .returned (CxxType.rust_String, Str_held.m_Buff.bytes) ∧
    (const_lvalue CxxType.rust_String Str_x).nothrow_assignable = false ∧
    (const_lvalue CxxType.rust_String Str_x).construction = some (.noexcept Str_x) ∧
    (Str_held.copy_assign Unit_Int_Str Str_held).trace =
      [.destroy .rust_String .storage Str_x, .construct .rust_String .storage] ∧
    (Str_held.destroy Unit_Int_Str).self.m_Buff.object = none ∧
    (Int_5.copy_assign Unit_Int_Str Int_5).trace =
      [.destroy .int64_t .storage (le_bytes 8 5), .construct .int64_t .storage] := by
  decide

/-- C37, the code at the failing inputs: neither `a != b` nor `a == b` can be instantiated for
two optionals, because both operators name `lhs.has_value` without calling it.  For the present
optionals holding `3` and `5`, and for an absent and a present optional (pairs that are
unequal), and for every other pair, both comparisons are rejected when the program is compiled:
there is no value of `a != b` to be the negation of `a == b`. -/
theorem optional_inequality_is_ill_formed :
    optional.operator_ne CxxType.int CxxType.int (fun x y => x != y) present_OptionalInt32_3
      present_OptionalInt32_5 = .ill_formed ∧
    optional.operator_eq CxxType.int CxxType.int (fun x y => x == y) present_OptionalInt32_3
      present_OptionalInt32_5 = .ill_formed ∧
    optional.operator_ne CxxType.int CxxType.int (fun x y => x != y) absent_OptionalInt32
      present_OptionalInt32_7 = .ill_formed ∧
    (∀ (T U : CxxType) (ne : Bytes → Bytes → Bool) (lhs rhs : variant_base CxxType),
      optional.operator_ne T U ne lhs rhs = .ill_formed) :=
  ⟨rfl, rfl, rfl, fun _ _ _ _ _ => rfl⟩

/-- C38, the code at the failing inputs: for the present optionals `Some(5)` and `Some(3)`,
`Some(5) <= Some(3)` is true and `Some(3) >= Some(5)` is true, whatever the order of the
payloads is: `operator<=` and `operator>=` return true for two present optionals without
comparing the payloads.  With a present left and an absent right operand `operator<=`
evaluates `*lhs <= *rhs`, and with an absent left and a present right operand `operator>=`
does, which dereferences the absent optional.  For two present optionals `operator<` and
`operator>` compare `*lhs` and `*rhs`, and `operator*` returns nothing (undefined behaviour). -/
theorem optional_ordering_ignores_payloads :
    (∀ le : Bytes → Bytes → Bool,
      optional.operator_le CxxType.int CxxType.int le present_OptionalInt32_5
        present_OptionalInt32_3 = .value true ∧
      optional.operator_ge CxxType.int CxxType.int le present_OptionalInt32_3
        present_OptionalInt32_5 = .value true) ∧
    (∀ (T U : CxxType) (le : Bytes → Bytes → Bool) (a b : variant_base CxxType),
      optional.has_value a = true → optional.has_value b = true →
      optional.operator_le T U le a b = .value true ∧
      optional.operator_ge T U le a b = .value true) ∧
    (∀ le : Bytes → Bytes → Bool,
      optional.operator_le CxxType.int CxxType.int le present_OptionalInt32_5
        absent_OptionalInt32 = .undefined ∧
      optional.operator_ge CxxType.int CxxType.int le absent_OptionalInt32
        present_OptionalInt32_5 = .undefined) ∧
    (∀ op : Bytes → Bytes → Bool,
      optional.operator_gt CxxType.int CxxType.int op present_OptionalInt32_5
        present_OptionalInt32_3 = .undefined ∧
      optional.operator_lt CxxType.int CxxType.int op present_OptionalInt32_3
        present_OptionalInt32_5 = .undefined) ∧
    (∀ op : Bytes → Bytes → Bool,
      optional.operator_lt CxxType.int CxxType.int op absent_OptionalInt32
        present_OptionalInt32_3 = .value true ∧
      optional.operator_gt CxxType.int CxxType.int op present_OptionalInt32_3
        absent_OptionalInt32 = .value true ∧
      optional.operator_le CxxType.int CxxType.int op absent_OptionalInt32
        present_OptionalInt32_3 = .value true ∧
      optional.operator_ge CxxType.int CxxType.int op present_OptionalInt32_3
        absent_OptionalInt32 = .value true) := by
  refine ⟨fun _ => ⟨rfl, rfl⟩, ?_, fun _ => ⟨rfl, rfl⟩, fun _ => ⟨rfl, rfl⟩,
    fun _ => ⟨rfl, rfl, rfl, rfl⟩⟩
  intro T U le a b ha hb
  simp [optional.operator_le, optional.operator_ge, ha, hb]

/-- C39, the code at the failing input: for the present `OptionalInt32` holding `7`, the
comparison `o == 7` evaluates `*lhs == rhs`, and `operator*` has no `return` statement: its
behaviour is undefined, and so is that of every comparison of a present optional with a value,
in both operand orders.  For an absent optional the twelve operators return without reading a
payload: `o < v`, `o <= v`, `o != v` are true and `o > v`, `o >= v`, `o == v` are false, and
each mirrored operator agrees (`v < o` is `o > v`, `v <= o` is `o >= v`, `v == o` is
`o == v`). -/
theorem optional_value_comparison_dereferences_without_return :
    optional.has_value present_OptionalInt32_7 = true ∧
    optional.operator_eq_value CxxType.int (fun x y => x == y) present_OptionalInt32_7
      (le_bytes 4 7) = .undefined ∧
    (∀ (T : CxxType) (op : Bytes → Bytes → Bool) (o : variant_base CxxType) (v : Bytes),
      optional.has_value o = true →
      optional.operator_eq_value T op o v = .undefined ∧
      optional.value_operator_eq T op v o = .undefined ∧
      optional.operator_ne_value T op o v = .undefined ∧
      optional.value_operator_ne T op v o = .undefined ∧
      optional.operator_lt_value T op o v = .undefined ∧
      optional.value_operator_lt T op v o = .undefined ∧
      optional.operator_le_value T op o v = .undefined ∧
      optional.value_operator_le T op v o = .undefined ∧
      optional.operator_gt_value T op o v = .undefined ∧
      optional.value_operator_gt T op v o = .undefined ∧
      optional.operator_ge_value T op o v = .undefined ∧
      optional.value_operator_ge T op v o = .undefined) ∧
    (∀ (T : CxxType) (op : Bytes → Bytes → Bool) (o : variant_base CxxType) (v : Bytes),
      optional.has_value o = false →
      optional.operator_eq_value T op o v = .value false ∧
      optional.value_operator_eq T op v o = .value false ∧
      optional.operator_ne_value T op o v = .value true ∧
      optional.value_operator_ne T op v o = .value true ∧
      optional.operator_lt_value T op o v = .value true ∧
      optional.value_operator_gt T op v o = .value true ∧
      optional.operator_le_value T op o v = .value true ∧
      optional.value_operator_ge T op v o = .value true ∧
      optional.operator_gt_value T op o v = .value false ∧
      optional.value_operator_lt T op v o = .value false ∧
      optional.operator_ge_value T op o v = .value false ∧
      optional.value_operator_le T op v o = .value false) := by
  refine ⟨rfl, rfl, ?_, ?_⟩
  · intro T op o v h
    simp [optional.operator_eq_value, optional.value_operator_eq, optional.operator_ne_value,
      optional.value_operator_ne, optional.operator_lt_value, optional.value_operator_lt,
      optional.operator_le_value, optional.value_operator_le, optional.operator_gt_value,
      optional.value_operator_gt, optional.operator_ge_value, optional.value_operator_ge, h,
      optional.operator_star, compare_payloads]
  · intro T op o v h
    simp [optional.operator_eq_value, optional.value_operator_eq, optional.operator_ne_value,
      optional.value_operator_ne, optional.operator_lt_value, optional.value_operator_lt,
      optional.operator_le_value, optional.value_operator_le, optional.operator_gt_value,
      optional.value_operator_gt, optional.operator_ge_value, optional.value_operator_ge, h]

/-- C40, the code at the failing inputs.  (a) `and_then(checked_label)` on the
`I32StringResult` in the failure state holding `"bad"`, where `checked_label` returns an
`expected<rust::String, int32_t>`: the error type of the result is not checked, `result(error())`
selects the alternative by the type of `"bad"`, and the call yields an expected in the success
state holding `"bad"` instead of a failure.  (b) `transform(label)` on the `I32StringResult`
holding `22`, with `label` returning a `rust::String`, the error type: the result of `label`
is converted to `expected<rust::String, rust::String>` by its type, which is not unique, so the
call does not compile, in either state.  (c) On a `const` expected neither `transform` nor
`and_then` compiles, for any function: their `value()` is `value() const &`.  With the
functions `widen` and `checked_widen`, whose results fit, the members `transform(f) &` and
`and_then(f) &` yield a success holding `f(22)`, respectively `f(22)`, and pass the failure
`"bad"` on. -/
theorem chaining_misplaces_or_rejects_the_result :
    expected.has_value failure_bad = false ∧
    expected.error CxxType.rust_String failure_bad = Str_bad ∧
    checked_label.invoke_result CxxType.int = some (CxxType.rust_String, CxxType.int) ∧
    expected.and_then CxxType.int CxxType.rust_String checked_label failure_bad
        (List.replicate 24 0) =
      { created :=
          { result := .returned
              { m_Index := 0, m_Buff := { bytes := Str_bad, object := some .rust_String } },
            trace := [.construct .rust_String .storage] },
        calls := [] } ∧
    expected.has_value
      ({ m_Index := 0, m_Buff := { bytes := Str_bad, object := some .rust_String } } :
        variant_base CxxType) = true ∧
    expected.has_value success_22 = true ∧
    label.invoke_result CxxType.int = some CxxType.rust_String ∧
    (∀ (r : variant_base CxxType) (raw : Bytes),
      (expected.transform CxxType.int CxxType.rust_String label r raw).created.result =
        .ill_formed) ∧
    (∀ (T E : CxxType) (f : Callable CxxType) (r : variant_base CxxType) (raw : Bytes),
      (expected.transform_const T E f r raw).created.result = .ill_formed) ∧
    (∀ (T E : CxxType) (f : Continuation CxxType) (r : variant_base CxxType) (raw : Bytes),
      (expected.and_then_const T E f r raw).created.result = .ill_formed) ∧
    (expected.transform CxxType.int CxxType.rust_String widen success_22
        (List.replicate 24 0)).created.result =
      .returned { m_Index := 0,
                  m_Buff := { bytes := le_bytes 8 22 ++ List.replicate 16 0,
                              object := some .int64_t } } ∧
    (expected.transform CxxType.int CxxType.rust_String widen failure_bad
        (List.replicate 24 0)).created.result = .returned failure_bad ∧
    (expected.and_then CxxType.int CxxType.rust_String checked_widen success_22
        (List.replicate 24 0)).created.result =
      .returned (checked_widen.invoke CxxType.int (int32_bytes 22) (List.replicate 24 0)) ∧
    (expected.and_then CxxType.int CxxType.rust_String checked_widen failure_bad
        (List.replicate 24 0)).created.result = .returned failure_bad := by
  refine ⟨by decide, by decide, by decide, ?_, by decide, by decide, by decide, ?_, ?_, ?_,
    by decide, by decide, by decide, by decide⟩
  · rfl
  · intro r raw
    simp [expected.transform, label, is_unique_v, exactly_once, is_same_pack, expected.types,
      compile_time_count]
  · intro T E f r raw
    simp [expected.transform_const, expected.value_const, PointerType.converts_to]
  · intro T E f r raw
    simp [expected.and_then_const, expected.value_const, PointerType.converts_to]

end rust.enm
